import Mathlib

/-!
# JOS: user-level copy-on-write fork and the kernel monitor's page-table commands

A shallow embedding of `lib/fork.c` (`pgfault`, `duppage`, `fork`) and of the
page-table commands of `kern/monitor.c` (`pte_info_display`,
`page_region_display`, `mon_showmapping`, `mon_clearperm`, `mon_setperm`,
`dumpvm`, `mon_dumpmem`).

Machine words are natural numbers; where the C code can wrap around, the
reduction modulo `2 ^ 32` is written out.  The system calls, the page-table
walker and the memory layout constants live in files that are not part of
the sources at hand; they are modelled from the specification and marked so.
-/

namespace JOS

/-! ## Constants and macros -/

/-- Modelled from the spec: the page size of `inc/mmu.h` (a frame is 4096 bytes). -/
def PGSIZE : Nat := 4096

/-- Modelled from the spec: the hardware `PRESENT` bit of `inc/mmu.h`. -/
def PTE_P : Nat := 0x001

/-- Modelled from the spec: the hardware `WRITABLE` bit of `inc/mmu.h`
(`kern/monitor.c` clears it together with `PTE_U` through the mask `0x6`). -/
def PTE_W : Nat := 0x002

/-- Modelled from the spec: the hardware `USER` bit of `inc/mmu.h`. -/
def PTE_U : Nat := 0x004

/-- Modelled from the spec: the software `SHARE` bit of `inc/lib.h`. -/
def PTE_SHARE : Nat := 0x400

/-- Bit `PTE_COW` of `lib/fork.c`, line 8. -/
def PTE_COW : Nat := 0x800

/-- Modelled from the spec: the bits available to software, `inc/mmu.h`. -/
def PTE_AVAIL : Nat := 0xE00

/-- Modelled from the spec: the permission bits a system call accepts,
`PTE_AVAIL | PTE_P | PTE_W | PTE_U` of `inc/mmu.h`. -/
def PTE_SYSCALL : Nat := PTE_AVAIL ||| PTE_P ||| PTE_W ||| PTE_U

/-- Modelled from the spec: the write bit of a page-fault error code, `inc/mmu.h`. -/
def FEC_WR : Nat := 0x2

/-- Modelled from the spec: the user bit of a page-fault error code, `inc/mmu.h`;
the error code of a user-mode read of a page that is not present. -/
def FEC_U : Nat := 0x4

/-- Modelled from the spec: top of the user-mappable region, `inc/memlayout.h`. -/
def UTOP : Nat := 0xeec00000

/-- Modelled from the spec: top of the user exception stack, `inc/memlayout.h`. -/
def UXSTACKTOP : Nat := UTOP

/-- Modelled from the spec: start of the program text, `inc/memlayout.h`. -/
def UTEXT : Nat := 0x800000

/-- Modelled from the spec: the scratch page of the fault handler,
`UTEMP + PTSIZE - PGSIZE` in `inc/memlayout.h`. -/
def PFTEMP : Nat := 0x7ff000

/-- Modelled from the spec: the status value `ENV_RUNNABLE` of `inc/env.h`. -/
def ENV_RUNNABLE : Nat := 2

/-- Modelled from the spec: the status value `ENV_NOT_RUNNABLE` of `inc/env.h`,
the status of an environment fresh from `sys_exofork`. -/
def ENV_NOT_RUNNABLE : Nat := 4

/-- Modelled from the spec: `PGNUM(la)` of `inc/mmu.h`, the page number of an address. -/
def PGNUM (la : Nat) : Nat := la >>> 12

/-- Modelled from the spec: `PDX(la)` of `inc/mmu.h`, the page-directory index. -/
def PDX (la : Nat) : Nat := (la >>> 22) &&& 0x3FF

/-- Modelled from the spec: `PGOFF(la)` of `inc/mmu.h`, the offset in the page. -/
def PGOFF (la : Nat) : Nat := la &&& 0xFFF

/-- Modelled from the spec: `PTE_ADDR(pte)` of `inc/mmu.h`, `pte & ~0xFFF` on 32 bits. -/
def PTE_ADDR (pte : Nat) : Nat := pte &&& 0xFFFFF000

/-- Modelled from the spec: `ROUNDDOWN(a, n)` of `inc/types.h`, on 32-bit words. -/
def ROUNDDOWN (a n : Nat) : Nat := a % 2 ^ 32 - (a % 2 ^ 32) % n

/-- Modelled from the spec: `ROUNDUP(a, n)` of `inc/types.h`,
`ROUNDDOWN((uint32_t) a + n - 1, n)` with the sum taken on 32 bits. -/
def ROUNDUP (a n : Nat) : Nat := ROUNDDOWN ((a % 2 ^ 32 + n - 1) % 2 ^ 32) n

/-- Modelled from the spec: `PTE_PERM_P(pte)` of `inc/mmu.h`, a sibling of
`PTE_PERM_COW`: the present bit as 0 or 1. -/
def PTE_PERM_P (pte : Nat) : Nat := pte &&& 1

/-- Modelled from the spec: `PTE_PERM_W(pte)` of `inc/mmu.h`: the writable bit as 0 or 1. -/
def PTE_PERM_W (pte : Nat) : Nat := (pte >>> 1) &&& 1

/-- Modelled from the spec: `PTE_PERM_U(pte)` of `inc/mmu.h`: the user bit as 0 or 1. -/
def PTE_PERM_U (pte : Nat) : Nat := (pte >>> 2) &&& 1

/-- Macro `PTE_PERM_COW` of `lib/fork.c`, line 9. -/
def PTE_PERM_COW (pte : Nat) : Nat := (pte >>> 11) &&& 1

/-! ## Address spaces, the kernel and its system calls -/

/-- One environment: its page directory (`uvpd`), its page tables laid out
flat by page number (`uvpt`), its status and its page-fault upcall. -/
structure Env where
  env_pgdir : Nat → Nat
  env_pgtab : Nat → Nat
  env_status : Nat
  env_pgfault_upcall : Nat

/-- A system call that was made, with its arguments and the value it returned. -/
inductive Syscall where
  | exofork (r : Int)
  | page_alloc (envid : Int) (va perm : Nat) (r : Int)
  | page_map (srcenvid : Int) (srcva : Nat) (dstenvid : Int) (dstva perm : Nat) (r : Int)
  | page_unmap (envid : Int) (va : Nat) (r : Int)
  | env_set_pgfault_upcall (envid : Int) (func : Nat) (r : Int)
  | env_set_status (envid : Int) (status : Nat) (r : Int)
  deriving DecidableEq, Repr

/-- The value a logged system call returned. -/
def Syscall.ret : Syscall → Int
  | .exofork r => r
  | .page_alloc _ _ _ r => r
  | .page_map _ _ _ _ _ r => r
  | .page_unmap _ _ r => r
  | .env_set_pgfault_upcall _ _ r => r
  | .env_set_status _ _ r => r

/-- The machine as the user program sees it: the running environment, all
environments, physical memory by frame address and offset, the first frame
number the allocator has not handed out, the return code the kernel gives to
the n-th system call (a negative code is a refusal and changes nothing),
the log of the calls made so far, and the user globals `thisenv` and
`_pgfault_handler`. -/
structure Machine where
  curenv : Int
  envs : Int → Env
  phys : Nat → Nat → Nat
  page_free : Nat
  rc : Nat → Int
  log : List Syscall
  thisenv : Int
  pgfault_handler : Bool

/-- How a piece of user code ends: it returns a value, or it panics. -/
inductive Result (α : Type) where
  | returned (v : α) (k : Machine)
  | panic (k : Machine)

/-- The machine state a run ended in. -/
def Result.state {α : Type} : Result α → Machine
  | .returned _ k => k
  | .panic k => k

/-- Modelled from the spec: `envid2env` of `kern/env.c`; id 0 names the caller. -/
def envid2env (k : Machine) (envid : Int) : Int :=
  if envid = 0 then k.curenv else envid

/-- Modelled from the spec: `page2pa` of `kern/pmap.h`, the physical address of
a frame, a 32-bit word. -/
def page2pa (pp : Nat) : Nat := (pp <<< 12) % 2 ^ 32

/-- Modelled from the spec: the walker of section 4.1 with `create` set, on one
environment.  A missing page table is put in the fresh frame at physical
address `pa`, which the caller takes from the allocator: the table is
zero-filled and its directory entry is that frame marked present, writable
and user.  When no frame is to be had the system call that walks is refused
with a negative code and changes nothing. -/
def pgdir_create (e : Env) (va pa : Nat) : Env :=
  if PTE_PERM_P (e.env_pgdir (PDX va)) ≠ 0 then e
  else { e with
    env_pgdir := Function.update e.env_pgdir (PDX va) (pa ||| (PTE_P ||| PTE_W ||| PTE_U)),
    env_pgtab := fun pn => if pn >>> 10 = PDX va then 0 else e.env_pgtab pn }

/-- Modelled from the spec: the number of frames the walker of section 4.1
takes from the allocator with `create` set: one when the page table for `va`
is missing, none when it exists. -/
def pgdir_frames (e : Env) (va : Nat) : Nat :=
  if PTE_PERM_P (e.env_pgdir (PDX va)) ≠ 0 then 0 else 1

/-- Modelled from the spec: the mapping primitive "install" of section 2
(`page_insert` of `kern/pmap.c`): the entry for `va` becomes `pte`, a missing
page table being created in the frame at `pa`. -/
def page_insert (e : Env) (va pte pa : Nat) : Env :=
  let e1 := pgdir_create e va pa
  { e1 with env_pgtab := Function.update e1.env_pgtab (PGNUM va) pte }

/-- Modelled from the spec: the mapping primitive "remove" of section 2
(`page_remove` of `kern/pmap.c`): the entry for `va`, if its table exists,
is cleared. -/
def page_remove (e : Env) (va : Nat) : Env :=
  if PTE_PERM_P (e.env_pgdir (PDX va)) ≠ 0 then
    { e with env_pgtab := Function.update e.env_pgtab (PGNUM va) 0 }
  else e

/-- The entry that governs page `pn` in an environment: the page-table entry
when the page table exists, and 0 (nothing mapped) when it does not. -/
def Env.lookup (e : Env) (pn : Nat) : Nat :=
  if PTE_PERM_P (e.env_pgdir (pn >>> 10)) ≠ 0 then e.env_pgtab pn else 0

/-- Modelled from the spec: the read-only view `uvpd` of the running
environment's page directory (`inc/memlayout.h`). -/
def uvpd (k : Machine) (i : Nat) : Nat := (k.envs k.curenv).env_pgdir i

/-- Modelled from the spec: the read-only view `uvpt` of the running
environment's page tables (`inc/memlayout.h`).  The slot of page `pn` can be
read only when the page table holding it exists; otherwise the read itself
page-faults, which is `none`. -/
def uvpt (k : Machine) (pn : Nat) : Option Nat :=
  if PTE_PERM_P (uvpd k (pn >>> 10)) ≠ 0 then some ((k.envs k.curenv).env_pgtab pn) else none

/-- Modelled from the spec: a user-mode read of the page at `va` is allowed
when its page table exists and its entry is present and user. -/
def user_readable (k : Machine) (va : Nat) : Bool :=
  match uvpt k (PGNUM va) with
  | none => false
  | some pte => PTE_PERM_P pte ≠ 0 && PTE_PERM_U pte ≠ 0

/-- Modelled from the spec: a user-mode write of the page at `va` is allowed
when it is readable and its entry is writable. -/
def user_writable (k : Machine) (va : Nat) : Bool :=
  match uvpt k (PGNUM va) with
  | none => false
  | some pte => PTE_PERM_P pte ≠ 0 && PTE_PERM_U pte ≠ 0 && PTE_PERM_W pte ≠ 0

/-- Modelled from the spec: the "new address-space container" of section 4.3,
made by an environment `p`: an environment with nothing mapped in its user
region, below `UTOP`, that is not runnable and has no upcall.  At and above
`UTOP` lies the kernel's part of the address space, which is the same in
every environment: the new environment has there what `p` has. -/
def env_fresh (p : Env) : Env :=
  { env_pgdir := fun i => if i < PDX UTOP then 0 else p.env_pgdir i,
    env_pgtab := fun pn => if pn < PGNUM UTOP then 0 else p.env_pgtab pn,
    env_status := ENV_NOT_RUNNABLE, env_pgfault_upcall := 0 }

/-- Modelled from the spec: `sys_exofork` of `kern/syscall.c`, the call that
"allocates a new address-space container".  A negative code is an error; a
positive code is the id of the new environment, created with an empty user
address space and not runnable, its page directory in a frame taken from
the allocator; code 0 is what the call returns in the child when it is
first run. -/
def sys_exofork (k : Machine) : Int × Machine :=
  let r := k.rc k.log.length
  let k1 := { k with log := k.log ++ [Syscall.exofork r] }
  if r ≤ 0 then (r, k1)
  else
    let envs1 := Function.update k.envs r (env_fresh (k.envs k.curenv))
    (r, { k1 with envs := envs1, page_free := k.page_free + 1 })

/-- Modelled from the spec: `sys_page_alloc` of `kern/syscall.c`: a frame from
the allocator, zero-filled, is installed at `va` of `envid` with `perm`; the
walker takes the next frame when the page table for `va` is missing.  The
contents of a page-table frame are kept in `env_pgtab`, not in `phys`. -/
def sys_page_alloc (k : Machine) (envid : Int) (va perm : Nat) : Int × Machine :=
  let r := k.rc k.log.length
  let k1 := { k with log := k.log ++ [Syscall.page_alloc envid va perm r] }
  if r < 0 then (r, k1)
  else
    let e := envid2env k envid
    let pa := page2pa k.page_free
    let e1 := page_insert (k.envs e) va (pa ||| perm) (page2pa (k.page_free + 1))
    (0, { k1 with
      envs := Function.update k.envs e e1,
      phys := Function.update k.phys pa (fun _ => 0),
      page_free := k.page_free + 1 + pgdir_frames (k.envs e) va })

/-- Modelled from the spec: `sys_page_map` of `kern/syscall.c`: the frame
mapped at `srcva` of `srcenvid` is installed at `dstva` of `dstenvid` with
the permission bits `perm`; the walker takes a frame from the allocator when
the page table for `dstva` is missing. -/
def sys_page_map (k : Machine) (srcenvid : Int) (srcva : Nat) (dstenvid : Int)
    (dstva perm : Nat) : Int × Machine :=
  let r := k.rc k.log.length
  let k1 := { k with log := k.log ++ [Syscall.page_map srcenvid srcva dstenvid dstva perm r] }
  if r < 0 then (r, k1)
  else
    let src := envid2env k srcenvid
    let dst := envid2env k dstenvid
    let pte := (k.envs src).env_pgtab (PGNUM srcva)
    let e1 := page_insert (k.envs dst) dstva (PTE_ADDR pte ||| perm) (page2pa k.page_free)
    (0, { k1 with
      envs := Function.update k.envs dst e1,
      page_free := k.page_free + pgdir_frames (k.envs dst) dstva })

/-- Modelled from the spec: `sys_page_unmap` of `kern/syscall.c`: whatever is
mapped at `va` of `envid` is removed. -/
def sys_page_unmap (k : Machine) (envid : Int) (va : Nat) : Int × Machine :=
  let r := k.rc k.log.length
  let k1 := { k with log := k.log ++ [Syscall.page_unmap envid va r] }
  if r < 0 then (r, k1)
  else
    let e := envid2env k envid
    (0, { k1 with envs := Function.update k.envs e (page_remove (k.envs e) va) })

/-- Modelled from the spec: `sys_env_set_pgfault_upcall` of `kern/syscall.c`,
the "fault-upcall installation call". -/
def sys_env_set_pgfault_upcall (k : Machine) (envid : Int) (func : Nat) : Int × Machine :=
  let r := k.rc k.log.length
  let k1 := { k with log := k.log ++ [Syscall.env_set_pgfault_upcall envid func r] }
  if r < 0 then (r, k1)
  else
    let e := envid2env k envid
    (0, { k1 with envs := Function.update k.envs e { k.envs e with env_pgfault_upcall := func } })

/-- Modelled from the spec: `sys_env_set_status` of `kern/syscall.c`, the
"mark runnable" call. -/
def sys_env_set_status (k : Machine) (envid : Int) (status : Nat) : Int × Machine :=
  let r := k.rc k.log.length
  let k1 := { k with log := k.log ++ [Syscall.env_set_status envid status r] }
  if r < 0 then (r, k1)
  else
    let e := envid2env k envid
    (0, { k1 with envs := Function.update k.envs e { k.envs e with env_status := status } })

/-- Modelled from the spec: `memmove(dst, src, PGSIZE)` of `lib/string.c` between
two page-aligned user addresses: the frame behind `dst` receives the bytes
of the frame behind `src`. -/
def memmove_page (k : Machine) (dst src : Nat) : Machine :=
  let e := k.envs k.curenv
  let dpa := PTE_ADDR (e.env_pgtab (PGNUM dst))
  let spa := PTE_ADDR (e.env_pgtab (PGNUM src))
  { k with phys := Function.update k.phys dpa (k.phys spa) }

/-- Modelled from the spec: `set_pgfault_handler` of `lib/pgfault.c`: the caller
installs the handler (section 4.3, precondition).  The system calls by
which the caller gets its own exception stack the first time it installs a
handler are not part of this model; the statements that depend on that
stack being there say so. -/
def set_pgfault_handler (k : Machine) : Machine :=
  { k with pgfault_handler := true }

/-- The part of `struct UTrapframe` that `pgfault` reads. -/
structure UTrapframe where
  utf_fault_va : Nat
  utf_err : Nat

/-! ## `lib/fork.c` -/

/-- Function `pgfault` of `lib/fork.c`, lines 23-83.  A read that page-faults
inside the handler (the `uvpt` slot when the page table is absent, the
source of `memmove` when the page is not readable) re-enters the handler
with a read cause, and a handler entered with a read cause panics at once
(line 44): such a read ends in `panic` with the state it found. -/
def pgfault (k : Machine) (utf : UTrapframe) : Result Unit :=
  let addr := ROUNDDOWN utf.utf_fault_va PGSIZE
  if utf.utf_err &&& FEC_WR = 0 then Result.panic k
  else
    match uvpt k (PGNUM addr) with
    | none => Result.panic k
    | some pte =>
      if ¬ (PTE_PERM_COW pte ≠ 0 ∧ PTE_PERM_P pte ≠ 0) then Result.panic k
      else
        let a := sys_page_alloc k 0 PFTEMP (PTE_U ||| PTE_P ||| PTE_W)
        if a.1 < 0 then Result.panic a.2
        else if user_readable a.2 addr = false then Result.panic a.2
        else
          let k2 := memmove_page a.2 PFTEMP addr
          let m := sys_page_map k2 0 PFTEMP 0 addr (PTE_U ||| PTE_P ||| PTE_W)
          if m.1 < 0 then Result.panic m.2
          else
            let u := sys_page_unmap m.2 0 PFTEMP
            if u.1 < 0 then Result.panic u.2
            else Result.returned () u.2

/-- Function `duppage` of `lib/fork.c`, lines 96-137.  `pn * PGSIZE` is an
`unsigned` product; a read of `uvpt` that page-faults ends in the handler's
panic, as in `pgfault`. -/
def duppage (k : Machine) (envid : Int) (pn : Nat) : Result Int :=
  let va := (pn * PGSIZE) % 2 ^ 32
  let addr := va
  match uvpt k (PGNUM addr) with
  | none => Result.panic k
  | some pte =>
    if pte &&& PTE_SHARE ≠ 0 then
      let m := sys_page_map k 0 va envid va (pte &&& PTE_SYSCALL)
      if m.1 < 0 then Result.panic m.2 else Result.returned 0 m.2
    else if PTE_PERM_W pte ≠ 0 ∨ PTE_PERM_COW pte ≠ 0 then
      let m := sys_page_map k 0 va envid va (PTE_P ||| PTE_U ||| PTE_COW)
      if m.1 < 0 then Result.panic m.2
      else
        let m2 := sys_page_map m.2 0 va 0 va (PTE_P ||| PTE_U ||| PTE_COW)
        if m2.1 < 0 then Result.panic m2.2 else Result.returned 0 m2.2
    else
      let m := sys_page_map k 0 va envid va (PTE_P ||| PTE_U)
      if m.1 < 0 then Result.panic m.2 else Result.returned 0 m.2

/-- The body of the page loop of `fork`, `lib/fork.c`, lines 185-209, for one
`addr`; `returned` stands for reaching the end of the body or a `continue`. -/
def fork_loop_body (envid : Int) (addr : Nat) (k : Machine) : Result Unit :=
  let pde := uvpd k (PDX addr)
  if PTE_PERM_P pde = 0 then Result.returned () k
  else
    let pte := (k.envs k.curenv).env_pgtab (PGNUM addr)
    if addr = UXSTACKTOP - PGSIZE then
      let a := sys_page_alloc k envid addr (PTE_U ||| PTE_P ||| PTE_W)
      if a.1 < 0 then Result.panic a.2
      else Result.returned () a.2
    else if PTE_PERM_P pde = 0 ∨ PTE_PERM_P pte = 0 then Result.returned () k
    else
      match duppage k envid (PGNUM addr) with
      | Result.panic k1 => Result.panic k1
      | Result.returned _ k1 => Result.returned () k1

/-- The page loop of `fork`, `lib/fork.c`, lines 183-210, from `addr` on.
`addr` stays below `UTOP`, so `addr += PGSIZE` never wraps. -/
def forkLoop (envid : Int) (addr : Nat) (k : Machine) : Result Unit :=
  if addr < UTOP then
    match fork_loop_body envid addr k with
    | Result.panic k1 => Result.panic k1
    | Result.returned _ k1 => forkLoop envid (addr + PGSIZE) k1
  else Result.returned () k
termination_by UTOP - addr
decreasing_by simp only [PGSIZE]; omega

/-- Function `fork` of `lib/fork.c`, lines 155-229.  `upcall` is the address of
`_pgfault_upcall`. -/
def fork (k : Machine) (upcall : Nat) : Result Int :=
  let k0 := set_pgfault_handler k
  let x := sys_exofork k0
  let envid := x.1
  if envid < 0 then Result.panic x.2
  else if envid = 0 then
    Result.returned 0 { x.2 with thisenv := x.2.curenv }
  else
    match forkLoop envid UTEXT x.2 with
    | Result.panic k2 => Result.panic k2
    | Result.returned _ k2 =>
      let s := sys_env_set_pgfault_upcall k2 envid upcall
      if s.1 < 0 then Result.panic s.2
      else
        let t := sys_env_set_status s.2 envid ENV_RUNNABLE
        if t.1 < 0 then Result.panic t.2
        else Result.returned envid t.2

/-! ## `kern/monitor.c` -/

/-- One `cprintf` of the page-table commands, with the values it formats. -/
inductive Line where
  | va (va : Nat)
  | not_exist
  | pte_info (pa p w u : Nat)
  | usage_showmapping
  | usage_clearperm
  | usage_setperm
  | usage_memdump
  | perm_cleared
  | perm_set
  | dump (va pa content : Nat)
  | dump_none (va : Nat)
  deriving DecidableEq, Repr

/-- The kernel as the monitor sees it: the kernel page directory
(`kern_pgdir`) with its page tables laid out flat by page number, the
32-bit word stored at each physical address, and what was printed. -/
structure Monitor where
  kern_pgdir : Nat → Nat
  kern_pgtab : Nat → Nat
  phys : Nat → Nat
  console : List Line

/-- How a monitor command ends: it comes back, or a read of the kernel takes
a page fault at an address. -/
inductive MonResult where
  | done (m : Monitor)
  | fault (m : Monitor) (va : Nat)

/-- Modelled from the spec: `cprintf` of `kern/printf.c`; the line is appended
to the console. -/
def cprintf (m : Monitor) (l : Line) : Monitor :=
  { m with console := m.console ++ [l] }

/-- Modelled from the spec: the walker `pgdir_walk(kern_pgdir, va, 0)` of
`kern/pmap.c` (section 4.1, `create` false): the slot of the entry for `va`,
or `none` when the page table for its range does not exist. -/
def pgdir_walk (m : Monitor) (va : Nat) : Option Nat :=
  if m.kern_pgdir (PDX va) &&& PTE_P ≠ 0 then some (PGNUM va) else none

/-- Modelled from the spec: a kernel read of the word at `va` goes through
when the page table exists and the entry is present, and page-faults
otherwise. -/
def kernel_read (m : Monitor) (va : Nat) : Option Nat :=
  if m.kern_pgdir (PDX va) &&& PTE_P ≠ 0 ∧ m.kern_pgtab (PGNUM va) &&& PTE_P ≠ 0 then
    some (m.phys (PTE_ADDR (m.kern_pgtab (PGNUM va)) ||| PGOFF va))
  else none

/-- Modelled from the spec: the cast of a `long` to a 32-bit pointer. -/
def to_ptr (x : Int) : Nat := (x % 2 ^ 32).toNat

/-- Function `pte_info_display` of `kern/monitor.c`, lines 139-164; the
result is the slot it returns (`none` for `NULL`) and the machine after
printing. -/
def pte_info_display (m : Monitor) (va : Nat) : Option Nat × Monitor :=
  let pte := pgdir_walk m va
  let m1 := cprintf m (Line.va va)
  match pte with
  | none => (none, cprintf m1 Line.not_exist)
  | some i =>
    if m.kern_pgtab i &&& PTE_P = 0 then (none, cprintf m1 Line.not_exist)
    else
      (some i, cprintf m1 (Line.pte_info (PTE_ADDR (m.kern_pgtab i))
        (PTE_PERM_P (m.kern_pgtab i)) (PTE_PERM_W (m.kern_pgtab i))
        (PTE_PERM_U (m.kern_pgtab i))))

/-- The loop of `page_region_display`, `kern/monitor.c`, lines 174-177, from
`va` on.  The pointers are page-aligned (lines 170-171), so `va += PGSIZE`
does not wrap before it reaches `end`. -/
def page_region_loop (va end_ : Nat) (m : Monitor) : Monitor :=
  if va < end_ then page_region_loop (va + PGSIZE) end_ (pte_info_display m va).2
  else m
termination_by end_ - va
decreasing_by simp only [PGSIZE]; omega

/-- Function `page_region_display` of `kern/monitor.c`, lines 167-178. -/
def page_region_display (start end_ : Nat) (m : Monitor) : Monitor :=
  let start := ROUNDDOWN start PGSIZE
  let end_ := ROUNDUP end_ PGSIZE
  page_region_loop start end_ m

/-- Function `mon_showmapping` of `kern/monitor.c`, lines 181-202.  `strtol`
is the parser of `lib/string.c`, taken as a parameter; `start + PGSIZE` is
pointer arithmetic on 32 bits. -/
def mon_showmapping (strtol : String → Int) (argv : List String) (m : Monitor) : Monitor :=
  if argv.length = 2 then
    let start := to_ptr (strtol (argv.getD 1 ""))
    page_region_display start ((start + PGSIZE) % 2 ^ 32) m
  else if argv.length = 3 then
    let start := to_ptr (strtol (argv.getD 1 ""))
    let end_ := to_ptr (strtol (argv.getD 2 ""))
    page_region_display start end_ m
  else cprintf m Line.usage_showmapping

/-- Function `mon_clearperm` of `kern/monitor.c`, lines 205-223; `~0x6` on 32 bits. -/
def mon_clearperm (strtol : String → Int) (argv : List String) (m : Monitor) : Monitor :=
  if argv.length ≠ 2 then cprintf m Line.usage_clearperm
  else
    let va := to_ptr (strtol (argv.getD 1 ""))
    let d := pte_info_display m va
    match d.1 with
    | some i =>
      let t := Function.update d.2.kern_pgtab i (d.2.kern_pgtab i &&& 0xFFFFFFF9)
      let m1 := { d.2 with kern_pgtab := t }
      (pte_info_display (cprintf m1 Line.perm_cleared) va).2
    | none => d.2

/-- Function `mon_setperm` of `kern/monitor.c`, lines 226-268; `~0x6` on 32 bits. -/
def mon_setperm (strtol : String → Int) (argv : List String) (m : Monitor) : Monitor :=
  if argv.length ≠ 4 then cprintf m Line.usage_setperm
  else
    let a2 := argv.getD 2 ""
    let a3 := argv.getD 3 ""
    let perm_W : Option Nat :=
      if a2.length = 1 ∧ a2.get 0 = 'r' then some 0
      else if a2.length = 1 ∧ a2.get 0 = 'w' then some PTE_W
      else none
    match perm_W with
    | none => cprintf m Line.usage_setperm
    | some perm_W =>
      let perm_U : Option Nat :=
        if a3.length = 1 ∧ a3.get 0 = 'u' then some PTE_U
        else if a3.length = 1 ∧ a3.get 0 = 'k' then some 0
        else none
      match perm_U with
      | none => cprintf m Line.usage_setperm
      | some perm_U =>
        let va := to_ptr (strtol (argv.getD 1 ""))
        let d := pte_info_display m va
        match d.1 with
        | some i =>
          let t1 := Function.update d.2.kern_pgtab i (d.2.kern_pgtab i &&& 0xFFFFFFF9)
          let m1 := { d.2 with kern_pgtab := t1 }
          let t2 := Function.update m1.kern_pgtab i (m1.kern_pgtab i ||| (perm_U ||| perm_W))
          let m2 := { m1 with kern_pgtab := t2 }
          (pte_info_display (cprintf m2 Line.perm_set) va).2
        | none => d.2

/-- Function `dumpvm` of `kern/monitor.c`, lines 273-290, from `va` on.  The
pointers are multiples of 4 (line 272), so `va++` does not wrap before it
reaches `end`. -/
def dumpvm (va end_ : Nat) (m : Monitor) : MonResult :=
  if va < end_ then
    match pgdir_walk m va with
    | some i =>
      let pa := PTE_ADDR (m.kern_pgtab i) ||| PGOFF va
      match kernel_read m va with
      | some w => dumpvm (va + 4) end_ (cprintf m (Line.dump va pa w))
      | none => MonResult.fault m va
    | none => dumpvm (va + 4) end_ (cprintf m (Line.dump_none va))
  else MonResult.done m
termination_by end_ - va

/-- Function `mon_dumpmem` of `kern/monitor.c`, lines 329-353.  `dumppm` (lines
308-325) is taken as a parameter; `start + N` is pointer arithmetic on 32
bits in units of 4 bytes. -/
def mon_dumpmem (strtol : String → Int) (dumppm : Nat → Nat → Monitor → MonResult)
    (argv : List String) (m : Monitor) : MonResult :=
  if argv.length ≠ 4 then MonResult.done (cprintf m Line.usage_memdump)
  else
    let start := ROUNDDOWN (to_ptr (strtol (argv.getD 2 ""))) 4
    let end_ := to_ptr ((start : Int) + 4 * strtol (argv.getD 3 ""))
    let a1 := argv.getD 1 ""
    if a1.length = 1 ∧ a1.get 0 = 'v' then dumpvm start end_ m
    else if a1.length = 1 ∧ a1.get 0 = 'p' then dumppm start end_ m
    else MonResult.done (cprintf m Line.usage_memdump)

/-! ## Vocabulary of the statements -/

/-- The address at which a logged call installs a mapping, if it installs one. -/
def Syscall.dstva : Syscall → Option Nat
  | .page_alloc _ va _ _ => some va
  | .page_map _ _ _ dva _ _ => some dva
  | _ => none

/-- A logged call with its return value replaced. -/
def Syscall.with_ret : Syscall → Int → Syscall
  | .exofork _, r => .exofork r
  | .page_alloc e va perm _, r => .page_alloc e va perm r
  | .page_map s sva d dva perm _, r => .page_map s sva d dva perm r
  | .page_unmap e va _, r => .page_unmap e va r
  | .env_set_pgfault_upcall e f _, r => .env_set_pgfault_upcall e f r
  | .env_set_status e st _, r => .env_set_status e st r

/-- A logged call is a `sys_env_set_status`. -/
def Syscall.is_set_status : Syscall → Bool
  | .env_set_status _ _ _ => true
  | _ => false

/-- A logged call is a `sys_page_map` into environment `c` at address `va`. -/
def Syscall.maps_into (c : Int) (va : Nat) : Syscall → Bool
  | .page_map _ _ d dva _ _ => d = c && dva = va
  | _ => false

/-- Making the call that a log entry names (its return value is not looked at). -/
def exec (k : Machine) : Syscall → Int × Machine
  | .exofork _ => sys_exofork k
  | .page_alloc e va perm _ => sys_page_alloc k e va perm
  | .page_map s sva d dva perm _ => sys_page_map k s sva d dva perm
  | .page_unmap e va _ => sys_page_unmap k e va
  | .env_set_pgfault_upcall e f _ => sys_env_set_pgfault_upcall k e f
  | .env_set_status e st _ => sys_env_set_status k e st

/-- Making a list of calls in order, with a panic at the first negative return. -/
def run (k : Machine) : List Syscall → Result Unit
  | [] => Result.returned () k
  | c :: cs => if (exec k c).1 < 0 then Result.panic (exec k c).2 else run (exec k c).2 cs

/-- The permission bits of the child's mapping under the three policies of
section 4.3, in their priority order: shared, copy-on-write, read-only. -/
def policy_perm (pte : Nat) : Nat :=
  if pte &&& PTE_SHARE ≠ 0 then pte &&& PTE_SYSCALL
  else if PTE_PERM_W pte ≠ 0 ∨ PTE_PERM_COW pte ≠ 0 then PTE_P ||| PTE_U ||| PTE_COW
  else PTE_P ||| PTE_U

/-- The calls the policies ask for on a present page with entry `pte` at `va`
(return values left at 0): one `sys_page_map` into the child, followed under
the copy-on-write policy by the re-mapping of the parent. -/
def dup_calls (c : Int) (va pte : Nat) : List Syscall :=
  if pte &&& PTE_SHARE = 0 ∧ (PTE_PERM_W pte ≠ 0 ∨ PTE_PERM_COW pte ≠ 0) then
    [Syscall.page_map 0 va c va (policy_perm pte) 0,
     Syscall.page_map 0 va 0 va (PTE_P ||| PTE_U ||| PTE_COW) 0]
  else [Syscall.page_map 0 va c va (policy_perm pte) 0]

/-- The calls one round of the page loop asks for at `addr`. -/
def body_calls (k : Machine) (c : Int) (addr : Nat) : List Syscall :=
  if PTE_PERM_P (uvpd k (PDX addr)) = 0 then []
  else if addr = UXSTACKTOP - PGSIZE then
    [Syscall.page_alloc c addr (PTE_U ||| PTE_P ||| PTE_W) 0]
  else if PTE_PERM_P ((k.envs k.curenv).env_pgtab (PGNUM addr)) = 0 then []
  else dup_calls c addr ((k.envs k.curenv).env_pgtab (PGNUM addr))

/-- A logged call with its return value erased. -/
def Syscall.forget (x : Syscall) : Syscall := x.with_ret 0

/-- The calls `new` were made one after the other by code that panics at the
first refusal and stops with the result `res`: every call but the last
succeeded, all succeeded when the code returned, and when it panicked the
last call is the one that was refused. -/
structure LogOk {α : Type} (res : Result α) (new : List Syscall) : Prop where
  init : ∀ x ∈ new.dropLast, 0 ≤ x.ret
  ret : ∀ v k', res = Result.returned v k' → ∀ x ∈ new, 0 ≤ x.ret
  pan : ∀ k', res = Result.panic k' → ∃ x, new.getLast? = some x ∧ x.ret < 0

/-- What the calls of one round of the page loop, at page `pn`, leave alone:
the running environment, the parent's page directory, the parent's and the
child's entries for every other page, and the status of every environment. -/
structure Eff (c : Int) (pn : Nat) (k k' : Machine) : Prop where
  curenv : k'.curenv = k.curenv
  pgdir : (k'.envs k.curenv).env_pgdir = (k.envs k.curenv).env_pgdir
  pgtab : ∀ q, q ≠ pn → (k'.envs k.curenv).env_pgtab q = (k.envs k.curenv).env_pgtab q
  child : ∀ q, q ≠ pn → (k'.envs c).lookup q = (k.envs c).lookup q
  status : ∀ e, (k'.envs e).env_status = (k.envs e).env_status

/-- The calls of the page loop at `va`: an allocation in the child, or a
mapping of the parent's page into the child or back into the parent. -/
def LoopCall (c : Int) (va : Nat) : Syscall → Prop
  | .page_alloc e a _ _ => e = c ∧ a = va
  | .page_map s sva d dva _ _ => s = 0 ∧ sva = va ∧ dva = va ∧ (d = c ∨ d = 0)
  | _ => False

/-- The child's entry for the page at `addr` after a round of the page loop
that came back, for a page other than the exception stack: the parent's
frame with the permission of the policy when the parent has the page, and
what the child had before when the parent has not. -/
def child_entry (k : Machine) (c : Int) (addr : Nat) : Nat :=
  if PTE_PERM_P (uvpd k (PDX addr)) = 0 ∨
      PTE_PERM_P ((k.envs k.curenv).env_pgtab (PGNUM addr)) = 0 then
    (k.envs c).lookup (PGNUM addr)
  else PTE_ADDR ((k.envs k.curenv).env_pgtab (PGNUM addr)) |||
    policy_perm ((k.envs k.curenv).env_pgtab (PGNUM addr))

/-- The parent's own entry for the page at `addr` after a round of the page
loop that came back: under the copy-on-write policy its frame re-mapped
with `PTE_P | PTE_U | PTE_COW`, and what it was in every other case. -/
def parent_entry (k : Machine) (addr : Nat) : Nat :=
  if PTE_PERM_P (uvpd k (PDX addr)) ≠ 0 ∧ addr ≠ UXSTACKTOP - PGSIZE ∧
      PTE_PERM_P ((k.envs k.curenv).env_pgtab (PGNUM addr)) ≠ 0 ∧
      (k.envs k.curenv).env_pgtab (PGNUM addr) &&& PTE_SHARE = 0 ∧
      (PTE_PERM_W ((k.envs k.curenv).env_pgtab (PGNUM addr)) ≠ 0 ∨
        PTE_PERM_COW ((k.envs k.curenv).env_pgtab (PGNUM addr)) ≠ 0) then
    PTE_ADDR ((k.envs k.curenv).env_pgtab (PGNUM addr)) ||| (PTE_P ||| PTE_U ||| PTE_COW)
  else (k.envs k.curenv).env_pgtab (PGNUM addr)

/-- What the page loop from `addr` on leaves alone: the running environment,
the return codes to come, the parent's page directory, the status of every
environment, and the parent's and the child's entries for the pages outside
the range it still has to go through. -/
structure LoopEff (c : Int) (addr : Nat) (k k' : Machine) : Prop where
  curenv : k'.curenv = k.curenv
  rc : k'.rc = k.rc
  pgdir : (k'.envs k.curenv).env_pgdir = (k.envs k.curenv).env_pgdir
  status : ∀ e, (k'.envs e).env_status = (k.envs e).env_status
  outside : ∀ q, ¬ (PGNUM addr ≤ q ∧ q < PGNUM UTOP) →
    (k'.envs k.curenv).env_pgtab q = (k.envs k.curenv).env_pgtab q ∧
    (k'.envs c).lookup q = (k.envs c).lookup q

/-- What a system call leaves alone whatever it returns, and the entry it logs. -/
structure Logged (k k1 : Machine) (c : Syscall) : Prop where
  curenv : k1.curenv = k.curenv
  rc : k1.rc = k.rc
  log : k1.log = k.log ++ [c]
  thisenv : k1.thisenv = k.thisenv
  handler : k1.pgfault_handler = k.pgfault_handler

/-- The ways a run of `fork` can go, with `r` the code `sys_exofork` gets:
`sys_exofork` is refused; the run is the child's; the page loop panics; the
installation of the upcall is refused; the marking as runnable is refused;
everything succeeds. -/
inductive ForkRun (k : Machine) (upcall : Nat) : Result Int → Prop where
  | exofork_refused (k1 : Machine) :
      k.rc k.log.length < 0 →
      Logged (set_pgfault_handler k) k1 (Syscall.exofork (k.rc k.log.length)) →
      ForkRun k upcall (Result.panic k1)
  | child (k1 : Machine) :
      k.rc k.log.length = 0 →
      k1.log = k.log ++ [Syscall.exofork 0] →
      ForkRun k upcall (Result.returned 0 k1)
  | loop_panic (k1 k2 : Machine) :
      0 < k.rc k.log.length →
      sys_exofork (set_pgfault_handler k) = (k.rc k.log.length, k1) →
      forkLoop (k.rc k.log.length) UTEXT k1 = Result.panic k2 →
      ForkRun k upcall (Result.panic k2)
  | upcall_refused (k1 k2 k3 : Machine) :
      0 < k.rc k.log.length →
      sys_exofork (set_pgfault_handler k) = (k.rc k.log.length, k1) →
      forkLoop (k.rc k.log.length) UTEXT k1 = Result.returned () k2 →
      k2.rc k2.log.length < 0 →
      Logged k2 k3 (Syscall.env_set_pgfault_upcall (k.rc k.log.length) upcall
        (k2.rc k2.log.length)) →
      k3.envs = k2.envs →
      ForkRun k upcall (Result.panic k3)
  | status_refused (k1 k2 k3 k4 : Machine) :
      0 < k.rc k.log.length →
      sys_exofork (set_pgfault_handler k) = (k.rc k.log.length, k1) →
      forkLoop (k.rc k.log.length) UTEXT k1 = Result.returned () k2 →
      0 ≤ k2.rc k2.log.length →
      sys_env_set_pgfault_upcall k2 (k.rc k.log.length) upcall = (0, k3) →
      k3.rc k3.log.length < 0 →
      Logged k3 k4 (Syscall.env_set_status (k.rc k.log.length) ENV_RUNNABLE
        (k3.rc k3.log.length)) →
      k4.envs = k3.envs →
      ForkRun k upcall (Result.panic k4)
  | done (k1 k2 k3 k4 : Machine) :
      0 < k.rc k.log.length →
      sys_exofork (set_pgfault_handler k) = (k.rc k.log.length, k1) →
      forkLoop (k.rc k.log.length) UTEXT k1 = Result.returned () k2 →
      0 ≤ k2.rc k2.log.length →
      sys_env_set_pgfault_upcall k2 (k.rc k.log.length) upcall = (0, k3) →
      0 ≤ k3.rc k3.log.length →
      sys_env_set_status k3 (k.rc k.log.length) ENV_RUNNABLE = (0, k4) →
      ForkRun k upcall (Result.returned (k.rc k.log.length) k4)

/-! ## Example machines -/

/-- An environment that is running (`ENV_RUNNING`) with the given page
directory and page tables. -/
def env_of (pgdir pgtab : Nat → Nat) : Env :=
  { env_pgdir := pgdir, env_pgtab := pgtab, env_status := 3, env_pgfault_upcall := 0 }

/-- A machine in which environment 1 runs with the given page directory and
page tables, no other environment has anything mapped in its user region,
memory is zero, and the kernel answers the n-th system call with `rc n`. -/
def machine_of (pgdir pgtab : Nat → Nat) (rc : Nat → Int) : Machine :=
  { curenv := 1,
    envs := fun e => if e = 1 then env_of pgdir pgtab else env_fresh (env_of pgdir pgtab),
    phys := fun _ _ => 0,
    page_free := 0x100,
    rc := rc,
    log := [],
    thisenv := 1,
    pgfault_handler := false }

/-- The kernel's answers when `sys_exofork` is the first call and gives the
child the id 2, and no call is refused. -/
def rc_child2 : Nat → Int := fun n => if n = 0 then 2 else 0

/-- A parent with one page table, for the 4 MB at `UTEXT`, holding one
read-only text page at `UTEXT` in frame `0x1000`. -/
def machine_text : Machine :=
  machine_of (fun i => if i = 2 then 0x7 else 0) (fun pn => if pn = 0x800 then 0x1005 else 0)
    rc_child2

/-- A parent with a read-only text page at `UTEXT` (frame `0x1000`) and a
writable page at `UTEMP = 0x400000` (frame `0x2000`), below `UTEXT`. -/
def machine_utemp : Machine :=
  machine_of (fun i => if i = 1 ∨ i = 2 then 0x7 else 0)
    (fun pn => if pn = 0x400 then 0x2007 else if pn = 0x800 then 0x1005 else 0)
    rc_child2

/-- A parent with a read-only text page at `UTEXT` (frame `0x1000`), a writable
stack page at `USTACKTOP - PGSIZE = 0xeebfd000` (frame `0x2000`) and its own
exception stack at `UXSTACKTOP - PGSIZE = 0xeebff000` (frame `0x3000`). -/
def machine_stack : Machine :=
  machine_of (fun i => if i = 2 ∨ i = 0x3ba then 0x7 else 0)
    (fun pn => if pn = 0x800 then 0x1005 else if pn = 0xeebfd then 0x2007
      else if pn = 0xeebff then 0x3007 else 0)
    rc_child2

/-- The kernel's answers when no call is refused. -/
def rc_ok : Nat → Int := fun _ => 0

/-- A parent with two pages in the 4 MB at `UTEXT`: a plain writable page at
`0x800000` (entry `0x1007`) and a shared writable page at `0x801000` (entry
`0x3407`, `PTE_SHARE` set). -/
def machine_share : Machine :=
  machine_of (fun i => if i = 2 then 0x7 else 0)
    (fun pn => if pn = 0x800 then 0x1007 else if pn = 0x801 then 0x3407 else 0)
    rc_ok

/-- Environment `e` of machine `k` has page `pn` mapped to the frame of `pte`
with permissions exactly `PTE_P | PTE_U | PTE_COW`: `PTE_COW` is set and
`PTE_W` is clear. -/
def CowMapped (k : Machine) (e : Int) (pn pte : Nat) : Prop :=
  PTE_ADDR ((k.envs e).lookup pn) = PTE_ADDR pte ∧
  (k.envs e).lookup pn &&& 0xFFF = PTE_P ||| PTE_U ||| PTE_COW ∧
  (k.envs e).lookup pn &&& PTE_COW ≠ 0 ∧
  (k.envs e).lookup pn &&& PTE_W = 0

/-- The fault at page `addr`, whose entry was `pte`, is resolved in `k'`: the
running environment has `addr` mapped to the frame the allocator handed out
to `sys_page_alloc`, with permissions exactly `PTE_U | PTE_P | PTE_W`
(`PTE_COW` clear); that frame, when it is not the old frame itself (the
allocator hands out frames of the free pool, which nothing maps, section 3),
holds the bytes the old frame held in `k`; `PFTEMP` is unmapped; the
allocator gave one frame for the page, and one more for the page table of
`PFTEMP` when that was missing; and the calls made are one `sys_page_alloc`,
one `sys_page_map` and one `sys_page_unmap`, in this order. -/
def Resolved (k k' : Machine) (addr pte : Nat) : Prop :=
  (k'.envs k.curenv).lookup (PGNUM addr) = page2pa k.page_free ||| (PTE_U ||| PTE_P ||| PTE_W) ∧
  PTE_ADDR ((k'.envs k.curenv).lookup (PGNUM addr)) = page2pa k.page_free ∧
  (k'.envs k.curenv).lookup (PGNUM addr) &&& 0xFFF = PTE_P ||| PTE_W ||| PTE_U ∧
  (k'.envs k.curenv).lookup (PGNUM addr) &&& PTE_COW = 0 ∧
  (PTE_ADDR pte ≠ page2pa k.page_free →
    ∀ off, k'.phys (page2pa k.page_free) off = k.phys (PTE_ADDR pte) off) ∧
  (k'.envs k.curenv).lookup (PGNUM PFTEMP) = 0 ∧
  k'.page_free = k.page_free + 1 + pgdir_frames (k.envs k.curenv) PFTEMP ∧
  ∃ r0 r1 r2, k'.log = k.log ++
    [Syscall.page_alloc 0 PFTEMP (PTE_U ||| PTE_P ||| PTE_W) r0,
     Syscall.page_map 0 PFTEMP 0 addr (PTE_U ||| PTE_P ||| PTE_W) r1,
     Syscall.page_unmap 0 PFTEMP r2]

/-- A parent with a copy-on-write page at `0x800000` (entry `0x1805`, frame
`0x1000`) and a copy-on-write page at the scratch address `PFTEMP = 0x7ff000`
(entry `0x5805`, frame `0x5000`); no call is refused. -/
def machine_cow : Machine :=
  machine_of (fun i => if i = 1 ∨ i = 2 then 0x7 else 0)
    (fun pn => if pn = 0x800 then 0x1805 else if pn = 0x7ff then 0x5805 else 0)
    rc_ok

/-- A parent with a copy-on-write page at `0x800000` (entry `0x1805`, frame
`0x1000`) whose first byte is `0xAA`, in a state where the frame the
allocator hands out next is that same frame `0x1000`; no call is refused. -/
def machine_reuse : Machine :=
  let pgdir : Nat → Nat := fun i => if i = 1 ∨ i = 2 then 0x7 else 0
  let pgtab : Nat → Nat := fun pn => if pn = 0x800 then 0x1805 else 0
  let bytes : Nat → Nat → Nat := fun pa off => if pa = 0x1000 ∧ off = 0 then 0xAA else 0
  { machine_of pgdir pgtab rc_ok with phys := bytes, page_free := 1 }

/-- The writable bit that the selector `r` or `w` of `setperm` asks for. -/
def sel_W (s : String) : Nat := if s = "w" then PTE_W else 0

/-- The user bit that the selector `u` or `k` of `setperm` asks for. -/
def sel_U (s : String) : Nat := if s = "u" then PTE_U else 0

/-- A monitor state with one page table, for the 4 MB at `0x800000`: the page
at `0x800000` is present with entry `0x1C03` (frame `0x1000`, `PTE_P`,
`PTE_W`, `PTE_SHARE`, `PTE_COW`), and the next page has the entry `0x2006`,
which is not present; the word at physical address `0x1000` is `0xAA`. -/
def monitor_one : Monitor :=
  { kern_pgdir := fun i => if i = 2 then 0x7 else 0,
    kern_pgtab := fun pn => if pn = 0x800 then 0x1C03 else if pn = 0x801 then 0x2006 else 0,
    phys := fun pa => if pa = 0x1000 then 0xAA else 0,
    console := [] }

/-- Modelled from the spec: a parser `strtol` for the examples; it knows the
numerals the examples use. -/
def strtol_demo (s : String) : Int :=
  if s = "0x800000" then 0x800000
  else if s = "0x800001" then 0x800001
  else if s = "0x801000" then 0x801000
  else if s = "1" then 1
  else 0

/-- What `setperm` leaves behind in `m'` when started in `m` on the mapped
address `va` with entry slot `i` and requested bits `w` and `u`: the entry
is `(old & ~0x6) | (u | w)` and no other entry changed; a `Translate` of
`va` right afterwards reports the old physical address, the present bit and
exactly the requested writable and user bits; and every bit of the entry
other than `PTE_W` and `PTE_U`, `PTE_COW` and `PTE_SHARE` among them, is as
before. -/
def PermsSet (m m' : Monitor) (va i w u : Nat) : Prop :=
  m'.kern_pgdir = m.kern_pgdir ∧
  m'.kern_pgtab = Function.update m.kern_pgtab i ((m.kern_pgtab i &&& 0xFFFFFFF9) ||| (u ||| w)) ∧
  (pte_info_display m' va).2.console = m'.console ++
    [Line.va va, Line.pte_info (PTE_ADDR (m.kern_pgtab i)) 1 (PTE_PERM_W w) (PTE_PERM_U u)] ∧
  m'.kern_pgtab i &&& 0x6 = u ||| w ∧
  m'.kern_pgtab i &&& 0xFFFFFFF9 = m.kern_pgtab i &&& 0xFFFFFFF9 ∧
  m'.kern_pgtab i &&& PTE_P = m.kern_pgtab i &&& PTE_P ∧
  m'.kern_pgtab i &&& PTE_COW = m.kern_pgtab i &&& PTE_COW ∧
  m'.kern_pgtab i &&& PTE_SHARE = m.kern_pgtab i &&& PTE_SHARE

/-- The report of a `Translate` for the page at `va`, in the words of the
specification: the address, then "page does not exist" when the walker
returns no entry or the entry has `PTE_P` clear, and otherwise the physical
frame address of the entry with its present, writable and user bits. -/
def translate_report (m : Monitor) (va : Nat) : List Line :=
  match pgdir_walk m va with
  | none => [Line.va va, Line.not_exist]
  | some i =>
    if m.kern_pgtab i &&& PTE_P ≠ 0 then
      [Line.va va, Line.pte_info (PTE_ADDR (m.kern_pgtab i)) (PTE_PERM_P (m.kern_pgtab i))
        (PTE_PERM_W (m.kern_pgtab i)) (PTE_PERM_U (m.kern_pgtab i))]
    else [Line.va va, Line.not_exist]

/-! ## Bit-level facts -/

theorem and_or_distrib_right (a b m : Nat) : (a ||| b) &&& m = (a &&& m) ||| (b &&& m) := by
  apply Nat.eq_of_testBit_eq; intro i
  simp [Nat.testBit_and, Nat.testBit_or, Bool.and_or_distrib_right]

theorem shr_and_one (x k : Nat) : (x >>> k) &&& 1 = (x.testBit k).toNat := by
  rw [Nat.and_one_is_mod, Nat.shiftRight_eq_div_pow, Nat.testBit_to_div_mod]
  rcases Nat.mod_two_eq_zero_or_one (x / 2 ^ k) with h | h <;> simp [h]

theorem and_two_pow_ne_zero (x k : Nat) : x &&& 2 ^ k ≠ 0 ↔ x.testBit k = true := by
  rw [Nat.and_two_pow]
  cases x.testBit k <;> simp

theorem shr_and_one_ne_zero (x k : Nat) : (x >>> k) &&& 1 ≠ 0 ↔ x.testBit k = true := by
  rw [shr_and_one]
  cases x.testBit k <;> simp

theorem PTE_PERM_P_ne_zero (x : Nat) : PTE_PERM_P x ≠ 0 ↔ x.testBit 0 = true := by
  have h := shr_and_one_ne_zero x 0
  simp only [Nat.shiftRight_zero] at h
  exact h

theorem PTE_PERM_W_ne_zero (x : Nat) : PTE_PERM_W x ≠ 0 ↔ x.testBit 1 = true :=
  shr_and_one_ne_zero x 1

theorem PTE_PERM_U_ne_zero (x : Nat) : PTE_PERM_U x ≠ 0 ↔ x.testBit 2 = true :=
  shr_and_one_ne_zero x 2

theorem PTE_PERM_COW_ne_zero (x : Nat) : PTE_PERM_COW x ≠ 0 ↔ x.testBit 11 = true :=
  shr_and_one_ne_zero x 11

theorem and_PTE_P_ne_zero (x : Nat) : x &&& PTE_P ≠ 0 ↔ x.testBit 0 = true :=
  and_two_pow_ne_zero x 0

theorem and_PTE_W_ne_zero (x : Nat) : x &&& PTE_W ≠ 0 ↔ x.testBit 1 = true :=
  and_two_pow_ne_zero x 1

theorem and_PTE_U_ne_zero (x : Nat) : x &&& PTE_U ≠ 0 ↔ x.testBit 2 = true :=
  and_two_pow_ne_zero x 2

theorem and_PTE_SHARE_ne_zero (x : Nat) : x &&& PTE_SHARE ≠ 0 ↔ x.testBit 10 = true :=
  and_two_pow_ne_zero x 10

theorem and_PTE_COW_ne_zero (x : Nat) : x &&& PTE_COW ≠ 0 ↔ x.testBit 11 = true :=
  and_two_pow_ne_zero x 11

theorem PDX_eq (va : Nat) (h : va < 2 ^ 32) : PDX va = PGNUM va >>> 10 := by
  unfold PDX PGNUM
  have h1 : (0x3FF : Nat) = 2 ^ 10 - 1 := by norm_num
  rw [h1, Nat.and_pow_two_sub_one_eq_mod]
  simp only [Nat.shiftRight_eq_div_pow]
  omega

theorem PTE_ADDR_or (x p : Nat) (hp : p &&& 0xFFFFF000 = 0) :
    PTE_ADDR (PTE_ADDR x ||| p) = PTE_ADDR x := by
  unfold PTE_ADDR
  rw [and_or_distrib_right, Nat.and_assoc, hp]; simp

theorem PTE_low_or (x p : Nat) (hp : p &&& 0xFFF = p) :
    (PTE_ADDR x ||| p) &&& 0xFFF = p := by
  unfold PTE_ADDR
  have h0 : (0xFFFFF000 : Nat) &&& 0xFFF = 0 := by decide
  rw [and_or_distrib_right, Nat.and_assoc, hp, h0]; simp

theorem testBit_PTE_ADDR_or (x p i : Nat) (hi : i < 12) :
    (PTE_ADDR x ||| p).testBit i = p.testBit i := by
  unfold PTE_ADDR
  have h : Nat.testBit 0xFFFFF000 i = false := by
    interval_cases i <;> decide
  simp [Nat.testBit_or, Nat.testBit_and, h]

/-! ## The mapping primitives -/

theorem PTE_PERM_P_table (pa : Nat) : PTE_PERM_P (pa ||| (PTE_P ||| PTE_W ||| PTE_U)) ≠ 0 := by
  rw [PTE_PERM_P_ne_zero, Nat.testBit_or]
  have h : Nat.testBit (PTE_P ||| PTE_W ||| PTE_U) 0 = true := by decide
  rw [h]; simp

theorem pgdir_create_of_present (e : Env) (va pa : Nat)
    (h : PTE_PERM_P (e.env_pgdir (PDX va)) ≠ 0) : pgdir_create e va pa = e := by
  unfold pgdir_create; exact if_pos h

theorem pgdir_create_of_absent (e : Env) (va pa : Nat)
    (h : PTE_PERM_P (e.env_pgdir (PDX va)) = 0) :
    pgdir_create e va pa = { e with
      env_pgdir := Function.update e.env_pgdir (PDX va) (pa ||| (PTE_P ||| PTE_W ||| PTE_U)),
      env_pgtab := fun pn => if pn >>> 10 = PDX va then 0 else e.env_pgtab pn } := by
  unfold pgdir_create; exact if_neg (by simp [h])

theorem pgdir_frames_of_present (e : Env) (va : Nat)
    (h : PTE_PERM_P (e.env_pgdir (PDX va)) ≠ 0) : pgdir_frames e va = 0 := by
  unfold pgdir_frames; exact if_pos h

theorem lookup_page_insert (e : Env) (va pte pa pn : Nat) (hva : va < 2 ^ 32) :
    (page_insert e va pte pa).lookup pn = if pn = PGNUM va then pte else e.lookup pn := by
  have hP := PTE_PERM_P_table pa
  have hx := PDX_eq va hva
  unfold page_insert
  by_cases hpd : PTE_PERM_P (e.env_pgdir (PDX va)) = 0
  · rw [pgdir_create_of_absent e va pa hpd]
    unfold Env.lookup
    by_cases hpn : pn = PGNUM va
    · subst hpn; rw [← hx]; simp [hP]
    · by_cases hs : pn >>> 10 = PDX va
      · simp [hpn, hs, hP, hpd]
      · simp [hpn, hs, Function.update_noteq hs]
  · rw [pgdir_create_of_present e va pa hpd]
    unfold Env.lookup
    by_cases hpn : pn = PGNUM va
    · subst hpn; rw [← hx]; simp [hpd]
    · simp [hpn, Function.update_noteq hpn]

theorem page_insert_of_present (e : Env) (va pte pa : Nat)
    (h : PTE_PERM_P (e.env_pgdir (PDX va)) ≠ 0) :
    page_insert e va pte pa =
      { e with env_pgtab := Function.update e.env_pgtab (PGNUM va) pte } := by
  unfold page_insert
  rw [pgdir_create_of_present e va pa h]

theorem page_insert_status (e : Env) (va pte pa : Nat) :
    (page_insert e va pte pa).env_status = e.env_status := by
  unfold page_insert pgdir_create
  split_ifs <;> rfl

theorem page_remove_of_present (e : Env) (va : Nat)
    (h : PTE_PERM_P (e.env_pgdir (PDX va)) ≠ 0) :
    page_remove e va = { e with env_pgtab := Function.update e.env_pgtab (PGNUM va) 0 } := by
  unfold page_remove; exact if_pos h

theorem page_remove_of_absent (e : Env) (va : Nat)
    (h : PTE_PERM_P (e.env_pgdir (PDX va)) = 0) : page_remove e va = e := by
  unfold page_remove; exact if_neg (by simp [h])

theorem lookup_page_remove (e : Env) (va pn : Nat) (hva : va < 2 ^ 32) :
    (page_remove e va).lookup pn = if pn = PGNUM va then 0 else e.lookup pn := by
  have hx := PDX_eq va hva
  by_cases hpd : PTE_PERM_P (e.env_pgdir (PDX va)) = 0
  · rw [page_remove_of_absent e va hpd]
    unfold Env.lookup
    by_cases hpn : pn = PGNUM va
    · subst hpn; rw [← hx]; simp [hpd]
    · simp [hpn]
  · rw [page_remove_of_present e va hpd]
    unfold Env.lookup
    by_cases hpn : pn = PGNUM va
    · subst hpn; simp
    · simp [hpn, Function.update_noteq hpn]

theorem pgtab_page_insert_same (e : Env) (va pte pa : Nat) :
    (page_insert e va pte pa).env_pgtab (PGNUM va) = pte := by
  unfold page_insert; simp

/-! ## The system calls -/

theorem envid2env_zero (k : Machine) : envid2env k 0 = k.curenv := by
  simp [envid2env]

theorem envid2env_of_ne (k : Machine) (e : Int) (h : e ≠ 0) : envid2env k e = e := by
  simp [envid2env, h]

theorem envid2env_congr (k k1 : Machine) (e : Int) (h : k1.curenv = k.curenv) :
    envid2env k1 e = envid2env k e := by
  simp [envid2env, h]

theorem sys_page_map_fail (k : Machine) (s : Int) (sva : Nat) (d : Int) (dva perm : Nat)
    (h : k.rc k.log.length < 0) :
    ∃ k1, sys_page_map k s sva d dva perm = (k.rc k.log.length, k1) ∧
      Logged k k1 (Syscall.page_map s sva d dva perm (k.rc k.log.length)) ∧
      k1.envs = k.envs ∧ k1.phys = k.phys ∧ k1.page_free = k.page_free := by
  unfold sys_page_map; simp only [h, if_true]
  exact ⟨_, rfl, ⟨rfl, rfl, rfl, rfl, rfl⟩, rfl, rfl, rfl⟩

theorem sys_page_map_ok (k : Machine) (s : Int) (sva : Nat) (d : Int) (dva perm : Nat)
    (h : 0 ≤ k.rc k.log.length) :
    ∃ k1, sys_page_map k s sva d dva perm = (0, k1) ∧
      Logged k k1 (Syscall.page_map s sva d dva perm (k.rc k.log.length)) ∧
      k1.envs = Function.update k.envs (envid2env k d)
        (page_insert (k.envs (envid2env k d)) dva
          (PTE_ADDR ((k.envs (envid2env k s)).env_pgtab (PGNUM sva)) ||| perm)
          (page2pa k.page_free)) ∧
      k1.phys = k.phys ∧
      k1.page_free = k.page_free + pgdir_frames (k.envs (envid2env k d)) dva := by
  unfold sys_page_map; simp only [not_lt.mpr h, if_false]
  exact ⟨_, rfl, ⟨rfl, rfl, rfl, rfl, rfl⟩, rfl, rfl, rfl⟩

theorem sys_page_alloc_fail (k : Machine) (envid : Int) (va perm : Nat)
    (h : k.rc k.log.length < 0) :
    ∃ k1, sys_page_alloc k envid va perm = (k.rc k.log.length, k1) ∧
      Logged k k1 (Syscall.page_alloc envid va perm (k.rc k.log.length)) ∧
      k1.envs = k.envs ∧ k1.phys = k.phys ∧ k1.page_free = k.page_free := by
  unfold sys_page_alloc; simp only [h, if_true]
  exact ⟨_, rfl, ⟨rfl, rfl, rfl, rfl, rfl⟩, rfl, rfl, rfl⟩

theorem sys_page_alloc_ok (k : Machine) (envid : Int) (va perm : Nat)
    (h : 0 ≤ k.rc k.log.length) :
    ∃ k1, sys_page_alloc k envid va perm = (0, k1) ∧
      Logged k k1 (Syscall.page_alloc envid va perm (k.rc k.log.length)) ∧
      k1.envs = Function.update k.envs (envid2env k envid)
        (page_insert (k.envs (envid2env k envid)) va (page2pa k.page_free ||| perm)
          (page2pa (k.page_free + 1))) ∧
      k1.phys = Function.update k.phys (page2pa k.page_free) (fun _ => 0) ∧
      k1.page_free = k.page_free + 1 + pgdir_frames (k.envs (envid2env k envid)) va := by
  unfold sys_page_alloc; simp only [not_lt.mpr h, if_false]
  exact ⟨_, rfl, ⟨rfl, rfl, rfl, rfl, rfl⟩, rfl, rfl, rfl⟩

theorem sys_page_unmap_fail (k : Machine) (envid : Int) (va : Nat)
    (h : k.rc k.log.length < 0) :
    ∃ k1, sys_page_unmap k envid va = (k.rc k.log.length, k1) ∧
      Logged k k1 (Syscall.page_unmap envid va (k.rc k.log.length)) ∧
      k1.envs = k.envs ∧ k1.phys = k.phys ∧ k1.page_free = k.page_free := by
  unfold sys_page_unmap; simp only [h, if_true]
  exact ⟨_, rfl, ⟨rfl, rfl, rfl, rfl, rfl⟩, rfl, rfl, rfl⟩

theorem sys_page_unmap_ok (k : Machine) (envid : Int) (va : Nat)
    (h : 0 ≤ k.rc k.log.length) :
    ∃ k1, sys_page_unmap k envid va = (0, k1) ∧
      Logged k k1 (Syscall.page_unmap envid va (k.rc k.log.length)) ∧
      k1.envs = Function.update k.envs (envid2env k envid)
        (page_remove (k.envs (envid2env k envid)) va) ∧
      k1.phys = k.phys ∧ k1.page_free = k.page_free := by
  unfold sys_page_unmap; simp only [not_lt.mpr h, if_false]
  exact ⟨_, rfl, ⟨rfl, rfl, rfl, rfl, rfl⟩, rfl, rfl, rfl⟩

theorem sys_exofork_logged (k : Machine) :
    Logged k (sys_exofork k).2 (Syscall.exofork (k.rc k.log.length)) := by
  unfold sys_exofork
  by_cases h : k.rc k.log.length ≤ 0
  · simp only [h, if_true]; exact ⟨rfl, rfl, rfl, rfl, rfl⟩
  · simp only [h, if_false]; exact ⟨rfl, rfl, rfl, rfl, rfl⟩

theorem sys_exofork_fst (k : Machine) : (sys_exofork k).1 = k.rc k.log.length := by
  unfold sys_exofork
  by_cases h : k.rc k.log.length ≤ 0
  · simp only [h, if_true]
  · simp only [h, if_false]

theorem sys_env_set_pgfault_upcall_fail (k : Machine) (envid : Int) (func : Nat)
    (h : k.rc k.log.length < 0) :
    ∃ k1, sys_env_set_pgfault_upcall k envid func = (k.rc k.log.length, k1) ∧
      Logged k k1 (Syscall.env_set_pgfault_upcall envid func (k.rc k.log.length)) ∧
      k1.envs = k.envs ∧ k1.phys = k.phys ∧ k1.page_free = k.page_free := by
  unfold sys_env_set_pgfault_upcall; simp only [h, if_true]
  exact ⟨_, rfl, ⟨rfl, rfl, rfl, rfl, rfl⟩, rfl, rfl, rfl⟩

theorem sys_env_set_pgfault_upcall_ok (k : Machine) (envid : Int) (func : Nat)
    (h : 0 ≤ k.rc k.log.length) :
    ∃ k1, sys_env_set_pgfault_upcall k envid func = (0, k1) ∧
      Logged k k1 (Syscall.env_set_pgfault_upcall envid func (k.rc k.log.length)) ∧
      k1.envs = Function.update k.envs (envid2env k envid)
        { k.envs (envid2env k envid) with env_pgfault_upcall := func } ∧
      k1.phys = k.phys ∧ k1.page_free = k.page_free := by
  unfold sys_env_set_pgfault_upcall; simp only [not_lt.mpr h, if_false]
  exact ⟨_, rfl, ⟨rfl, rfl, rfl, rfl, rfl⟩, rfl, rfl, rfl⟩

theorem sys_env_set_status_fail (k : Machine) (envid : Int) (status : Nat)
    (h : k.rc k.log.length < 0) :
    ∃ k1, sys_env_set_status k envid status = (k.rc k.log.length, k1) ∧
      Logged k k1 (Syscall.env_set_status envid status (k.rc k.log.length)) ∧
      k1.envs = k.envs ∧ k1.phys = k.phys ∧ k1.page_free = k.page_free := by
  unfold sys_env_set_status; simp only [h, if_true]
  exact ⟨_, rfl, ⟨rfl, rfl, rfl, rfl, rfl⟩, rfl, rfl, rfl⟩

theorem sys_env_set_status_ok (k : Machine) (envid : Int) (status : Nat)
    (h : 0 ≤ k.rc k.log.length) :
    ∃ k1, sys_env_set_status k envid status = (0, k1) ∧
      Logged k k1 (Syscall.env_set_status envid status (k.rc k.log.length)) ∧
      k1.envs = Function.update k.envs (envid2env k envid)
        { k.envs (envid2env k envid) with env_status := status } ∧
      k1.phys = k.phys ∧ k1.page_free = k.page_free := by
  unfold sys_env_set_status; simp only [not_lt.mpr h, if_false]
  exact ⟨_, rfl, ⟨rfl, rfl, rfl, rfl, rfl⟩, rfl, rfl, rfl⟩

/-- Every call logs itself with the code the kernel gave it, and is refused
exactly when that code is negative. -/
theorem exec_spec (k : Machine) (x : Syscall) :
    Logged k (exec k x).2 (x.with_ret (k.rc k.log.length)) ∧
      ((exec k x).1 < 0 ↔ k.rc k.log.length < 0) := by
  by_cases h : k.rc k.log.length < 0
  · cases x with
    | exofork r => exact ⟨sys_exofork_logged k, by simp only [exec, sys_exofork_fst]⟩
    | page_alloc e va perm r =>
      obtain ⟨k1, e1, L, -⟩ := sys_page_alloc_fail k e va perm h
      simp only [exec, e1, Syscall.with_ret]; exact ⟨L, by simp [h]⟩
    | page_map s sva d dva perm r =>
      obtain ⟨k1, e1, L, -⟩ := sys_page_map_fail k s sva d dva perm h
      simp only [exec, e1, Syscall.with_ret]; exact ⟨L, by simp [h]⟩
    | page_unmap e va r =>
      obtain ⟨k1, e1, L, -⟩ := sys_page_unmap_fail k e va h
      simp only [exec, e1, Syscall.with_ret]; exact ⟨L, by simp [h]⟩
    | env_set_pgfault_upcall e f r =>
      obtain ⟨k1, e1, L, -⟩ := sys_env_set_pgfault_upcall_fail k e f h
      simp only [exec, e1, Syscall.with_ret]; exact ⟨L, by simp [h]⟩
    | env_set_status e st r =>
      obtain ⟨k1, e1, L, -⟩ := sys_env_set_status_fail k e st h
      simp only [exec, e1, Syscall.with_ret]; exact ⟨L, by simp [h]⟩
  · have h' : 0 ≤ k.rc k.log.length := not_lt.mp h
    cases x with
    | exofork r => exact ⟨sys_exofork_logged k, by simp only [exec, sys_exofork_fst]⟩
    | page_alloc e va perm r =>
      obtain ⟨k1, e1, L, -⟩ := sys_page_alloc_ok k e va perm h'
      simp only [exec, e1, Syscall.with_ret]; exact ⟨L, by simp [h]⟩
    | page_map s sva d dva perm r =>
      obtain ⟨k1, e1, L, -⟩ := sys_page_map_ok k s sva d dva perm h'
      simp only [exec, e1, Syscall.with_ret]; exact ⟨L, by simp [h]⟩
    | page_unmap e va r =>
      obtain ⟨k1, e1, L, -⟩ := sys_page_unmap_ok k e va h'
      simp only [exec, e1, Syscall.with_ret]; exact ⟨L, by simp [h]⟩
    | env_set_pgfault_upcall e f r =>
      obtain ⟨k1, e1, L, -⟩ := sys_env_set_pgfault_upcall_ok k e f h'
      simp only [exec, e1, Syscall.with_ret]; exact ⟨L, by simp [h]⟩
    | env_set_status e st r =>
      obtain ⟨k1, e1, L, -⟩ := sys_env_set_status_ok k e st h'
      simp only [exec, e1, Syscall.with_ret]; exact ⟨L, by simp [h]⟩

theorem ret_with_ret (x : Syscall) (r : Int) : (x.with_ret r).ret = r := by
  cases x <;> rfl

theorem with_ret_with_ret (x : Syscall) (r r' : Int) : (x.with_ret r).with_ret r' = x.with_ret r' := by
  cases x <;> rfl

theorem dstva_with_ret (x : Syscall) (r : Int) : (x.with_ret r).dstva = x.dstva := by
  cases x <;> rfl

theorem run_spec (cs : List Syscall) : ∀ k : Machine,
    (run k cs).state.curenv = k.curenv ∧ (run k cs).state.rc = k.rc ∧
    ∃ new, (run k cs).state.log = k.log ++ new ∧
      new.map Syscall.forget = (cs.take new.length).map Syscall.forget ∧
      (∀ k', run k cs = Result.returned () k' → new.length = cs.length) ∧
      LogOk (run k cs) new := by
  induction cs with
  | nil =>
    intro k
    refine ⟨rfl, rfl, [], by simp [run, Result.state], by simp, by simp, ?_⟩
    exact ⟨by simp, by simp, by intro k' h; simp [run] at h⟩
  | cons x cs ih =>
    intro k
    obtain ⟨L, hneg⟩ := exec_spec k x
    by_cases h : k.rc k.log.length < 0
    · have hr : run k (x :: cs) = Result.panic (exec k x).2 := by
        simp only [run, hneg.mpr h, if_true]
      rw [hr]
      refine ⟨L.curenv, L.rc, [x.with_ret (k.rc k.log.length)], L.log, ?_, ?_, ?_⟩
      · simp [Syscall.forget, with_ret_with_ret]
      · intro k' h'; cases h'
      · refine ⟨by simp, (by intro v k' h'; cases h'), ?_⟩
        intro k' _
        exact ⟨x.with_ret (k.rc k.log.length), by simp, by rw [ret_with_ret]; exact h⟩
    · have hr : run k (x :: cs) = run (exec k x).2 cs := by
        simp only [run, mt hneg.mp h, if_false]
      obtain ⟨hc, hrc, new, hlog, hmap, hlen, hok⟩ := ih (exec k x).2
      rw [hr]
      refine ⟨hc.trans L.curenv, hrc.trans L.rc, x.with_ret (k.rc k.log.length) :: new, ?_, ?_, ?_, ?_⟩
      · rw [hlog, L.log]; simp
      · simp [Syscall.forget, with_ret_with_ret] at hmap ⊢
        exact hmap
      · intro k' h'; simp [hlen k' h']
      · have hx : 0 ≤ (x.with_ret (k.rc k.log.length)).ret := by
          rw [ret_with_ret]; exact not_lt.mp h
        refine ⟨?_, ?_, ?_⟩
        · intro y hy
          cases new with
          | nil => simp at hy
          | cons z zs =>
            rw [List.dropLast_cons₂, List.mem_cons] at hy
            rcases hy with rfl | hy
            · exact hx
            · exact hok.init y hy
        · intro v k' h' y hy
          rw [List.mem_cons] at hy
          rcases hy with rfl | hy
          · exact hx
          · exact hok.ret v k' h' y hy
        · intro k' h'
          obtain ⟨y, hy, hneg'⟩ := hok.pan k' h'
          refine ⟨y, ?_, hneg'⟩
          cases new with
          | nil => simp at hy
          | cons z zs => simpa [List.getLast?_cons_cons] using hy

theorem run_returns (cs : List Syscall) : ∀ k : Machine,
    (∀ i, k.log.length ≤ i → 0 ≤ k.rc i) → ∃ k', run k cs = Result.returned () k' := by
  induction cs with
  | nil => intro k _; exact ⟨k, rfl⟩
  | cons x cs ih =>
    intro k hk
    obtain ⟨L, hneg⟩ := exec_spec k x
    have h0 : ¬ (exec k x).1 < 0 := fun h => absurd (hk _ le_rfl) (not_le.mpr (hneg.mp h))
    have hr : run k (x :: cs) = run (exec k x).2 cs := by simp only [run, h0, if_false]
    rw [hr]
    apply ih
    intro i hi
    rw [L.rc]; apply hk
    rw [L.log] at hi; simp at hi; omega

theorem Logged.rc_next {k k1 : Machine} {c : Syscall} (L : Logged k k1 c) :
    k1.rc k1.log.length = k.rc (k.log.length + 1) := by
  rw [L.rc, L.log]; simp

theorem uvpt_eq_some (k : Machine) (pn pte : Nat) (h : uvpt k pn = some pte) :
    PTE_PERM_P ((k.envs k.curenv).env_pgdir (pn >>> 10)) ≠ 0 ∧
      (k.envs k.curenv).env_pgtab pn = pte := by
  unfold uvpt uvpd at h
  split_ifs at h with hp
  exact ⟨hp, by simpa using h⟩

theorem duppage_va_lt (pn : Nat) : pn * PGSIZE % 2 ^ 32 < 2 ^ 32 :=
  Nat.mod_lt _ (by norm_num)

/-- Forgetting the value a run returned. -/
theorem duppage_eq_run (k : Machine) (c : Int) (pn pte : Nat)
    (hpte : uvpt k (PGNUM (pn * PGSIZE % 2 ^ 32)) = some pte) :
    (match duppage k c pn with
      | Result.panic k1 => Result.panic k1
      | Result.returned _ k1 => Result.returned () k1) =
      run k (dup_calls c (pn * PGSIZE % 2 ^ 32) pte) := by
  unfold duppage
  generalize pn * PGSIZE % 2 ^ 32 = va at hpte ⊢
  simp only [hpte]
  by_cases hS : pte &&& PTE_SHARE = 0
  · by_cases hWC : PTE_PERM_W pte ≠ 0 ∨ PTE_PERM_COW pte ≠ 0
    · have hd : dup_calls c va pte = [Syscall.page_map 0 va c va (PTE_P ||| PTE_U ||| PTE_COW) 0,
          Syscall.page_map 0 va 0 va (PTE_P ||| PTE_U ||| PTE_COW) 0] := by
        unfold dup_calls policy_perm
        rw [if_pos ⟨hS, hWC⟩, if_neg (by simp [hS]), if_pos hWC]
      rw [hd, if_neg (by simp [hS]), if_pos hWC]
      simp only [run, exec]
      split_ifs <;> rfl
    · have hd : dup_calls c va pte = [Syscall.page_map 0 va c va (PTE_P ||| PTE_U) 0] := by
        unfold dup_calls policy_perm
        rw [if_neg (by tauto), if_neg (by simp [hS]), if_neg hWC]
      rw [hd, if_neg (by simp [hS]), if_neg hWC]
      simp only [run, exec]
      split_ifs <;> rfl
  · have hd : dup_calls c va pte = [Syscall.page_map 0 va c va (pte &&& PTE_SYSCALL) 0] := by
      unfold dup_calls policy_perm
      rw [if_neg (by tauto), if_pos hS]
    rw [hd, if_pos hS]
    simp only [run, exec]
    split_ifs <;> rfl

theorem aligned_lt (addr : Nat) (h : addr < UTOP) : addr < 2 ^ 32 := by
  unfold UTOP at h; omega

theorem PGNUM_mul (addr : Nat) (hlt : addr < 2 ^ 32) (hal : addr % PGSIZE = 0) :
    PGNUM addr * PGSIZE % 2 ^ 32 = addr := by
  unfold PGNUM PGSIZE at *
  rw [Nat.shiftRight_eq_div_pow]
  omega

/-- One round of the page loop makes the calls of `body_calls`, in order, and
panics at the first one that is refused. -/
theorem fork_loop_body_eq_run (k : Machine) (c : Int) (addr : Nat)
    (hlt : addr < 2 ^ 32) (hal : addr % PGSIZE = 0) :
    fork_loop_body c addr k = run k (body_calls k c addr) := by
  unfold fork_loop_body body_calls
  by_cases hpd : PTE_PERM_P (uvpd k (PDX addr)) = 0
  · simp only [hpd, if_true]; rfl
  · simp only [hpd, if_false, false_or]
    by_cases hx : addr = UXSTACKTOP - PGSIZE
    · simp only [hx, if_true, run, exec]
    · simp only [hx, if_false]
      by_cases hpt : PTE_PERM_P ((k.envs k.curenv).env_pgtab (PGNUM addr)) = 0
      · simp only [hpt, if_true]; rfl
      · simp only [hpt, if_false]
        have hu : uvpt k (PGNUM (PGNUM addr * PGSIZE % 2 ^ 32)) =
            some ((k.envs k.curenv).env_pgtab (PGNUM addr)) := by
          rw [PGNUM_mul addr hlt hal]
          unfold uvpt
          rw [← PDX_eq addr hlt, if_pos hpd]
        have := duppage_eq_run k c (PGNUM addr) _ hu
        rw [PGNUM_mul addr hlt hal] at this
        exact this

theorem Eff.refl (c : Int) (pn : Nat) (k : Machine) : Eff c pn k k :=
  ⟨rfl, rfl, fun _ _ => rfl, fun _ _ => rfl, fun _ => rfl⟩

theorem Eff.trans {c : Int} {pn : Nat} {k k1 k2 : Machine}
    (h1 : Eff c pn k k1) (h2 : Eff c pn k1 k2) : Eff c pn k k2 := by
  have hc := h1.curenv
  refine ⟨h2.curenv.trans hc, ?_, ?_, ?_, ?_⟩
  · have := h2.pgdir; rw [hc] at this; exact this.trans h1.pgdir
  · intro q hq
    have := h2.pgtab q hq; rw [hc] at this; exact this.trans (h1.pgtab q hq)
  · intro q hq; exact (h2.child q hq).trans (h1.child q hq)
  · intro e; exact (h2.status e).trans (h1.status e)

theorem Eff.of_envs_eq (c : Int) (pn : Nat) (k k1 : Machine)
    (hc : k1.curenv = k.curenv) (he : k1.envs = k.envs) : Eff c pn k k1 :=
  ⟨hc, by rw [he], fun _ _ => by rw [he], fun _ _ => by rw [he], fun _ => by rw [he]⟩

/-- A call of the page loop at `va` touches nothing but page `PGNUM va`. -/
theorem exec_eff (k : Machine) (c : Int) (va : Nat) (x : Syscall)
    (hc0 : c ≠ 0) (hcP : c ≠ k.curenv) (hva : va < 2 ^ 32)
    (hpd : PTE_PERM_P ((k.envs k.curenv).env_pgdir (PDX va)) ≠ 0)
    (hx : LoopCall c va x) : Eff c (PGNUM va) k (exec k x).2 := by
  have hPc : k.curenv ≠ c := Ne.symm hcP
  cases x with
  | exofork r => exact absurd hx (by simp [LoopCall])
  | page_unmap e a r => exact absurd hx (by simp [LoopCall])
  | env_set_pgfault_upcall e f r => exact absurd hx (by simp [LoopCall])
  | env_set_status e st r => exact absurd hx (by simp [LoopCall])
  | page_alloc e a perm r =>
    obtain ⟨he0, ha⟩ := hx
    rw [he0, ha]
    by_cases h : k.rc k.log.length < 0
    · obtain ⟨k1, e1, L, he, -, -⟩ := sys_page_alloc_fail k c va perm h
      simp only [exec, e1]; exact Eff.of_envs_eq _ _ _ _ L.curenv he
    · obtain ⟨k1, e1, L, he, -, -⟩ := sys_page_alloc_ok k c va perm (not_lt.mp h)
      simp only [exec, e1]
      rw [envid2env_of_ne k c hc0] at he
      refine ⟨L.curenv, ?_, ?_, ?_, ?_⟩
      · rw [he, Function.update_noteq hPc]
      · intro q _; rw [he, Function.update_noteq hPc]
      · intro q hq; rw [he, Function.update_same, lookup_page_insert _ _ _ _ _ hva, if_neg hq]
      · intro e'; rw [he]
        by_cases hee : e' = c
        · rw [hee, Function.update_same, page_insert_status]
        · rw [Function.update_noteq hee]
  | page_map s sva d dva perm r =>
    obtain ⟨hs, hsva, hdva, hd⟩ := hx
    rw [hs, hsva, hdva]
    by_cases h : k.rc k.log.length < 0
    · obtain ⟨k1, e1, L, he, -, -⟩ := sys_page_map_fail k 0 va d va perm h
      simp only [exec, e1]; exact Eff.of_envs_eq _ _ _ _ L.curenv he
    · obtain ⟨k1, e1, L, he, -, -⟩ := sys_page_map_ok k 0 va d va perm (not_lt.mp h)
      simp only [exec, e1]
      rcases hd with rfl | rfl
      · rw [envid2env_of_ne k d hc0] at he
        refine ⟨L.curenv, ?_, ?_, ?_, ?_⟩
        · rw [he, Function.update_noteq hPc]
        · intro q _; rw [he, Function.update_noteq hPc]
        · intro q hq; rw [he, Function.update_same, lookup_page_insert _ _ _ _ _ hva, if_neg hq]
        · intro e'; rw [he]
          by_cases hee : e' = d
          · rw [hee, Function.update_same, page_insert_status]
          · rw [Function.update_noteq hee]
      · rw [envid2env_zero] at he
        refine ⟨L.curenv, ?_, ?_, ?_, ?_⟩
        · rw [he, Function.update_same, page_insert_of_present _ _ _ _ hpd]
        · intro q hq
          rw [he, Function.update_same, page_insert_of_present _ _ _ _ hpd]
          exact Function.update_noteq hq _ _
        · intro q _; rw [he, Function.update_noteq hcP]
        · intro e'; rw [he]
          by_cases hee : e' = k.curenv
          · rw [hee, Function.update_same, page_insert_status]
          · rw [Function.update_noteq hee]

theorem run_eff (c : Int) (va : Nat) (hc0 : c ≠ 0) (hva : va < 2 ^ 32) (cs : List Syscall) :
    ∀ k : Machine, c ≠ k.curenv → PTE_PERM_P ((k.envs k.curenv).env_pgdir (PDX va)) ≠ 0 →
      (∀ x ∈ cs, LoopCall c va x) → Eff c (PGNUM va) k (run k cs).state := by
  induction cs with
  | nil => intro k _ _ _; exact Eff.refl _ _ _
  | cons x cs ih =>
    intro k hcP hpd hcs
    have hE := exec_eff k c va x hc0 hcP hva hpd (hcs x (List.mem_cons_self _ _))
    by_cases h : (exec k x).1 < 0
    · simp only [run, h, if_true]; exact hE
    · simp only [run, h, if_false]
      refine hE.trans (ih _ ?_ ?_ (fun y hy => hcs y (List.mem_cons_of_mem _ hy)))
      · rw [hE.curenv]; exact hcP
      · rw [hE.curenv, hE.pgdir]; exact hpd

theorem run_cons_returned (k : Machine) (x : Syscall) (cs : List Syscall) (k' : Machine)
    (h : run k (x :: cs) = Result.returned () k') :
    0 ≤ k.rc k.log.length ∧ run (exec k x).2 cs = Result.returned () k' := by
  obtain ⟨-, hneg⟩ := exec_spec k x
  by_cases h0 : (exec k x).1 < 0
  · simp [run, h0] at h
  · simp only [run, h0, if_false] at h
    exact ⟨not_lt.mp (mt hneg.mpr h0), h⟩

theorem run_nil_returned (k k' : Machine) (h : run k [] = Result.returned () k') : k' = k := by
  simp only [run, Result.returned.injEq, true_and] at h
  exact h.symm

theorem dup_calls_spec (c : Int) (va pte : Nat) :
    ∀ x ∈ dup_calls c va pte, LoopCall c va x ∧ x.dstva = some va ∧ x.forget = x := by
  intro x hx
  unfold dup_calls at hx
  split_ifs at hx
  · simp only [List.mem_cons, List.mem_singleton, List.not_mem_nil, or_false] at hx
    rcases hx with rfl | rfl
    · exact ⟨⟨rfl, rfl, rfl, Or.inl rfl⟩, rfl, rfl⟩
    · exact ⟨⟨rfl, rfl, rfl, Or.inr rfl⟩, rfl, rfl⟩
  · simp only [List.mem_singleton] at hx
    subst hx
    exact ⟨⟨rfl, rfl, rfl, Or.inl rfl⟩, rfl, rfl⟩

theorem body_calls_spec (k : Machine) (c : Int) (addr : Nat) :
    ∀ x ∈ body_calls k c addr, LoopCall c addr x ∧ x.dstva = some addr ∧ x.forget = x := by
  intro x hx
  unfold body_calls at hx
  split_ifs at hx
  · simp at hx
  · simp only [List.mem_singleton] at hx
    subst hx
    exact ⟨⟨rfl, rfl⟩, rfl, rfl⟩
  · simp at hx
  · exact dup_calls_spec c addr _ x hx

theorem exec_map_child (k : Machine) (c : Int) (va perm : Nat) (r : Int)
    (hc0 : c ≠ 0) (hva : va < 2 ^ 32) (h : 0 ≤ k.rc k.log.length) :
    ((exec k (Syscall.page_map 0 va c va perm r)).2.envs c).lookup (PGNUM va) =
      PTE_ADDR ((k.envs k.curenv).env_pgtab (PGNUM va)) ||| perm := by
  obtain ⟨k1, e1, -, he, -, -⟩ := sys_page_map_ok k 0 va c va perm h
  simp only [exec, e1]
  rw [he, envid2env_of_ne k c hc0, envid2env_zero, Function.update_same,
    lookup_page_insert _ _ _ _ _ hva, if_pos rfl]

theorem exec_map_parent (k : Machine) (c : Int) (va perm : Nat) (r : Int)
    (hcP : c ≠ k.curenv) :
    (exec k (Syscall.page_map 0 va 0 va perm r)).2.envs c = k.envs c := by
  by_cases h : k.rc k.log.length < 0
  · obtain ⟨k1, e1, -, he, -, -⟩ := sys_page_map_fail k 0 va 0 va perm h
    simp only [exec, e1]; rw [he]
  · obtain ⟨k1, e1, -, he, -, -⟩ := sys_page_map_ok k 0 va 0 va perm (not_lt.mp h)
    simp only [exec, e1]
    rw [he, envid2env_zero, Function.update_noteq hcP]

/-- The child's entry for the page of a round that came back. -/
theorem run_body_child (k : Machine) (c : Int) (addr : Nat) (k' : Machine)
    (hc0 : c ≠ 0) (hcP : c ≠ k.curenv) (hva : addr < 2 ^ 32)
    (hx : addr = UXSTACKTOP - PGSIZE → PTE_PERM_P (uvpd k (PDX addr)) = 0)
    (h : run k (body_calls k c addr) = Result.returned () k') :
    (k'.envs c).lookup (PGNUM addr) = child_entry k c addr := by
  unfold body_calls at h
  unfold child_entry
  by_cases hpd : PTE_PERM_P (uvpd k (PDX addr)) = 0
  · simp only [hpd, if_true, true_or] at h ⊢
    rw [run_nil_returned _ _ h]
  · have hxs : addr ≠ UXSTACKTOP - PGSIZE := fun e => hpd (hx e)
    simp only [hpd, hxs, if_false, false_or] at h ⊢
    by_cases hpt : PTE_PERM_P ((k.envs k.curenv).env_pgtab (PGNUM addr)) = 0
    · simp only [hpt, if_true] at h ⊢
      rw [run_nil_returned _ _ h]
    · simp only [hpt, if_false] at h ⊢
      unfold dup_calls at h
      split_ifs at h
      · obtain ⟨h0, h1⟩ := run_cons_returned _ _ _ _ h
        obtain ⟨-, h2⟩ := run_cons_returned _ _ _ _ h1
        rw [run_nil_returned _ _ h2, exec_map_parent _ c addr _ _ ?_]
        · exact exec_map_child k c addr _ _ hc0 hva h0
        · rw [(exec_spec k _).1.curenv]; exact hcP
      · obtain ⟨h0, h1⟩ := run_cons_returned _ _ _ _ h
        rw [run_nil_returned _ _ h1]
        exact exec_map_child k c addr _ _ hc0 hva h0

/-! ## The page loop -/

theorem forkLoop_done (c : Int) (addr : Nat) (k : Machine) (h : ¬ addr < UTOP) :
    forkLoop c addr k = Result.returned () k := by
  rw [forkLoop, if_neg h]

theorem forkLoop_panic (c : Int) (addr : Nat) (k k1 : Machine) (h : addr < UTOP)
    (hal : addr % PGSIZE = 0) (hb : run k (body_calls k c addr) = Result.panic k1) :
    forkLoop c addr k = Result.panic k1 := by
  rw [forkLoop, if_pos h, fork_loop_body_eq_run k c addr (aligned_lt addr h) hal, hb]

theorem forkLoop_step (c : Int) (addr : Nat) (k k1 : Machine) (h : addr < UTOP)
    (hal : addr % PGSIZE = 0) (hb : run k (body_calls k c addr) = Result.returned () k1) :
    forkLoop c addr k = forkLoop c (addr + PGSIZE) k1 := by
  rw [forkLoop, if_pos h, fork_loop_body_eq_run k c addr (aligned_lt addr h) hal, hb]

/-- Induction along the page loop: a property of the loop's result holds when
it holds at the end of the range, at a round that panics, and is carried
back over a round that comes back. -/
theorem forkLoop_induction (c : Int) (I : Int → Prop) (Q : Nat → Machine → Result Unit → Prop)
    (hdone : ∀ addr k, ¬ addr < UTOP → Q addr k (Result.returned () k))
    (hpanic : ∀ addr k k1, addr < UTOP → addr % PGSIZE = 0 → I k.curenv →
      run k (body_calls k c addr) = Result.panic k1 → Q addr k (Result.panic k1))
    (hstep : ∀ addr k k1, addr < UTOP → addr % PGSIZE = 0 → I k.curenv →
      run k (body_calls k c addr) = Result.returned () k1 →
      Q (addr + PGSIZE) k1 (forkLoop c (addr + PGSIZE) k1) →
      Q addr k (forkLoop c (addr + PGSIZE) k1)) :
    ∀ n addr k, UTOP - addr = n → I k.curenv → addr % PGSIZE = 0 →
      Q addr k (forkLoop c addr k) := by
  intro n
  induction n using Nat.strong_induction_on with
  | _ n ih =>
    intro addr k hn hcP hal
    by_cases h : addr < UTOP
    · cases hb : run k (body_calls k c addr) with
      | panic k1 =>
        rw [forkLoop_panic c addr k k1 h hal hb]
        exact hpanic addr k k1 h hal hcP hb
      | returned v k1 =>
        rw [forkLoop_step c addr k k1 h hal hb]
        apply hstep addr k k1 h hal hcP hb
        apply ih (UTOP - (addr + PGSIZE)) (by unfold PGSIZE; omega) _ _ rfl
        · have := (run_spec (body_calls k c addr) k).1
          rw [hb] at this
          simp only [Result.state] at this
          rw [this]; exact hcP
        · unfold PGSIZE at *; omega
    · rw [forkLoop_done c addr k h]
      exact hdone addr k h

theorem PGNUM_lt_UTOP (addr : Nat) (h : addr < UTOP) : PGNUM addr < PGNUM UTOP := by
  unfold PGNUM UTOP at *
  simp only [Nat.shiftRight_eq_div_pow]
  omega

theorem PGNUM_add_PGSIZE (addr : Nat) : PGNUM (addr + PGSIZE) = PGNUM addr + 1 := by
  unfold PGNUM PGSIZE
  simp only [Nat.shiftRight_eq_div_pow]
  omega

theorem PGNUM_lt_of_lt (a b : Nat) (ha : a % PGSIZE = 0) (hb : b % PGSIZE = 0) (h : a < b) :
    PGNUM a < PGNUM b := by
  unfold PGNUM PGSIZE at *
  simp only [Nat.shiftRight_eq_div_pow]
  omega

theorem body_eff (k : Machine) (c : Int) (addr : Nat) (hc0 : c ≠ 0) (hcP : c ≠ k.curenv)
    (hva : addr < 2 ^ 32) :
    Eff c (PGNUM addr) k (run k (body_calls k c addr)).state := by
  by_cases hpd : PTE_PERM_P (uvpd k (PDX addr)) = 0
  · have : body_calls k c addr = [] := by unfold body_calls; rw [if_pos hpd]
    rw [this]; exact Eff.refl _ _ _
  · exact run_eff c addr hc0 hva _ k hcP hpd (fun x hx => (body_calls_spec k c addr x hx).1)

theorem body_state (k k1 : Machine) (cs : List Syscall) (v : Unit)
    (h : run k cs = Result.returned v k1) : (run k cs).state = k1 := by
  rw [h]; rfl

theorem body_state_panic (k k1 : Machine) (cs : List Syscall)
    (h : run k cs = Result.panic k1) : (run k cs).state = k1 := by
  rw [h]; rfl

theorem forkLoop_eff (c : Int) (hc0 : c ≠ 0) (addr : Nat) (k : Machine)
    (hcP : c ≠ k.curenv) (hal : addr % PGSIZE = 0) :
    LoopEff c addr k (forkLoop c addr k).state := by
  refine forkLoop_induction c (fun e => c ≠ e) (fun addr k res => LoopEff c addr k res.state)
    ?_ ?_ ?_ (UTOP - addr) addr k rfl hcP hal
  · intro addr k _
    exact ⟨rfl, rfl, rfl, fun _ => rfl, fun _ _ => ⟨rfl, rfl⟩⟩
  · intro addr k k1 h _ hcP hb
    have hE := body_eff k c addr hc0 hcP (aligned_lt addr h)
    have hrc := (run_spec (body_calls k c addr) k).2.1
    rw [body_state_panic k k1 _ hb] at hE hrc
    refine ⟨hE.curenv, hrc, hE.pgdir, hE.status, ?_⟩
    intro q hq
    have hne : q ≠ PGNUM addr := fun e => hq ⟨e ▸ le_rfl, e ▸ PGNUM_lt_UTOP addr h⟩
    exact ⟨hE.pgtab q hne, hE.child q hne⟩
  · intro addr k k1 h _ hcP hb ih
    have hE := body_eff k c addr hc0 hcP (aligned_lt addr h)
    have hrc := (run_spec (body_calls k c addr) k).2.1
    rw [body_state k k1 _ _ hb] at hE hrc
    have hc := hE.curenv
    refine ⟨ih.curenv.trans hc, ih.rc.trans hrc, ?_, ?_, ?_⟩
    · have := ih.pgdir; rw [hc] at this; exact this.trans hE.pgdir
    · intro e; exact (ih.status e).trans (hE.status e)
    · intro q hq
      have hne : q ≠ PGNUM addr := fun e => hq ⟨e ▸ le_rfl, e ▸ PGNUM_lt_UTOP addr h⟩
      have hq' : ¬ (PGNUM (addr + PGSIZE) ≤ q ∧ q < PGNUM UTOP) := by
        rw [PGNUM_add_PGSIZE]; intro hh; exact hq ⟨by omega, hh.2⟩
      have := ih.outside q hq'
      rw [hc] at this
      exact ⟨this.1.trans (hE.pgtab q hne), this.2.trans (hE.child q hne)⟩

theorem run_log_length (cs : List Syscall) (k : Machine) :
    k.log.length ≤ (run k cs).state.log.length := by
  obtain ⟨-, -, new, hlog, -⟩ := run_spec cs k
  rw [hlog]; simp

theorem forkLoop_returns (c : Int) (addr : Nat) (k : Machine)
    (hal : addr % PGSIZE = 0)
    (hok : ∀ i, k.log.length ≤ i → 0 ≤ k.rc i) :
    ∃ k', forkLoop c addr k = Result.returned () k' := by
  refine forkLoop_induction c (fun _ => True)
    (fun _ k res => (∀ i, k.log.length ≤ i → 0 ≤ k.rc i) → ∃ k', res = Result.returned () k')
    ?_ ?_ ?_ (UTOP - addr) addr k rfl trivial hal hok
  · intro addr k _ _; exact ⟨k, rfl⟩
  · intro addr k k1 _ _ _ hb hok
    obtain ⟨k', hk'⟩ := run_returns (body_calls k c addr) k hok
    rw [hb] at hk'; cases hk'
  · intro addr k k1 _ _ _ hb ih hok
    apply ih
    intro i hi
    have hrc := (run_spec (body_calls k c addr) k).2.1
    have hlen := run_log_length (body_calls k c addr) k
    rw [body_state k k1 _ _ hb] at hrc hlen
    rw [hrc]; exact hok i (le_trans hlen hi)

theorem body_calls_congr (k k1 : Machine) (c : Int) (a : Nat)
    (hc : k1.curenv = k.curenv)
    (hpd : (k1.envs k.curenv).env_pgdir = (k.envs k.curenv).env_pgdir)
    (hpt : (k1.envs k.curenv).env_pgtab (PGNUM a) = (k.envs k.curenv).env_pgtab (PGNUM a)) :
    body_calls k1 c a = body_calls k c a := by
  unfold body_calls uvpd
  rw [hc, hpd, hpt]

theorem child_entry_congr (k k1 : Machine) (c : Int) (a : Nat)
    (hc : k1.curenv = k.curenv)
    (hpd : (k1.envs k.curenv).env_pgdir = (k.envs k.curenv).env_pgdir)
    (hpt : (k1.envs k.curenv).env_pgtab (PGNUM a) = (k.envs k.curenv).env_pgtab (PGNUM a))
    (hch : (k1.envs c).lookup (PGNUM a) = (k.envs c).lookup (PGNUM a)) :
    child_entry k1 c a = child_entry k c a := by
  unfold child_entry uvpd
  rw [hc, hpd, hpt, hch]

/-- After a page loop that came back, the child's entry for every page of the
range but the exception stack is the one the policies ask for. -/
theorem forkLoop_child (c : Int) (hc0 : c ≠ 0) (addr : Nat) (k : Machine)
    (hcP : c ≠ k.curenv) (hal : addr % PGSIZE = 0) (k' : Machine)
    (hret : forkLoop c addr k = Result.returned () k')
    (a : Nat) (h1 : addr ≤ a) (h2 : a < UTOP) (h3 : a % PGSIZE = 0)
    (hx : a = UXSTACKTOP - PGSIZE → PTE_PERM_P (uvpd k (PDX a)) = 0) :
    (k'.envs c).lookup (PGNUM a) = child_entry k c a := by
  refine forkLoop_induction c (fun e => c ≠ e)
    (fun addr k res => ∀ k', res = Result.returned () k' → ∀ a, addr ≤ a → a < UTOP →
      a % PGSIZE = 0 → (a = UXSTACKTOP - PGSIZE → PTE_PERM_P (uvpd k (PDX a)) = 0) →
      (k'.envs c).lookup (PGNUM a) = child_entry k c a)
    ?_ ?_ ?_ (UTOP - addr) addr k rfl hcP hal k' hret a h1 h2 h3 hx
  · intro addr k h k' _ a h1 h2; omega
  · intro addr k k1 _ _ _ _ k' hk'; cases hk'
  · intro addr k k1 h hal hcP hb ih k' hk' a h1 h2 h3 hx
    have hE := body_eff k c addr hc0 hcP (aligned_lt addr h)
    rw [body_state k k1 _ _ hb] at hE
    have hcP1 : c ≠ k1.curenv := by rw [hE.curenv]; exact hcP
    have hal1 : (addr + PGSIZE) % PGSIZE = 0 := by unfold PGSIZE at *; omega
    by_cases ha : a = addr
    · subst ha
      have hL := forkLoop_eff c hc0 (a + PGSIZE) k1 hcP1 hal1
      rw [hk'] at hL
      have hout := (hL.outside (PGNUM a) (by rw [PGNUM_add_PGSIZE]; omega)).2
      simp only [Result.state] at hout
      rw [hout]
      exact run_body_child k c a k1 hc0 hcP (aligned_lt a h) hx hb
    · have hlt : addr < a := lt_of_le_of_ne h1 (Ne.symm ha)
      have hge : addr + PGSIZE ≤ a := by unfold PGSIZE at *; omega
      have hne : PGNUM a ≠ PGNUM addr := ne_of_gt (PGNUM_lt_of_lt addr a hal h3 hlt)
      have hx1 : a = UXSTACKTOP - PGSIZE → PTE_PERM_P (uvpd k1 (PDX a)) = 0 := by
        intro e; have := hx e
        unfold uvpd at this ⊢
        rw [hE.curenv, hE.pgdir]; exact this
      rw [ih k' hk' a hge h2 h3 hx1]
      exact child_entry_congr k k1 c a hE.curenv hE.pgdir (hE.pgtab _ hne) (hE.child _ hne)

theorem exec_page_free (k : Machine) (x : Syscall) :
    k.page_free ≤ (exec k x).2.page_free := by
  cases x <;>
    simp only [exec, sys_exofork, sys_page_alloc, sys_page_map, sys_page_unmap,
      sys_env_set_pgfault_upcall, sys_env_set_status] <;>
    split_ifs <;> simp only [] <;> omega

theorem run_page_free (cs : List Syscall) : ∀ k : Machine,
    k.page_free ≤ (run k cs).state.page_free := by
  induction cs with
  | nil => intro k; exact le_rfl
  | cons x cs ih =>
    intro k
    by_cases h : (exec k x).1 < 0
    · simp only [run, h, if_true]; exact exec_page_free k x
    · simp only [run, h, if_false]
      exact le_trans (exec_page_free k x) (ih _)

theorem exec_child_parent (k : Machine) (c : Int) (x : Syscall)
    (hc0 : c ≠ 0) (hcP : c ≠ k.curenv)
    (hx : (∃ va perm r, x = Syscall.page_alloc c va perm r) ∨
      ∃ va perm r, x = Syscall.page_map 0 va c va perm r) :
    (exec k x).2.envs k.curenv = k.envs k.curenv := by
  rcases hx with ⟨va, perm, r, rfl⟩ | ⟨va, perm, r, rfl⟩
  · by_cases h : k.rc k.log.length < 0
    · obtain ⟨k1, e1, -, he, -, -⟩ := sys_page_alloc_fail k c va perm h
      simp only [exec, e1]; rw [he]
    · obtain ⟨k1, e1, -, he, -, -⟩ := sys_page_alloc_ok k c va perm (not_lt.mp h)
      simp only [exec, e1]
      rw [he, envid2env_of_ne k c hc0, Function.update_noteq (Ne.symm hcP)]
  · by_cases h : k.rc k.log.length < 0
    · obtain ⟨k1, e1, -, he, -, -⟩ := sys_page_map_fail k 0 va c va perm h
      simp only [exec, e1]; rw [he]
    · obtain ⟨k1, e1, -, he, -, -⟩ := sys_page_map_ok k 0 va c va perm (not_lt.mp h)
      simp only [exec, e1]
      rw [he, envid2env_of_ne k c hc0, Function.update_noteq (Ne.symm hcP)]

theorem exec_remap_parent (k : Machine) (va perm : Nat) (r : Int)
    (h : 0 ≤ k.rc k.log.length) :
    ((exec k (Syscall.page_map 0 va 0 va perm r)).2.envs k.curenv).env_pgtab (PGNUM va) =
      PTE_ADDR ((k.envs k.curenv).env_pgtab (PGNUM va)) ||| perm := by
  obtain ⟨k1, e1, -, he, -, -⟩ := sys_page_map_ok k 0 va 0 va perm h
  simp only [exec, e1]
  rw [he, envid2env_zero, Function.update_same, pgtab_page_insert_same]

/-- The parent's entry for the page of a round that came back. -/
theorem run_body_parent (k : Machine) (c : Int) (addr : Nat) (k' : Machine)
    (hc0 : c ≠ 0) (hcP : c ≠ k.curenv)
    (h : run k (body_calls k c addr) = Result.returned () k') :
    (k'.envs k.curenv).env_pgtab (PGNUM addr) = parent_entry k addr := by
  unfold body_calls at h
  unfold parent_entry
  by_cases hpd : PTE_PERM_P (uvpd k (PDX addr)) = 0
  · simp only [hpd, if_true] at h
    rw [run_nil_returned _ _ h, if_neg (by simp [hpd])]
  · simp only [hpd, if_false] at h
    by_cases hx : addr = UXSTACKTOP - PGSIZE
    · simp only [hx, if_true] at h
      obtain ⟨-, h1⟩ := run_cons_returned _ _ _ _ h
      rw [run_nil_returned _ _ h1, if_neg (by simp [hx]),
        exec_child_parent k c _ hc0 hcP (Or.inl ⟨_, _, _, rfl⟩), hx]
    · simp only [hx, if_false] at h
      by_cases hpt : PTE_PERM_P ((k.envs k.curenv).env_pgtab (PGNUM addr)) = 0
      · simp only [hpt, if_true] at h
        rw [run_nil_returned _ _ h, if_neg (by simp [hpt])]
      · simp only [hpt, if_false] at h
        unfold dup_calls at h
        split_ifs at h with hcow
        · obtain ⟨-, h1⟩ := run_cons_returned _ _ _ _ h
          obtain ⟨h20, h2⟩ := run_cons_returned _ _ _ _ h1
          have hpar := exec_child_parent k c _ hc0 hcP
            (Or.inr ⟨addr, policy_perm ((k.envs k.curenv).env_pgtab (PGNUM addr)), 0, rfl⟩)
          have hcur := (exec_spec k (Syscall.page_map 0 addr c addr
            (policy_perm ((k.envs k.curenv).env_pgtab (PGNUM addr))) 0)).1.curenv
          have hre := exec_remap_parent _ addr (PTE_P ||| PTE_U ||| PTE_COW) 0 h20
          rw [hcur, hpar] at hre
          rw [run_nil_returned _ _ h2, hre, if_pos ⟨hpd, hx, hpt, hcow.1, hcow.2⟩]
        · obtain ⟨-, h1⟩ := run_cons_returned _ _ _ _ h
          rw [run_nil_returned _ _ h1, exec_child_parent k c _ hc0 hcP (Or.inr ⟨_, _, _, rfl⟩),
            if_neg (fun hh => hcow ⟨hh.2.2.2.1, hh.2.2.2.2⟩)]

theorem parent_entry_congr (k k1 : Machine) (a : Nat)
    (hc : k1.curenv = k.curenv)
    (hpd : (k1.envs k.curenv).env_pgdir = (k.envs k.curenv).env_pgdir)
    (hpt : (k1.envs k.curenv).env_pgtab (PGNUM a) = (k.envs k.curenv).env_pgtab (PGNUM a)) :
    parent_entry k1 a = parent_entry k a := by
  unfold parent_entry uvpd
  rw [hc, hpd, hpt]

/-- After a page loop that came back, the parent's entry for every page of the
range is the one the policies leave. -/
theorem forkLoop_parent (c : Int) (hc0 : c ≠ 0) (addr : Nat) (k : Machine)
    (hcP : c ≠ k.curenv) (hal : addr % PGSIZE = 0) (k' : Machine)
    (hret : forkLoop c addr k = Result.returned () k')
    (a : Nat) (h1 : addr ≤ a) (h2 : a < UTOP) (h3 : a % PGSIZE = 0) :
    (k'.envs k.curenv).env_pgtab (PGNUM a) = parent_entry k a := by
  refine forkLoop_induction c (fun e => c ≠ e)
    (fun addr k res => ∀ k', res = Result.returned () k' → ∀ a, addr ≤ a → a < UTOP →
      a % PGSIZE = 0 → (k'.envs k.curenv).env_pgtab (PGNUM a) = parent_entry k a)
    ?_ ?_ ?_ (UTOP - addr) addr k rfl hcP hal k' hret a h1 h2 h3
  · intro addr k h k' _ a h1 h2; omega
  · intro addr k k1 _ _ _ _ k' hk'; cases hk'
  · intro addr k k1 h hal hcP hb ih k' hk' a h1 h2 h3
    have hE := body_eff k c addr hc0 hcP (aligned_lt addr h)
    rw [body_state k k1 _ _ hb] at hE
    have hcP1 : c ≠ k1.curenv := by rw [hE.curenv]; exact hcP
    have hal1 : (addr + PGSIZE) % PGSIZE = 0 := by unfold PGSIZE at *; omega
    by_cases ha : a = addr
    · subst ha
      have hL := forkLoop_eff c hc0 (a + PGSIZE) k1 hcP1 hal1
      rw [hk'] at hL
      have hout := (hL.outside (PGNUM a) (by rw [PGNUM_add_PGSIZE]; omega)).1
      simp only [Result.state] at hout
      rw [hE.curenv] at hout
      rw [hout]
      exact run_body_parent k c a k1 hc0 hcP hb
    · have hlt : addr < a := lt_of_le_of_ne h1 (Ne.symm ha)
      have hge : addr + PGSIZE ≤ a := by unfold PGSIZE at *; omega
      have hne : PGNUM a ≠ PGNUM addr := ne_of_gt (PGNUM_lt_of_lt addr a hal h3 hlt)
      have := ih k' hk' a hge h2 h3
      rw [hE.curenv] at this
      rw [this]
      exact parent_entry_congr k k1 a hE.curenv hE.pgdir (hE.pgtab _ hne)

/-- After a page loop that came back and went through the exception-stack
page with the parent's page table for it present, the child has that page
in a frame the allocator handed out during the loop, zero-filled, with the
permissions `PTE_U | PTE_P | PTE_W`. -/
theorem forkLoop_xstack (c : Int) (hc0 : c ≠ 0) (addr : Nat) (k : Machine)
    (hcP : c ≠ k.curenv) (hal : addr % PGSIZE = 0) (k' : Machine)
    (hret : forkLoop c addr k = Result.returned () k')
    (h1 : addr ≤ UXSTACKTOP - PGSIZE)
    (hpd : PTE_PERM_P (uvpd k (PDX (UXSTACKTOP - PGSIZE))) ≠ 0) :
    ∃ f, k.page_free ≤ f ∧ f < k'.page_free ∧
      (k'.envs c).lookup (PGNUM (UXSTACKTOP - PGSIZE)) =
        page2pa f ||| (PTE_U ||| PTE_P ||| PTE_W) ∧
      ∀ off, k'.phys (page2pa f) off = 0 := by
  refine forkLoop_induction c (fun e => c ≠ e)
    (fun addr k res => ∀ k', res = Result.returned () k' → addr ≤ UXSTACKTOP - PGSIZE →
      PTE_PERM_P (uvpd k (PDX (UXSTACKTOP - PGSIZE))) ≠ 0 →
      ∃ f, k.page_free ≤ f ∧ f < k'.page_free ∧
        (k'.envs c).lookup (PGNUM (UXSTACKTOP - PGSIZE)) =
          page2pa f ||| (PTE_U ||| PTE_P ||| PTE_W) ∧
        ∀ off, k'.phys (page2pa f) off = 0)
    ?_ ?_ ?_ (UTOP - addr) addr k rfl hcP hal k' hret h1 hpd
  · intro addr k h k' _ h1
    exact absurd h1 (by unfold UXSTACKTOP PGSIZE UTOP at *; omega)
  · intro addr k k1 _ _ _ _ k' hk'; cases hk'
  · intro addr k k1 h hal hcP hb ih k' hk' h1 hpd
    by_cases ha : addr = UXSTACKTOP - PGSIZE
    · have hd : ¬ addr + PGSIZE < UTOP := by
        rw [ha]; decide
      rw [forkLoop_done c _ k1 hd] at hk'
      obtain rfl : k1 = k' := by simpa using hk'
      have hbc : body_calls k c addr =
          [Syscall.page_alloc c addr (PTE_U ||| PTE_P ||| PTE_W) 0] := by
        unfold body_calls
        rw [ha, if_neg hpd, if_pos rfl]
      rw [hbc] at hb
      obtain ⟨h0, hb1⟩ := run_cons_returned _ _ _ _ hb
      have hk1 := run_nil_returned _ _ hb1
      obtain ⟨k2, e2, -, he, hph, hpf⟩ :=
        sys_page_alloc_ok k c addr (PTE_U ||| PTE_P ||| PTE_W) h0
      simp only [exec, e2] at hk1
      rw [hk1]
      refine ⟨k.page_free, le_rfl, by rw [hpf]; omega, ?_, ?_⟩
      · rw [he, envid2env_of_ne k c hc0, Function.update_same, ← ha,
          lookup_page_insert _ _ _ _ _ (aligned_lt addr h), if_pos rfl]
      · intro off; rw [hph, Function.update_same]
    · have hE := body_eff k c addr hc0 hcP (aligned_lt addr h)
      rw [body_state k k1 _ _ hb] at hE
      have hpf := run_page_free (body_calls k c addr) k
      rw [body_state k k1 _ _ hb] at hpf
      have hpd1 : PTE_PERM_P (uvpd k1 (PDX (UXSTACKTOP - PGSIZE))) ≠ 0 := by
        unfold uvpd at hpd ⊢
        rw [hE.curenv, hE.pgdir]; exact hpd
      obtain ⟨f, hf1, hf2, hf3, hf4⟩ := ih k' hk'
        (by unfold UXSTACKTOP PGSIZE UTOP at *; omega) hpd1
      exact ⟨f, le_trans hpf hf1, hf2, hf3, hf4⟩

theorem LogOk.append {α : Type} {res : Result α} {new1 new2 : List Syscall}
    (h1 : ∀ x ∈ new1, 0 ≤ x.ret) (h2 : LogOk res new2) : LogOk res (new1 ++ new2) := by
  refine ⟨?_, ?_, ?_⟩
  · intro x hx
    by_cases hn : new2 = []
    · subst hn
      rw [List.append_nil] at hx
      exact h1 x (List.mem_of_mem_dropLast hx)
    · rw [List.dropLast_append_of_ne_nil _ hn, List.mem_append] at hx
      rcases hx with hx | hx
      · exact h1 x hx
      · exact h2.init x hx
  · intro v k' hr x hx
    rw [List.mem_append] at hx
    rcases hx with hx | hx
    · exact h1 x hx
    · exact h2.ret v k' hr x hx
  · intro k' hr
    obtain ⟨x, hx, hneg⟩ := h2.pan k' hr
    refine ⟨x, ?_, hneg⟩
    rw [List.getLast?_append, hx]; rfl

theorem LoopCall_with_ret (c : Int) (a : Nat) (x : Syscall) (r : Int) :
    LoopCall c a (x.with_ret r) ↔ LoopCall c a x := by
  cases x <;> exact Iff.rfl

theorem run_calls_mem (cs : List Syscall) (new : List Syscall)
    (hmap : new.map Syscall.forget = (cs.take new.length).map Syscall.forget) :
    ∀ x ∈ new, ∃ y ∈ cs, x.forget = y.forget := by
  intro x hx
  have : x.forget ∈ new.map Syscall.forget := List.mem_map_of_mem _ hx
  rw [hmap, List.mem_map] at this
  obtain ⟨y, hy, hyx⟩ := this
  exact ⟨y, List.mem_of_mem_take hy, hyx.symm⟩

/-- The calls of one round of the page loop: they are calls of the loop at
`addr`, and when the round comes back they are the calls of `body_calls`,
all of which succeeded. -/
theorem body_log (k : Machine) (c : Int) (addr : Nat) :
    ∃ new, (run k (body_calls k c addr)).state.log = k.log ++ new ∧
      LogOk (run k (body_calls k c addr)) new ∧
      (∀ x ∈ new, LoopCall c addr x ∧ x.dstva = some addr) ∧
      (∀ k', run k (body_calls k c addr) = Result.returned () k' →
        new.map Syscall.forget = body_calls k c addr) := by
  obtain ⟨-, -, new, hlog, hmap, hlen, hok⟩ := run_spec (body_calls k c addr) k
  refine ⟨new, hlog, hok, ?_, ?_⟩
  · intro x hx
    obtain ⟨y, hy, hxy⟩ := run_calls_mem _ new hmap x hx
    obtain ⟨hL, hd, -⟩ := body_calls_spec k c addr y hy
    constructor
    · rw [← LoopCall_with_ret c addr x 0]
      show LoopCall c addr x.forget
      rw [hxy]; exact (LoopCall_with_ret c addr y 0).mpr hL
    · rw [← dstva_with_ret x 0]
      show x.forget.dstva = some addr
      rw [hxy]; show (y.with_ret 0).dstva = some addr
      rw [dstva_with_ret]; exact hd
  · intro k' hk'
    rw [hmap, hlen k' hk', List.take_length]
    conv_rhs => rw [← List.map_id (body_calls k c addr)]
    apply List.map_congr_left
    intro y hy
    exact (body_calls_spec k c addr y hy).2.2

/-- The calls of the page loop: they stop at the first refusal, they are calls
of the loop, and when the loop comes back the calls that install something
at an address are those of `body_calls` for the addresses of the range and
none for any other address. -/
theorem forkLoop_log (c : Int) (hc0 : c ≠ 0) (addr : Nat) (k : Machine)
    (hcP : c ≠ k.curenv) (hal : addr % PGSIZE = 0) :
    ∃ new, (forkLoop c addr k).state.log = k.log ++ new ∧
      LogOk (forkLoop c addr k) new ∧
      (∀ x ∈ new, ∃ a, LoopCall c a x) ∧
      (∀ k', forkLoop c addr k = Result.returned () k' → ∀ a,
        (new.filter (fun x => decide (x.dstva = some a))).map Syscall.forget =
          if addr ≤ a ∧ a < UTOP ∧ a % PGSIZE = 0 then body_calls k c a else []) := by
  refine forkLoop_induction c (fun e => c ≠ e)
    (fun addr k res => ∃ new, res.state.log = k.log ++ new ∧ LogOk res new ∧
      (∀ x ∈ new, ∃ a, LoopCall c a x) ∧
      (∀ k', res = Result.returned () k' → ∀ a,
        (new.filter (fun x => decide (x.dstva = some a))).map Syscall.forget =
          if addr ≤ a ∧ a < UTOP ∧ a % PGSIZE = 0 then body_calls k c a else []))
    ?_ ?_ ?_ (UTOP - addr) addr k rfl hcP hal
  · intro addr k h
    refine ⟨[], by simp [Result.state], ⟨by simp, by simp, ?_⟩, by simp, ?_⟩
    · intro k' hk'; cases hk'
    · intro k' _ a
      rw [if_neg (by omega)]; rfl
  · intro addr k k1 _ _ _ hb
    obtain ⟨new, hlog, hok, hcalls, -⟩ := body_log k c addr
    rw [hb] at hlog hok
    refine ⟨new, hlog, hok, fun x hx => ⟨addr, (hcalls x hx).1⟩, ?_⟩
    intro k' hk'; cases hk'
  · intro addr k k1 h hal hcP hb ih
    obtain ⟨new1, hlog1, hok1, hcalls1, hmap1⟩ := body_log k c addr
    obtain ⟨new2, hlog2, hok2, hcalls2, hfil2⟩ := ih
    have hE := body_eff k c addr hc0 hcP (aligned_lt addr h)
    rw [body_state k k1 _ _ hb] at hE
    rw [hb] at hlog1 hok1
    simp only [Result.state] at hlog1
    have hall1 : ∀ x ∈ new1, 0 ≤ x.ret := hok1.ret () k1 rfl
    refine ⟨new1 ++ new2, ?_, LogOk.append hall1 hok2, ?_, ?_⟩
    · rw [hlog2, hlog1, List.append_assoc]
    · intro x hx
      rw [List.mem_append] at hx
      rcases hx with hx | hx
      · exact ⟨addr, (hcalls1 x hx).1⟩
      · exact hcalls2 x hx
    · intro k' hk' a
      rw [List.filter_append, List.map_append, hfil2 k' hk' a]
      by_cases ha : a = addr
      · subst ha
        have hf : new1.filter (fun x => decide (x.dstva = some a)) = new1 := by
          rw [List.filter_eq_self]
          intro x hx; simp [(hcalls1 x hx).2]
        rw [hf, hmap1 k1 hb, if_neg (by unfold PGSIZE; omega), if_pos ⟨le_rfl, h, hal⟩,
          List.append_nil]
      · have hf : new1.filter (fun x => decide (x.dstva = some a)) = [] := by
          rw [List.filter_eq_nil_iff]
          intro x hx
          simp only [(hcalls1 x hx).2, Option.some.injEq, decide_eq_true_eq]
          exact Ne.symm ha
        rw [hf, List.map_nil, List.nil_append]
        by_cases hr : addr ≤ a ∧ a < UTOP ∧ a % PGSIZE = 0
        · have hlt : addr < a := lt_of_le_of_ne hr.1 (Ne.symm ha)
          have hne : PGNUM a ≠ PGNUM addr := ne_of_gt (PGNUM_lt_of_lt addr a hal hr.2.2 hlt)
          rw [if_pos hr, if_pos ⟨by unfold PGSIZE at *; omega, hr.2⟩]
          exact body_calls_congr k k1 c a hE.curenv hE.pgdir (hE.pgtab _ hne)
        · rw [if_neg hr, if_neg (fun hh => hr ⟨by unfold PGSIZE at *; omega, hh.2⟩)]

/-- The calls of the page loop stop at the first refusal and are calls of the
loop, whatever the environments are. -/
theorem forkLoop_log_ok (c : Int) (addr : Nat) (k : Machine) (hal : addr % PGSIZE = 0) :
    (forkLoop c addr k).state.rc = k.rc ∧
    ∃ new, (forkLoop c addr k).state.log = k.log ++ new ∧
      LogOk (forkLoop c addr k) new ∧ (∀ x ∈ new, ∃ a, LoopCall c a x) := by
  refine forkLoop_induction c (fun _ => True)
    (fun _ k res => res.state.rc = k.rc ∧ ∃ new, res.state.log = k.log ++ new ∧ LogOk res new ∧
      (∀ x ∈ new, ∃ a, LoopCall c a x))
    ?_ ?_ ?_ (UTOP - addr) addr k rfl trivial hal
  · intro addr k h
    refine ⟨rfl, [], by simp [Result.state], ⟨by simp, by simp, ?_⟩, by simp⟩
    intro k' hk'; cases hk'
  · intro addr k k1 _ _ _ hb
    obtain ⟨new, hlog, hok, hcalls, -⟩ := body_log k c addr
    have hrc := (run_spec (body_calls k c addr) k).2.1
    rw [hb] at hlog hok hrc
    exact ⟨hrc, new, hlog, hok, fun x hx => ⟨addr, (hcalls x hx).1⟩⟩
  · intro addr k k1 h hal _ hb ih
    obtain ⟨new1, hlog1, hok1, hcalls1, -⟩ := body_log k c addr
    obtain ⟨hrc2, new2, hlog2, hok2, hcalls2⟩ := ih
    have hrc := (run_spec (body_calls k c addr) k).2.1
    rw [hb] at hlog1 hok1 hrc
    simp only [Result.state] at hlog1 hrc
    refine ⟨hrc2.trans hrc, new1 ++ new2, ?_, LogOk.append (hok1.ret () k1 rfl) hok2, ?_⟩
    · rw [hlog2, hlog1, List.append_assoc]
    · intro x hx
      rw [List.mem_append] at hx
      rcases hx with hx | hx
      · exact ⟨addr, (hcalls1 x hx).1⟩
      · exact hcalls2 x hx

/-! ## `fork` -/

theorem sys_exofork_eq (k : Machine) :
    sys_exofork k = (k.rc k.log.length, (sys_exofork k).2) := by
  rw [← sys_exofork_fst k]

theorem sys_exofork_envs_of_pos (k : Machine) (h : 0 < k.rc k.log.length) :
    (sys_exofork k).2.envs =
      Function.update k.envs (k.rc k.log.length) (env_fresh (k.envs k.curenv)) := by
  unfold sys_exofork
  simp only [not_le.mpr h, if_false]

theorem fork_run (k : Machine) (upcall : Nat) : ForkRun k upcall (fork k upcall) := by
  have hL := sys_exofork_logged (set_pgfault_handler k)
  have hfst := sys_exofork_fst (set_pgfault_handler k)
  have heq := sys_exofork_eq (set_pgfault_handler k)
  have hrc0 : (set_pgfault_handler k).rc (set_pgfault_handler k).log.length
      = k.rc k.log.length := rfl
  rw [hrc0] at hL hfst heq
  unfold fork
  simp only [hfst]
  by_cases hneg : k.rc k.log.length < 0
  · rw [if_pos hneg]
    exact ForkRun.exofork_refused _ hneg hL
  · rw [if_neg hneg]
    by_cases hz : k.rc k.log.length = 0
    · rw [if_pos hz]
      refine ForkRun.child _ hz ?_
      show (sys_exofork (set_pgfault_handler k)).2.log = _
      rw [hL.log, hz]; rfl
    · rw [if_neg hz]
      have hpos : 0 < k.rc k.log.length := by omega
      cases hloop : forkLoop (k.rc k.log.length) UTEXT (sys_exofork (set_pgfault_handler k)).2 with
      | panic k2 => exact ForkRun.loop_panic _ k2 hpos heq hloop
      | returned v k2 =>
        simp only []
        by_cases h1 : k2.rc k2.log.length < 0
        · obtain ⟨k3, e3, L3, he3, -, -⟩ :=
            sys_env_set_pgfault_upcall_fail k2 (k.rc k.log.length) upcall h1
          rw [e3]; simp only [h1, if_true]
          exact ForkRun.upcall_refused _ k2 k3 hpos heq hloop h1 L3 he3
        · obtain ⟨k3, e3, L3, he3, -, -⟩ :=
            sys_env_set_pgfault_upcall_ok k2 (k.rc k.log.length) upcall (not_lt.mp h1)
          rw [e3]; simp only [lt_self_iff_false, if_false]
          by_cases h2 : k3.rc k3.log.length < 0
          · obtain ⟨k4, e4, L4, he4, -, -⟩ :=
              sys_env_set_status_fail k3 (k.rc k.log.length) ENV_RUNNABLE h2
            rw [e4]; simp only [h2, if_true]
            exact ForkRun.status_refused _ k2 k3 k4 hpos heq hloop (not_lt.mp h1) e3 h2 L4 he4
          · obtain ⟨k4, e4, L4, he4, -, -⟩ :=
              sys_env_set_status_ok k3 (k.rc k.log.length) ENV_RUNNABLE (not_lt.mp h2)
            rw [e4]; simp only [lt_self_iff_false, if_false]
            exact ForkRun.done _ k2 k3 k4 hpos heq hloop (not_lt.mp h1) e3 (not_lt.mp h2) e4

theorem LoopCall_not_status (c : Int) (a : Nat) (x : Syscall) (h : LoopCall c a x) :
    x.is_set_status = false := by
  cases x <;> first | rfl | exact absurd h (by simp [LoopCall])

theorem status_not_mem (new : List Syscall) (h : ∀ y ∈ new, y.is_set_status = false)
    (pre : List Syscall) (x : Syscall) (post : List Syscall)
    (he : new = pre ++ x :: post) (hx : x.is_set_status = true) : False := by
  have : x ∈ new := by rw [he]; simp
  rw [h x this] at hx; cases hx

theorem status_last (A : List Syscall) (s : Syscall) (hA : ∀ y ∈ A, y.is_set_status = false) :
    ∀ (pre : List Syscall) (x : Syscall) (post : List Syscall),
      A ++ [s] = pre ++ x :: post → x.is_set_status = true → pre = A ∧ x = s ∧ post = [] := by
  induction A with
  | nil =>
    intro pre x post he hx
    cases pre with
    | nil =>
      simp only [List.nil_append, List.cons.injEq] at he
      exact ⟨rfl, he.1.symm, he.2.symm⟩
    | cons p pre' =>
      simp only [List.nil_append, List.cons_append, List.cons.injEq] at he
      have := he.2
      cases pre' <;> simp at this
  | cons a A ih =>
    intro pre x post he hx
    cases pre with
    | nil =>
      simp only [List.cons_append, List.nil_append, List.cons.injEq] at he
      have := hA a (List.mem_cons_self _ _)
      rw [he.1, hx] at this; cases this
    | cons p pre' =>
      simp only [List.cons_append, List.cons.injEq] at he
      obtain ⟨h1, h2, h3⟩ := ih (fun y hy => hA y (List.mem_cons_of_mem _ hy)) pre' x post he.2 hx
      exact ⟨by rw [he.1, h1], h2, h3⟩

theorem LogOk.of_all {α : Type} (v : α) (k : Machine) (new : List Syscall)
    (h : ∀ x ∈ new, 0 ≤ x.ret) : LogOk (Result.returned v k) new :=
  ⟨fun x hx => h x (List.mem_of_mem_dropLast hx), fun _ _ _ => h,
    fun k' hk' => by cases hk'⟩

theorem LogOk.of_refused {α : Type} (k : Machine) (pre : List Syscall) (x : Syscall)
    (h : ∀ y ∈ pre, 0 ≤ y.ret) (hx : x.ret < 0) :
    LogOk (Result.panic k : Result α) (pre ++ [x]) :=
  ⟨fun y hy => by rw [List.dropLast_concat] at hy; exact h y hy,
    fun v k' hk' => (by cases hk'),
    fun _ _ => ⟨x, by simp, hx⟩⟩

theorem LogOk.panic_cast {α β : Type} (k k' : Machine) (new : List Syscall)
    (h : LogOk (Result.panic k : Result α) new) : LogOk (Result.panic k' : Result β) new :=
  ⟨h.init, fun v k'' hk'' => (by cases hk''), fun _ _ => h.pan k rfl⟩

theorem UTEXT_aligned : UTEXT % PGSIZE = 0 := by decide

theorem exofork_logged_of_eq (k k1 : Machine) (r : Int)
    (h : sys_exofork (set_pgfault_handler k) = (r, k1)) :
    k1.curenv = k.curenv ∧ k1.rc = k.rc ∧ k1.log = k.log ++ [Syscall.exofork (k.rc k.log.length)] := by
  have hL := sys_exofork_logged (set_pgfault_handler k)
  rw [h] at hL
  exact ⟨hL.curenv, hL.rc, hL.log⟩

/-- The calls of `fork`: they stop at the first refusal, and a call of
`sys_env_set_status` is the last one, made after `sys_exofork` gave a child,
the page loop came back and the upcall was installed. -/
theorem fork_log (k : Machine) (upcall : Nat) :
    ∃ new, (fork k upcall).state.log = k.log ++ new ∧ LogOk (fork k upcall) new ∧
      (∀ pre x post, new = pre ++ x :: post → x.is_set_status = true →
        post = [] ∧ (∀ y ∈ pre, 0 ≤ y.ret) ∧
        ∃ k1 k2 k3, 0 < k.rc k.log.length ∧
          sys_exofork (set_pgfault_handler k) = (k.rc k.log.length, k1) ∧
          forkLoop (k.rc k.log.length) UTEXT k1 = Result.returned () k2 ∧
          sys_env_set_pgfault_upcall k2 (k.rc k.log.length) upcall = (0, k3) ∧
          0 ≤ k2.rc k2.log.length ∧ k3.log = k.log ++ pre ∧
          x = Syscall.env_set_status (k.rc k.log.length) ENV_RUNNABLE (k3.rc k3.log.length)) := by
  have h := fork_run k upcall
  generalize fork k upcall = res at h ⊢
  cases h with
  | exofork_refused k1 hneg L =>
    refine ⟨[Syscall.exofork (k.rc k.log.length)], L.log, LogOk.of_refused k1 [] _ (by simp) hneg, ?_⟩
    intro pre x post he hx
    exact (status_not_mem _ (by simp [Syscall.is_set_status]) pre x post he hx).elim
  | child k1 hz hlog =>
    refine ⟨[Syscall.exofork 0], hlog, LogOk.of_all _ _ _ (by simp [Syscall.ret]), ?_⟩
    intro pre x post he hx
    exact (status_not_mem _ (by simp [Syscall.is_set_status]) pre x post he hx).elim
  | loop_panic k1 k2 hpos hx hloop =>
    obtain ⟨-, -, hlog1⟩ := exofork_logged_of_eq k k1 _ hx
    obtain ⟨-, nl, hlog, hok, hcalls⟩ := forkLoop_log_ok (k.rc k.log.length) UTEXT k1 UTEXT_aligned
    rw [hloop] at hlog hok
    simp only [Result.state] at hlog
    refine ⟨[Syscall.exofork (k.rc k.log.length)] ++ nl, ?_, ?_, ?_⟩
    · simp only [Result.state]; rw [hlog, hlog1, List.append_assoc]
    · exact LogOk.append (by simp [Syscall.ret, le_of_lt hpos]) (LogOk.panic_cast k2 k2 nl hok)
    · intro pre x post he hx
      refine (status_not_mem _ ?_ pre x post he hx).elim
      intro y hy
      simp only [List.singleton_append, List.mem_cons] at hy
      rcases hy with rfl | hy
      · rfl
      · obtain ⟨a, ha⟩ := hcalls y hy
        exact LoopCall_not_status _ a y ha
  | upcall_refused k1 k2 k3 hpos hx hloop h1 L3 he3 =>
    obtain ⟨-, -, hlog1⟩ := exofork_logged_of_eq k k1 _ hx
    obtain ⟨-, nl, hlog, hok, hcalls⟩ := forkLoop_log_ok (k.rc k.log.length) UTEXT k1 UTEXT_aligned
    rw [hloop] at hlog hok
    simp only [Result.state] at hlog
    refine ⟨([Syscall.exofork (k.rc k.log.length)] ++ nl) ++
      [Syscall.env_set_pgfault_upcall (k.rc k.log.length) upcall (k2.rc k2.log.length)], ?_, ?_, ?_⟩
    · simp only [Result.state]; rw [L3.log, hlog, hlog1]; simp
    · refine LogOk.of_refused k3 _ _ ?_ (by simpa [Syscall.ret] using h1)
      intro y hy
      simp only [List.singleton_append, List.mem_cons] at hy
      rcases hy with rfl | hy
      · simp [Syscall.ret, le_of_lt hpos]
      · exact hok.ret () k2 rfl y hy
    · intro pre x post he hx
      refine (status_not_mem _ ?_ pre x post he hx).elim
      intro y hy
      simp only [List.singleton_append, List.mem_append, List.mem_cons, List.mem_singleton,
        List.not_mem_nil, or_false] at hy
      rcases hy with (rfl | hy) | rfl
      · rfl
      · obtain ⟨a, ha⟩ := hcalls y hy
        exact LoopCall_not_status _ a y ha
      · rfl
  | status_refused k1 k2 k3 k4 hpos hx hloop h1 e3 h2 L4 he4 =>
    obtain ⟨-, -, hlog1⟩ := exofork_logged_of_eq k k1 _ hx
    obtain ⟨-, nl, hlog, hok, hcalls⟩ := forkLoop_log_ok (k.rc k.log.length) UTEXT k1 UTEXT_aligned
    rw [hloop] at hlog hok
    simp only [Result.state] at hlog
    obtain ⟨k3', e3', L3, -⟩ := sys_env_set_pgfault_upcall_ok k2 (k.rc k.log.length) upcall h1
    rw [e3] at e3'
    obtain rfl : k3 = k3' := (Prod.mk.inj e3').2
    have hA : ∀ y ∈ ([Syscall.exofork (k.rc k.log.length)] ++ nl) ++
        [Syscall.env_set_pgfault_upcall (k.rc k.log.length) upcall (k2.rc k2.log.length)],
        y.is_set_status = false ∧ 0 ≤ y.ret := by
      intro y hy
      simp only [List.singleton_append, List.mem_append, List.mem_cons, List.mem_singleton,
        List.not_mem_nil, or_false] at hy
      rcases hy with (rfl | hy) | rfl
      · exact ⟨rfl, le_of_lt hpos⟩
      · obtain ⟨a, ha⟩ := hcalls y hy
        exact ⟨LoopCall_not_status _ a y ha, hok.ret () k2 rfl y hy⟩
      · exact ⟨rfl, h1⟩
    have hlog3 : k3.log = k.log ++ (([Syscall.exofork (k.rc k.log.length)] ++ nl) ++
        [Syscall.env_set_pgfault_upcall (k.rc k.log.length) upcall (k2.rc k2.log.length)]) := by
      rw [L3.log, hlog, hlog1]; simp
    refine ⟨(([Syscall.exofork (k.rc k.log.length)] ++ nl) ++
        [Syscall.env_set_pgfault_upcall (k.rc k.log.length) upcall (k2.rc k2.log.length)]) ++
      [Syscall.env_set_status (k.rc k.log.length) ENV_RUNNABLE (k3.rc k3.log.length)], ?_, ?_, ?_⟩
    · simp only [Result.state]; rw [L4.log, hlog3, List.append_assoc]
    · exact LogOk.of_refused k4 _ _ (fun y hy => (hA y hy).2) h2
    · intro pre x post he hxs
      obtain ⟨hp, hxe, hpost⟩ := status_last _ _ (fun y hy => (hA y hy).1) pre x post he hxs
      subst hp
      exact ⟨hpost, fun y hy => (hA y hy).2, k1, k2, k3, hpos, hx, hloop, e3, h1, hlog3, hxe⟩
  | done k1 k2 k3 k4 hpos hx hloop h1 e3 h2 e4 =>
    obtain ⟨k4', e4', L4, -⟩ := sys_env_set_status_ok k3 (k.rc k.log.length) ENV_RUNNABLE h2
    rw [e4] at e4'
    obtain rfl : k4 = k4' := (Prod.mk.inj e4').2
    obtain ⟨-, -, hlog1⟩ := exofork_logged_of_eq k k1 _ hx
    obtain ⟨-, nl, hlog, hok, hcalls⟩ := forkLoop_log_ok (k.rc k.log.length) UTEXT k1 UTEXT_aligned
    rw [hloop] at hlog hok
    simp only [Result.state] at hlog
    obtain ⟨k3', e3', L3, -⟩ := sys_env_set_pgfault_upcall_ok k2 (k.rc k.log.length) upcall h1
    rw [e3] at e3'
    obtain rfl : k3 = k3' := (Prod.mk.inj e3').2
    have hA : ∀ y ∈ ([Syscall.exofork (k.rc k.log.length)] ++ nl) ++
        [Syscall.env_set_pgfault_upcall (k.rc k.log.length) upcall (k2.rc k2.log.length)],
        y.is_set_status = false ∧ 0 ≤ y.ret := by
      intro y hy
      simp only [List.singleton_append, List.mem_append, List.mem_cons, List.mem_singleton,
        List.not_mem_nil, or_false] at hy
      rcases hy with (rfl | hy) | rfl
      · exact ⟨rfl, le_of_lt hpos⟩
      · obtain ⟨a, ha⟩ := hcalls y hy
        exact ⟨LoopCall_not_status _ a y ha, hok.ret () k2 rfl y hy⟩
      · exact ⟨rfl, h1⟩
    have hlog3 : k3.log = k.log ++ (([Syscall.exofork (k.rc k.log.length)] ++ nl) ++
        [Syscall.env_set_pgfault_upcall (k.rc k.log.length) upcall (k2.rc k2.log.length)]) := by
      rw [L3.log, hlog, hlog1]; simp
    refine ⟨(([Syscall.exofork (k.rc k.log.length)] ++ nl) ++
        [Syscall.env_set_pgfault_upcall (k.rc k.log.length) upcall (k2.rc k2.log.length)]) ++
      [Syscall.env_set_status (k.rc k.log.length) ENV_RUNNABLE (k3.rc k3.log.length)], ?_, ?_, ?_⟩
    · simp only [Result.state]; rw [L4.log, hlog3, List.append_assoc]
    · refine LogOk.of_all _ _ _ ?_
      intro y hy
      rw [List.mem_append, List.mem_singleton] at hy
      rcases hy with hy | rfl
      · exact (hA y hy).2
      · exact h2
    · intro pre x post he hxs
      obtain ⟨hp, hxe, hpost⟩ := status_last _ _ (fun y hy => (hA y hy).1) pre x post he hxs
      subst hp
      exact ⟨hpost, fun y hy => (hA y hy).2, k1, k2, k3, hpos, hx, hloop, e3, h1, hlog3, hxe⟩

/-- A run of `fork` that returns a value other than 0 is the parent's: the value
is the child's id, and the page loop, the installation of the upcall and the
marking as runnable all succeeded. -/
theorem fork_returned_parent (k : Machine) (upcall : Nat) (c : Int) (k' : Machine)
    (hret : fork k upcall = Result.returned c k') (hc : c ≠ 0) :
    c = k.rc k.log.length ∧ 0 < c ∧ ∃ k1 k2 k3,
      sys_exofork (set_pgfault_handler k) = (c, k1) ∧
      forkLoop c UTEXT k1 = Result.returned () k2 ∧
      sys_env_set_pgfault_upcall k2 c upcall = (0, k3) ∧
      sys_env_set_status k3 c ENV_RUNNABLE = (0, k') ∧
      0 ≤ k2.rc k2.log.length ∧ 0 ≤ k3.rc k3.log.length := by
  have h := fork_run k upcall
  rw [hret] at h
  cases h with
  | child k1 hz hlog => exact absurd rfl hc
  | done k1 k2 k3 k4 hpos hx hloop h1 e3 h2 e4 =>
    exact ⟨rfl, hpos, k1, k2, k3, hx, hloop, e3, e4, h1, h2⟩

/-- When `sys_exofork` gives a child and no call is refused, `fork` returns
the child's id. -/
theorem fork_success (k : Machine) (upcall : Nat) (hpos : 0 < k.rc k.log.length)
    (hok : ∀ i, k.log.length ≤ i → 0 ≤ k.rc i) :
    ∃ k', fork k upcall = Result.returned (k.rc k.log.length) k' := by
  have h := fork_run k upcall
  generalize hres : fork k upcall = res at h
  cases h with
  | exofork_refused k1 hneg L => omega
  | child k1 hz hlog => omega
  | loop_panic k1 k2 hpos hx hloop =>
    obtain ⟨-, hrc1, hlog1⟩ := exofork_logged_of_eq k k1 _ hx
    obtain ⟨k2', hk2'⟩ := forkLoop_returns (k.rc k.log.length) UTEXT k1 UTEXT_aligned (by
      intro i hi; rw [hrc1]; apply hok; rw [hlog1] at hi; simp at hi; omega)
    rw [hloop] at hk2'; cases hk2'
  | upcall_refused k1 k2 k3 hpos hx hloop h1 L3 he3 =>
    obtain ⟨-, hrc1, hlog1⟩ := exofork_logged_of_eq k k1 _ hx
    obtain ⟨hrc2, nl, hlog, -⟩ := forkLoop_log_ok (k.rc k.log.length) UTEXT k1 UTEXT_aligned
    rw [hloop] at hlog hrc2
    simp only [Result.state] at hlog hrc2
    have := hok k2.log.length (by rw [hlog, hlog1]; simp)
    rw [hrc2, hrc1] at h1; omega
  | status_refused k1 k2 k3 k4 hpos hx hloop h1 e3 h2 L4 he4 =>
    obtain ⟨-, hrc1, hlog1⟩ := exofork_logged_of_eq k k1 _ hx
    obtain ⟨hrc2, nl, hlog, -⟩ := forkLoop_log_ok (k.rc k.log.length) UTEXT k1 UTEXT_aligned
    rw [hloop] at hlog hrc2
    simp only [Result.state] at hlog hrc2
    obtain ⟨k3', e3', L3, -⟩ := sys_env_set_pgfault_upcall_ok k2 (k.rc k.log.length) upcall h1
    rw [e3] at e3'
    obtain rfl : k3 = k3' := (Prod.mk.inj e3').2
    have := hok k3.log.length (by rw [L3.log, hlog, hlog1]; simp)
    rw [L3.rc, hrc2, hrc1] at h2; omega
  | done k1 k2 k3 k4 hpos hx hloop h1 e3 h2 e4 => exact ⟨k4, rfl⟩

/-- When `sys_exofork` returns 0 the run is the child's and `fork` returns 0. -/
theorem fork_child (k : Machine) (upcall : Nat) (hz : k.rc k.log.length = 0) :
    ∃ k', fork k upcall = Result.returned 0 k' := by
  have h := fork_run k upcall
  generalize hres : fork k upcall = res at h
  cases h with
  | exofork_refused k1 hneg L => omega
  | child k1 hz hlog => exact ⟨k1, rfl⟩
  | loop_panic k1 k2 hpos hx hloop => omega
  | upcall_refused k1 k2 k3 hpos hx hloop h1 L3 he3 => omega
  | status_refused k1 k2 k3 k4 hpos hx hloop h1 e3 h2 L4 he4 => omega
  | done k1 k2 k3 k4 hpos hx hloop h1 e3 h2 e4 => omega

theorem fork_panic_status (k : Machine) (upcall : Nat) (k' : Machine)
    (hp : fork k upcall = Result.panic k') (hpos : 0 < k.rc k.log.length)
    (hne : k.rc k.log.length ≠ k.curenv) :
    (k'.envs (k.rc k.log.length)).env_status = ENV_NOT_RUNNABLE := by
  have hc0 : k.rc k.log.length ≠ 0 := ne_of_gt hpos
  have hloop_status : ∀ k1 k2, sys_exofork (set_pgfault_handler k) = (k.rc k.log.length, k1) →
      (forkLoop (k.rc k.log.length) UTEXT k1).state = k2 →
      (k2.envs (k.rc k.log.length)).env_status = ENV_NOT_RUNNABLE := by
    intro k1 k2 hx hl
    obtain ⟨hc1, -, -⟩ := exofork_logged_of_eq k k1 _ hx
    have hE := forkLoop_eff (k.rc k.log.length) hc0 UTEXT k1 (by rw [hc1]; exact hne) UTEXT_aligned
    rw [hl] at hE
    rw [hE.status]
    have he1 : k1.envs = (sys_exofork (set_pgfault_handler k)).2.envs := by rw [hx]
    rw [he1, sys_exofork_envs_of_pos (set_pgfault_handler k) hpos]
    show (Function.update k.envs (k.rc k.log.length) (env_fresh (k.envs k.curenv))
      (k.rc k.log.length)).env_status = _
    rw [Function.update_same]; rfl
  have h := fork_run k upcall
  rw [hp] at h
  cases h with
  | exofork_refused k1 hneg L => omega
  | loop_panic k1 k2 hpos hx hloop => exact hloop_status k1 _ hx (by rw [hloop]; rfl)
  | upcall_refused k1 k2 k3 hpos hx hloop h1 L3 he3 =>
    rw [he3]; exact hloop_status k1 _ hx (by rw [hloop]; rfl)
  | status_refused k1 k2 k3 k4 hpos hx hloop h1 e3 h2 L4 he4 =>
    obtain ⟨k3', e3', -, he3, -⟩ := sys_env_set_pgfault_upcall_ok k2 (k.rc k.log.length) upcall h1
    rw [e3] at e3'
    obtain rfl : k3 = k3' := (Prod.mk.inj e3').2
    rw [he4, he3, envid2env_of_ne _ _ hc0, Function.update_same]
    exact hloop_status k1 _ hx (by rw [hloop]; rfl)

theorem fork_success_status (k : Machine) (upcall : Nat) (c : Int) (k' : Machine)
    (hret : fork k upcall = Result.returned c k') (hc : c ≠ 0) :
    (k'.envs c).env_status = ENV_RUNNABLE := by
  obtain ⟨-, -, k1, k2, k3, -, -, -, e4, -, h2⟩ := fork_returned_parent k upcall c k' hret hc
  obtain ⟨k4', e4', -, he4, -⟩ := sys_env_set_status_ok k3 c ENV_RUNNABLE h2
  rw [e4] at e4'
  obtain rfl : k' = k4' := (Prod.mk.inj e4').2
  rw [he4, envid2env_of_ne _ _ hc, Function.update_same]

theorem lookup_env_fresh (p : Env) (q : Nat) :
    (env_fresh p).lookup q = if q < PGNUM UTOP then 0 else p.lookup q := by
  have h : q < PGNUM UTOP ↔ q >>> 10 < PDX UTOP := by
    have h1 : PGNUM UTOP = 0xeec00 := by decide
    have h2 : PDX UTOP = 0x3bb := by decide
    rw [h1, h2, Nat.shiftRight_eq_div_pow]
    omega
  unfold Env.lookup env_fresh
  by_cases hq : q < PGNUM UTOP
  · simp [hq, h.mp hq]
  · simp [hq, mt h.mpr hq]

theorem sys_exofork_frames (k : Machine) :
    k.page_free ≤ (sys_exofork k).2.page_free ∧ (sys_exofork k).2.phys = k.phys := by
  unfold sys_exofork
  dsimp only
  split_ifs
  · exact ⟨le_rfl, rfl⟩
  · exact ⟨Nat.le_succ _, rfl⟩

/-- The states a successful run of `fork` on the parent's path goes through:
`k1` after `sys_exofork` made the child, `k2` after the page loop; the two
calls that follow touch nothing of the parent, no mapping of the child, no
frame and no memory. -/
theorem fork_path (k : Machine) (upcall : Nat) (c : Int) (k' : Machine)
    (hret : fork k upcall = Result.returned c k') (hc : c ≠ 0) (hne : c ≠ k.curenv) :
    ∃ k1 k2, k1.curenv = k.curenv ∧
      k1.envs = Function.update k.envs c (env_fresh (k.envs k.curenv)) ∧
      k.page_free ≤ k1.page_free ∧
      forkLoop c UTEXT k1 = Result.returned () k2 ∧
      (∀ q, (k'.envs c).lookup q = (k2.envs c).lookup q) ∧
      k'.envs k.curenv = k2.envs k.curenv ∧
      k'.page_free = k2.page_free ∧ k'.phys = k2.phys := by
  obtain ⟨hcr, hpos, k1, k2, k3, hx, hloop, e3, e4, h1, h2⟩ :=
    fork_returned_parent k upcall c k' hret hc
  subst hcr
  obtain ⟨hc1, -, -⟩ := exofork_logged_of_eq k k1 _ hx
  have hk1 : k1 = (sys_exofork (set_pgfault_handler k)).2 := by rw [hx]
  have he1 : k1.envs =
      Function.update k.envs (k.rc k.log.length) (env_fresh (k.envs k.curenv)) := by
    rw [hk1, sys_exofork_envs_of_pos (set_pgfault_handler k) hpos]; rfl
  have hpf1 : k.page_free ≤ k1.page_free := by
    rw [hk1]; exact (sys_exofork_frames (set_pgfault_handler k)).1
  obtain ⟨k3', e3', L3, he3, hph3, hpf3⟩ :=
    sys_env_set_pgfault_upcall_ok k2 (k.rc k.log.length) upcall h1
  rw [e3] at e3'
  obtain rfl : k3 = k3' := (Prod.mk.inj e3').2
  obtain ⟨k4', e4', L4, he4, hph4, hpf4⟩ :=
    sys_env_set_status_ok k3 (k.rc k.log.length) ENV_RUNNABLE h2
  rw [e4] at e4'
  obtain rfl : k' = k4' := (Prod.mk.inj e4').2
  have hE := forkLoop_eff (k.rc k.log.length) hc UTEXT k1 (by rw [hc1]; exact hne) UTEXT_aligned
  rw [hloop] at hE
  simp only [Result.state] at hE
  refine ⟨k1, k2, hc1, he1, hpf1, hloop, ?_, ?_, by rw [hpf4, hpf3], by rw [hph4, hph3]⟩
  · intro q
    rw [he4, he3, envid2env_of_ne _ _ hc, envid2env_of_ne _ _ hc, Function.update_same,
      Function.update_same]
    rfl
  · rw [he4, he3, envid2env_of_ne _ _ hc, envid2env_of_ne _ _ hc,
      Function.update_noteq (Ne.symm hne), Function.update_noteq (Ne.symm hne)]

/-- What a successful `fork` did, page by page: the calls that install
something at an address are those of `body_calls` for the addresses from
`UTEXT` up to `UTOP` and none for any other address; the child's entry for a
page of that range (the exception stack apart) is the parent's frame with
the permission of the policy when the parent has the page and empty when it
has not; and outside that range the child has what `sys_exofork` gave it. -/
theorem fork_pages (k : Machine) (upcall : Nat) (c : Int) (k' : Machine)
    (hret : fork k upcall = Result.returned c k') (hc : c ≠ 0) (hne : c ≠ k.curenv) :
    ∃ new, k'.log = k.log ++ new ∧
      (∀ a, (new.filter (fun x => decide (x.dstva = some a))).map Syscall.forget =
        if UTEXT ≤ a ∧ a < UTOP ∧ a % PGSIZE = 0 then body_calls k c a else []) ∧
      (∀ a, UTEXT ≤ a → a < UTOP → a % PGSIZE = 0 →
        (a = UXSTACKTOP - PGSIZE → PTE_PERM_P (uvpd k (PDX a)) = 0) →
        (k'.envs c).lookup (PGNUM a) =
          if PTE_PERM_P (uvpd k (PDX a)) = 0 ∨
              PTE_PERM_P ((k.envs k.curenv).env_pgtab (PGNUM a)) = 0 then 0
          else PTE_ADDR ((k.envs k.curenv).env_pgtab (PGNUM a)) |||
            policy_perm ((k.envs k.curenv).env_pgtab (PGNUM a))) ∧
      (∀ q, ¬ (PGNUM UTEXT ≤ q ∧ q < PGNUM UTOP) →
        (k'.envs c).lookup q = (env_fresh (k.envs k.curenv)).lookup q) := by
  obtain ⟨hcr, hpos, k1, k2, k3, hx, hloop, e3, e4, h1, h2⟩ :=
    fork_returned_parent k upcall c k' hret hc
  subst hcr
  obtain ⟨hc1, hrc1, hlog1⟩ := exofork_logged_of_eq k k1 _ hx
  have he1 : k1.envs =
      Function.update k.envs (k.rc k.log.length) (env_fresh (k.envs k.curenv)) := by
    have : k1.envs = (sys_exofork (set_pgfault_handler k)).2.envs := by rw [hx]
    rw [this, sys_exofork_envs_of_pos (set_pgfault_handler k) hpos]; rfl
  have hcP1 : k.rc k.log.length ≠ k1.curenv := by rw [hc1]; exact hne
  have hpar : k1.envs k.curenv = k.envs k.curenv := by
    rw [he1, Function.update_noteq (Ne.symm hne)]
  have hchild1 : ∀ q, (k1.envs (k.rc k.log.length)).lookup q =
      (env_fresh (k.envs k.curenv)).lookup q := by
    intro q; rw [he1, Function.update_same]
  obtain ⟨k3', e3', L3, he3, -⟩ := sys_env_set_pgfault_upcall_ok k2 (k.rc k.log.length) upcall h1
  rw [e3] at e3'
  obtain rfl : k3 = k3' := (Prod.mk.inj e3').2
  obtain ⟨k4', e4', L4, he4, -⟩ := sys_env_set_status_ok k3 (k.rc k.log.length) ENV_RUNNABLE h2
  rw [e4] at e4'
  obtain rfl : k' = k4' := (Prod.mk.inj e4').2
  have hfin : ∀ q, (k'.envs (k.rc k.log.length)).lookup q = (k2.envs (k.rc k.log.length)).lookup q := by
    intro q
    rw [he4, he3, envid2env_of_ne _ _ hc, envid2env_of_ne _ _ hc, Function.update_same,
      Function.update_same]
    rfl
  obtain ⟨nl, hlog, -, -, hfil⟩ := forkLoop_log (k.rc k.log.length) hc UTEXT k1 hcP1 UTEXT_aligned
  rw [hloop] at hlog
  simp only [Result.state] at hlog
  have hE := forkLoop_eff (k.rc k.log.length) hc UTEXT k1 hcP1 UTEXT_aligned
  rw [hloop] at hE
  simp only [Result.state] at hE
  refine ⟨([Syscall.exofork (k.rc k.log.length)] ++ nl) ++
    [Syscall.env_set_pgfault_upcall (k.rc k.log.length) upcall (k2.rc k2.log.length),
     Syscall.env_set_status (k.rc k.log.length) ENV_RUNNABLE (k3.rc k3.log.length)], ?_, ?_, ?_, ?_⟩
  · rw [L4.log, L3.log, hlog, hlog1]; simp
  · intro a
    have := hfil k2 hloop a
    rw [body_calls_congr k k1 _ a hc1 (by rw [hpar]) (by rw [hpar])] at this
    rw [← this]
    simp [List.filter_append, List.filter_cons, Syscall.dstva]
  · intro a ha1 ha2 ha3 hax
    have hax1 : a = UXSTACKTOP - PGSIZE → PTE_PERM_P (uvpd k1 (PDX a)) = 0 := by
      intro e; have := hax e
      unfold uvpd at this ⊢
      rw [hc1, hpar]; exact this
    rw [hfin, forkLoop_child _ hc UTEXT k1 hcP1 UTEXT_aligned k2 hloop a ha1 ha2 ha3 hax1]
    unfold child_entry uvpd
    rw [hc1, hpar, hchild1, lookup_env_fresh, if_pos (PGNUM_lt_UTOP a ha2)]
  · intro q hq
    rw [hfin, (hE.outside q hq).2, hchild1]

/-- The parent's own mappings after a successful `fork`: its page directory is
untouched, its entry for a page from `UTEXT` up to `UTOP` is the one the
policy leaves, and every other entry is untouched. -/
theorem fork_parent (k : Machine) (upcall : Nat) (c : Int) (k' : Machine)
    (hret : fork k upcall = Result.returned c k') (hc : c ≠ 0) (hne : c ≠ k.curenv) :
    (k'.envs k.curenv).env_pgdir = (k.envs k.curenv).env_pgdir ∧
    (∀ a, UTEXT ≤ a → a < UTOP → a % PGSIZE = 0 →
      (k'.envs k.curenv).env_pgtab (PGNUM a) = parent_entry k a) ∧
    (∀ q, ¬ (PGNUM UTEXT ≤ q ∧ q < PGNUM UTOP) →
      (k'.envs k.curenv).env_pgtab q = (k.envs k.curenv).env_pgtab q) := by
  obtain ⟨k1, k2, hc1, he1, -, hloop, -, hpk, -, -⟩ := fork_path k upcall c k' hret hc hne
  have hcP1 : c ≠ k1.curenv := by rw [hc1]; exact hne
  have hpar : k1.envs k.curenv = k.envs k.curenv := by
    rw [he1, Function.update_noteq (Ne.symm hne)]
  have hE := forkLoop_eff c hc UTEXT k1 hcP1 UTEXT_aligned
  rw [hloop] at hE
  simp only [Result.state] at hE
  have hpg := hE.pgdir
  rw [hc1] at hpg
  refine ⟨?_, ?_, ?_⟩
  · rw [hpk, hpg, hpar]
  · intro a ha1 ha2 ha3
    have := forkLoop_parent c hc UTEXT k1 hcP1 UTEXT_aligned k2 hloop a ha1 ha2 ha3
    rw [hc1] at this
    rw [hpk, this]
    exact parent_entry_congr k k1 a hc1 (by rw [hpar]) (by rw [hpar])
  · intro q hq
    have := (hE.outside q hq).1
    rw [hc1] at this
    rw [hpk, this, hpar]

/-- The child's exception stack after a successful `fork` of a parent whose
page table for the exception-stack page exists: a frame the allocator
handed out during the `fork`, zero-filled, mapped with the permissions
`PTE_U | PTE_P | PTE_W`. -/
theorem fork_xstack (k : Machine) (upcall : Nat) (c : Int) (k' : Machine)
    (hret : fork k upcall = Result.returned c k') (hc : c ≠ 0) (hne : c ≠ k.curenv)
    (hpd : PTE_PERM_P (uvpd k (PDX (UXSTACKTOP - PGSIZE))) ≠ 0) :
    ∃ f, k.page_free ≤ f ∧ f < k'.page_free ∧
      (k'.envs c).lookup (PGNUM (UXSTACKTOP - PGSIZE)) =
        page2pa f ||| (PTE_U ||| PTE_P ||| PTE_W) ∧
      ∀ off, k'.phys (page2pa f) off = 0 := by
  obtain ⟨k1, k2, hc1, he1, hpf1, hloop, hck, -, hpf, hph⟩ :=
    fork_path k upcall c k' hret hc hne
  have hcP1 : c ≠ k1.curenv := by rw [hc1]; exact hne
  have hpar : k1.envs k.curenv = k.envs k.curenv := by
    rw [he1, Function.update_noteq (Ne.symm hne)]
  have hpd1 : PTE_PERM_P (uvpd k1 (PDX (UXSTACKTOP - PGSIZE))) ≠ 0 := by
    unfold uvpd at hpd ⊢
    rw [hc1, hpar]; exact hpd
  obtain ⟨f, hf1, hf2, hf3, hf4⟩ := forkLoop_xstack c hc UTEXT k1 hcP1 UTEXT_aligned k2 hloop
    (by decide) hpd1
  exact ⟨f, le_trans hpf1 hf1, by rw [hpf]; exact hf2, by rw [hck, hf3],
    fun off => by rw [hph]; exact hf4 off⟩

theorem filter_maps_into (c : Int) (a : Nat) (new : List Syscall) :
    (new.filter (Syscall.maps_into c a)).map Syscall.forget =
      ((new.filter (fun x => decide (x.dstva = some a))).map Syscall.forget).filter
        (Syscall.maps_into c a) := by
  induction new with
  | nil => rfl
  | cons x xs ih =>
    cases x with
    | page_map s sva d dva perm r =>
      by_cases hd : dva = a
      · by_cases hc : d = c
        · simp [List.filter_cons, Syscall.maps_into, Syscall.dstva, Syscall.forget,
            Syscall.with_ret, hd, hc, ih]
        · simp [List.filter_cons, Syscall.maps_into, Syscall.dstva, Syscall.forget,
            Syscall.with_ret, hd, hc, ih]
      · simp [List.filter_cons, Syscall.maps_into, Syscall.dstva, hd, ih]
    | page_alloc e va perm r =>
      by_cases hd : va = a
      · simp [List.filter_cons, Syscall.maps_into, Syscall.dstva, Syscall.forget,
          Syscall.with_ret, hd, ih]
      · simp [List.filter_cons, Syscall.maps_into, Syscall.dstva, hd, ih]
    | exofork r => simp [List.filter_cons, Syscall.maps_into, Syscall.dstva, ih]
    | page_unmap e va r => simp [List.filter_cons, Syscall.maps_into, Syscall.dstva, ih]
    | env_set_pgfault_upcall e f r =>
      simp [List.filter_cons, Syscall.maps_into, Syscall.dstva, ih]
    | env_set_status e st r => simp [List.filter_cons, Syscall.maps_into, Syscall.dstva, ih]

theorem filter_dup_calls (c : Int) (hc : c ≠ 0) (a pte : Nat) :
    (dup_calls c a pte).filter (Syscall.maps_into c a) =
      [Syscall.page_map 0 a c a (policy_perm pte) 0] := by
  unfold dup_calls
  split_ifs <;> simp [List.filter_cons, Syscall.maps_into, Ne.symm hc]

theorem policy_perm_low (pte : Nat) : policy_perm pte &&& 0xFFFFF000 = 0 := by
  unfold policy_perm
  split_ifs
  · rw [Nat.and_assoc]
    have : PTE_SYSCALL &&& 0xFFFFF000 = 0 := by decide
    rw [this]; simp
  · decide
  · decide

/-- A successful `fork` leaves every page of the parent in its frame, and
makes no page of the parent present that was not. -/
theorem fork_parent_frames (k : Machine) (upcall : Nat) (c : Int) (k' : Machine)
    (hret : fork k upcall = Result.returned c k') (hc : c ≠ 0) (hne : c ≠ k.curenv) (q : Nat)
    (hq : (k'.envs k.curenv).lookup q &&& PTE_P ≠ 0) :
    (k.envs k.curenv).lookup q &&& PTE_P ≠ 0 ∧
      PTE_ADDR ((k'.envs k.curenv).lookup q) = PTE_ADDR ((k.envs k.curenv).lookup q) := by
  obtain ⟨hpg, hin, hout⟩ := fork_parent k upcall c k' hret hc hne
  unfold Env.lookup at hq ⊢
  rw [hpg] at hq
  rw [hpg]
  by_cases hpd : PTE_PERM_P ((k.envs k.curenv).env_pgdir (q >>> 10)) ≠ 0
  · rw [if_pos hpd] at hq ⊢
    rw [if_pos hpd]
    by_cases hr : PGNUM UTEXT ≤ q ∧ q < PGNUM UTOP
    · have hq1 : PGNUM (q * PGSIZE) = q := by
        unfold PGNUM PGSIZE
        rw [Nat.shiftRight_eq_div_pow]
        omega
      have hlo : UTEXT ≤ q * PGSIZE := by
        have := hr.1
        unfold PGNUM UTEXT PGSIZE at *
        rw [Nat.shiftRight_eq_div_pow] at this
        omega
      have hhi : q * PGSIZE < UTOP := by
        have := hr.2
        unfold PGNUM UTOP PGSIZE at *
        rw [Nat.shiftRight_eq_div_pow] at this
        omega
      have hal : q * PGSIZE % PGSIZE = 0 := Nat.mul_mod_left _ _
      have he := hin (q * PGSIZE) hlo hhi hal
      rw [hq1] at he
      rw [he] at hq ⊢
      unfold parent_entry at hq ⊢
      rw [hq1] at hq ⊢
      split_ifs at hq ⊢ with hcond
      · refine ⟨?_, PTE_ADDR_or _ _ (by decide)⟩
        rw [and_PTE_P_ne_zero, ← PTE_PERM_P_ne_zero]
        exact hcond.2.2.1
      · exact ⟨hq, rfl⟩
    · rw [hout q hr] at hq ⊢
      exact ⟨hq, rfl⟩
  · rw [if_neg hpd] at hq
    exact absurd (by simp) hq

/-! ## `pgfault` -/

theorem page2pa_aligned (f : Nat) : PTE_ADDR (page2pa f) = page2pa f := by
  unfold PTE_ADDR page2pa
  apply Nat.eq_of_testBit_eq; intro i
  have hM : (0xFFFFF000 : Nat) = (2 ^ 20 - 1) <<< 12 := by decide
  rw [Nat.testBit_and, hM, Nat.testBit_shiftLeft, Nat.testBit_two_pow_sub_one,
    Nat.testBit_mod_two_pow, Nat.testBit_shiftLeft]
  by_cases h1 : i < 32 <;> by_cases h2 : 12 ≤ i <;> simp [h1, h2]
  omega

theorem PTE_ADDR_page2pa_or (f p : Nat) (hp : p &&& 0xFFFFF000 = 0) :
    PTE_ADDR (page2pa f ||| p) = page2pa f := by
  have h := PTE_ADDR_or (page2pa f) p hp
  rw [page2pa_aligned] at h
  exact h

theorem page_insert_pgdir_present (e : Env) (va pte pa i : Nat)
    (h : PTE_PERM_P (e.env_pgdir i) ≠ 0) :
    PTE_PERM_P ((page_insert e va pte pa).env_pgdir i) ≠ 0 := by
  unfold page_insert
  by_cases hpd : PTE_PERM_P (e.env_pgdir (PDX va)) = 0
  · rw [pgdir_create_of_absent e va pa hpd]
    by_cases hi : i = PDX va
    · subst hi; simp only [Function.update_same]; exact PTE_PERM_P_table pa
    · simp only [Function.update_noteq hi]; exact h
  · rw [pgdir_create_of_present e va pa hpd]; exact h

theorem page_remove_pgdir (e : Env) (va : Nat) :
    (page_remove e va).env_pgdir = e.env_pgdir := by
  unfold page_remove; split_ifs <;> rfl

theorem lookup_of_present (e : Env) (pn : Nat) (h : PTE_PERM_P (e.env_pgdir (pn >>> 10)) ≠ 0) :
    e.lookup pn = e.env_pgtab pn := by
  unfold Env.lookup; rw [if_pos h]

theorem pgtab_page_insert_other (e : Env) (va pte pa pn : Nat) (hva : va < 2 ^ 32)
    (hpd : PTE_PERM_P (e.env_pgdir (pn >>> 10)) ≠ 0) (hne : pn ≠ PGNUM va) :
    (page_insert e va pte pa).env_pgtab pn = e.env_pgtab pn := by
  rw [← lookup_of_present _ pn (page_insert_pgdir_present e va pte pa _ hpd),
    lookup_page_insert _ _ _ _ _ hva, if_neg hne, lookup_of_present _ pn hpd]

theorem ROUNDDOWN_lt (a : Nat) : ROUNDDOWN a PGSIZE < 2 ^ 32 := by
  unfold ROUNDDOWN PGSIZE; omega

theorem ROUNDDOWN_aligned (a : Nat) : ROUNDDOWN a PGSIZE % PGSIZE = 0 := by
  unfold ROUNDDOWN PGSIZE; omega

theorem PGNUM_ne_of_aligned (a b : Nat) (ha : a % PGSIZE = 0) (hb : b % PGSIZE = 0)
    (h : a ≠ b) : PGNUM a ≠ PGNUM b := by
  unfold PGNUM PGSIZE at *
  simp only [Nat.shiftRight_eq_div_pow]
  omega

theorem PFTEMP_lt : PFTEMP < 2 ^ 32 := by decide

theorem PFTEMP_aligned : PFTEMP % PGSIZE = 0 := by decide

/-- The state after the allocation at `PFTEMP` succeeded: the faulting page,
which is not `PFTEMP`, is still read through `uvpt` as before. -/
theorem uvpt_after_alloc (k k1 : Machine) (addr pte x pa : Nat)
    (hpte : uvpt k (PGNUM addr) = some pte)
    (hal : addr % PGSIZE = 0) (hne : addr ≠ PFTEMP)
    (hc : k1.curenv = k.curenv)
    (he : k1.envs =
      Function.update k.envs k.curenv (page_insert (k.envs k.curenv) PFTEMP x pa)) :
    uvpt k1 (PGNUM addr) = some pte ∧
      (k1.envs k.curenv).env_pgtab (PGNUM addr) = pte ∧
      (k1.envs k.curenv).env_pgtab (PGNUM PFTEMP) = x := by
  obtain ⟨hpd, hpt⟩ := uvpt_eq_some k _ pte hpte
  have hpn : PGNUM addr ≠ PGNUM PFTEMP := PGNUM_ne_of_aligned _ _ hal PFTEMP_aligned hne
  have h1 : (k1.envs k.curenv).env_pgtab (PGNUM addr) = pte := by
    rw [he, Function.update_same, pgtab_page_insert_other _ _ _ _ _ PFTEMP_lt hpd hpn, hpt]
  refine ⟨?_, h1, ?_⟩
  · unfold uvpt uvpd
    rw [hc, if_pos, h1]
    rw [he, Function.update_same]
    exact page_insert_pgdir_present _ _ _ _ _ hpd
  · rw [he, Function.update_same, pgtab_page_insert_same]

theorem user_readable_of (k : Machine) (va pte : Nat) (h : uvpt k (PGNUM va) = some pte)
    (hP : PTE_PERM_P pte ≠ 0) :
    user_readable k va = true ↔ PTE_PERM_U pte ≠ 0 := by
  unfold user_readable
  rw [h]
  simp [hP]

/-- The course of `pgfault` on a write fault at a copy-on-write page other than
`PFTEMP`: it panics when a system call is refused or the page cannot be
read from user mode, and otherwise returns with the fault resolved. -/
theorem pgfault_steps (k : Machine) (utf : UTrapframe) (pte : Nat)
    (hW : utf.utf_err &&& FEC_WR ≠ 0)
    (hpte : uvpt k (PGNUM (ROUNDDOWN utf.utf_fault_va PGSIZE)) = some pte)
    (hP : PTE_PERM_P pte ≠ 0) (hC : PTE_PERM_COW pte ≠ 0)
    (hne : ROUNDDOWN utf.utf_fault_va PGSIZE ≠ PFTEMP) :
    ((k.rc k.log.length < 0 ∨ PTE_PERM_U pte = 0 ∨ k.rc (k.log.length + 1) < 0 ∨
        k.rc (k.log.length + 2) < 0) → ∃ k', pgfault k utf = Result.panic k') ∧
    (0 ≤ k.rc k.log.length → PTE_PERM_U pte ≠ 0 → 0 ≤ k.rc (k.log.length + 1) →
      0 ≤ k.rc (k.log.length + 2) →
      ∃ k', pgfault k utf = Result.returned () k' ∧
        Resolved k k' (ROUNDDOWN utf.utf_fault_va PGSIZE) pte) := by
  have hlt := ROUNDDOWN_lt utf.utf_fault_va
  have hal := ROUNDDOWN_aligned utf.utf_fault_va
  have hperm : (PTE_U ||| PTE_P ||| PTE_W) &&& 0xFFFFF000 = 0 := by decide
  have hpn : PGNUM (ROUNDDOWN utf.utf_fault_va PGSIZE) ≠ PGNUM PFTEMP :=
    PGNUM_ne_of_aligned _ _ hal PFTEMP_aligned hne
  unfold pgfault
  simp only [hW, if_false, hpte]
  rw [if_neg (not_not.mpr ⟨hC, hP⟩)]
  generalize ROUNDDOWN utf.utf_fault_va PGSIZE = addr at hpte hne hlt hal hpn ⊢
  by_cases h0 : k.rc k.log.length < 0
  · obtain ⟨k1, e1, -⟩ := sys_page_alloc_fail k 0 PFTEMP (PTE_U ||| PTE_P ||| PTE_W) h0
    simp only [e1, h0, if_true]
    exact ⟨fun _ => ⟨k1, rfl⟩, fun h => absurd h (not_le.mpr h0)⟩
  · obtain ⟨k1, e1, L1, he1, hph1, hpf1⟩ :=
      sys_page_alloc_ok k 0 PFTEMP (PTE_U ||| PTE_P ||| PTE_W) (not_lt.mp h0)
    rw [envid2env_zero] at he1
    simp only [e1, lt_self_iff_false, if_false]
    obtain ⟨hu1, hpt1, hpf⟩ := uvpt_after_alloc k k1 addr pte _ _ hpte hal hne L1.curenv he1
    by_cases hU : PTE_PERM_U pte = 0
    · have hr : user_readable k1 addr = false := by
        by_contra hcon
        exact ((user_readable_of k1 addr pte hu1 hP).mp (by simpa using hcon)) hU
      simp only [hr, if_true]
      exact ⟨fun _ => ⟨k1, rfl⟩, fun _ h => absurd hU h⟩
    · have hr : user_readable k1 addr = true := (user_readable_of k1 addr pte hu1 hP).mpr hU
      simp only [hr, Bool.true_eq_false, if_false]
      have hk2log : (memmove_page k1 PFTEMP addr).log = k1.log := rfl
      have hk2rc : (memmove_page k1 PFTEMP addr).rc = k1.rc := rfl
      have hrc1 : (memmove_page k1 PFTEMP addr).rc (memmove_page k1 PFTEMP addr).log.length
          = k.rc (k.log.length + 1) := by rw [hk2rc, hk2log]; exact L1.rc_next
      by_cases h1 : k.rc (k.log.length + 1) < 0
      · obtain ⟨k3, e3, -⟩ := sys_page_map_fail (memmove_page k1 PFTEMP addr) 0 PFTEMP 0 addr
          (PTE_U ||| PTE_P ||| PTE_W) (by rw [hrc1]; exact h1)
        simp only [e3, hrc1, h1, if_true]
        exact ⟨fun _ => ⟨k3, rfl⟩, fun _ _ h => absurd h (not_le.mpr h1)⟩
      · obtain ⟨k3, e3, L3, he3, hph3, hpf3⟩ := sys_page_map_ok (memmove_page k1 PFTEMP addr) 0
          PFTEMP 0 addr (PTE_U ||| PTE_P ||| PTE_W) (by rw [hrc1]; exact not_lt.mp h1)
        simp only [e3, lt_self_iff_false, if_false]
        have hrc2 : k3.rc k3.log.length = k.rc (k.log.length + 2) := by
          rw [L3.rc, L3.log, hk2rc, hk2log, L1.rc, L1.log]; simp
        by_cases h2 : k.rc (k.log.length + 2) < 0
        · obtain ⟨k4, e4, -⟩ := sys_page_unmap_fail k3 0 PFTEMP (by rw [hrc2]; exact h2)
          simp only [e4, hrc2, h2, if_true]
          exact ⟨fun _ => ⟨k4, rfl⟩, fun _ _ _ h => absurd h (not_le.mpr h2)⟩
        · obtain ⟨k4, e4, L4, he4, hph4, hpf4⟩ :=
            sys_page_unmap_ok k3 0 PFTEMP (by rw [hrc2]; exact not_lt.mp h2)
          simp only [e4, lt_self_iff_false, if_false]
          refine ⟨fun h => ?_, fun _ _ _ _ => ⟨k4, rfl, ?_⟩⟩
          · rcases h with h | h | h | h
            · exact absurd h h0
            · exact absurd h hU
            · exact absurd h h1
            · exact absurd h h2
          · have hc2 : envid2env (memmove_page k1 PFTEMP addr) 0 = k.curenv := by
              rw [envid2env_zero]; exact L1.curenv
            have hc3 : envid2env k3 0 = k.curenv := by
              rw [envid2env_zero, L3.curenv]; exact L1.curenv
            have hk2envs : (memmove_page k1 PFTEMP addr).envs = k1.envs := rfl
            rw [hc2, hk2envs, hpf, PTE_ADDR_page2pa_or _ _ hperm] at he3
            rw [hc3] at he4
            have hl : (k4.envs k.curenv).lookup (PGNUM addr) =
                page2pa k.page_free ||| (PTE_U ||| PTE_P ||| PTE_W) := by
              rw [he4, Function.update_same, lookup_page_remove _ _ _ PFTEMP_lt, if_neg hpn, he3,
                Function.update_same, lookup_page_insert _ _ _ _ _ hlt, if_pos rfl]
            have hphys : (memmove_page k1 PFTEMP addr).phys =
                Function.update k1.phys (page2pa k.page_free) (k1.phys (PTE_ADDR pte)) := by
              unfold memmove_page
              simp only [L1.curenv, hpf, hpt1, PTE_ADDR_page2pa_or _ _ hperm]
            refine ⟨hl, ?_, ?_, ?_, ?_, ?_, ?_, ?_⟩
            · rw [hl, PTE_ADDR_page2pa_or _ _ hperm]
            · rw [hl]
              have := PTE_low_or (page2pa k.page_free) (PTE_U ||| PTE_P ||| PTE_W) (by decide)
              rw [page2pa_aligned] at this
              rw [this]; decide
            · rw [hl]
              by_contra hcon
              rw [← ne_eq, and_PTE_COW_ne_zero] at hcon
              have := testBit_PTE_ADDR_or (page2pa k.page_free) (PTE_U ||| PTE_P ||| PTE_W) 11
                (by decide)
              rw [page2pa_aligned, hcon] at this
              revert this; decide
            · intro hfresh off
              rw [hph4, hph3, hphys, Function.update_same, hph1, Function.update_noteq hfresh]
            · rw [he4, Function.update_same, lookup_page_remove _ _ _ PFTEMP_lt, if_pos rfl]
            · have hpd3 : PTE_PERM_P (((memmove_page k1 PFTEMP addr).envs k.curenv).env_pgdir
                  (PDX addr)) ≠ 0 := by
                rw [hk2envs, PDX_eq addr hlt]
                exact (uvpt_eq_some k1 _ pte hu1).1 |> fun t => by rw [L1.curenv] at t; exact t
              rw [hpf4, hpf3, hc2, pgdir_frames_of_present _ _ hpd3, Nat.add_zero]
              show k1.page_free = _
              rw [hpf1, envid2env_zero]
            · refine ⟨k.rc k.log.length,
                (memmove_page k1 PFTEMP addr).rc (memmove_page k1 PFTEMP addr).log.length,
                k3.rc k3.log.length, ?_⟩
              rw [L4.log, L3.log, hk2log, L1.log]
              simp

/-! ## Claims about `pgfault` -/

/-- C2, amended.  Fault resolution by `pgfault`.  For every fault whose error
code has `FEC_WR` set, whose faulting page is not the scratch page `PFTEMP`
and whose entry `pte` has `PTE_P` and `PTE_COW` set: whenever `pgfault`
returns, that is whenever its three system calls succeed, the page-aligned
faulting address is mapped in the faulting environment to the frame that
`sys_page_alloc` took from the allocator, with permissions exactly
`PTE_P | PTE_W | PTE_U` (`PTE_COW` clear); that frame, provided the
allocator handed out a frame other than the old one, holds the bytes the old
frame held at the time of the fault; `PFTEMP` is unmapped; and the calls
made are exactly one `sys_page_alloc`, one `sys_page_map` and one
`sys_page_unmap`.  And `pgfault` does return when no call is refused and the
page is readable from user mode. -/
theorem pgfault_fault_resolution (k : Machine) (utf : UTrapframe) (pte : Nat)
    (hW : utf.utf_err &&& FEC_WR ≠ 0)
    (hpte : uvpt k (PGNUM (ROUNDDOWN utf.utf_fault_va PGSIZE)) = some pte)
    (hP : pte &&& PTE_P ≠ 0) (hC : pte &&& PTE_COW ≠ 0)
    (hne : ROUNDDOWN utf.utf_fault_va PGSIZE ≠ PFTEMP) :
    (∀ k', pgfault k utf = Result.returned () k' →
      Resolved k k' (ROUNDDOWN utf.utf_fault_va PGSIZE) pte) ∧
    (0 ≤ k.rc k.log.length → 0 ≤ k.rc (k.log.length + 1) → 0 ≤ k.rc (k.log.length + 2) →
      pte &&& PTE_U ≠ 0 → ∃ k', pgfault k utf = Result.returned () k') := by
  have hP' : PTE_PERM_P pte ≠ 0 := (PTE_PERM_P_ne_zero pte).mpr ((and_PTE_P_ne_zero pte).mp hP)
  have hC' : PTE_PERM_COW pte ≠ 0 :=
    (PTE_PERM_COW_ne_zero pte).mpr ((and_PTE_COW_ne_zero pte).mp hC)
  obtain ⟨hpan, hres⟩ := pgfault_steps k utf pte hW hpte hP' hC' hne
  constructor
  · intro k' hk'
    by_cases hbad : k.rc k.log.length < 0 ∨ PTE_PERM_U pte = 0 ∨ k.rc (k.log.length + 1) < 0 ∨
        k.rc (k.log.length + 2) < 0
    · obtain ⟨k'', hk''⟩ := hpan hbad
      rw [hk'] at hk''; cases hk''
    · push_neg at hbad
      obtain ⟨k'', hk'', hR⟩ := hres hbad.1 hbad.2.1 hbad.2.2.1 hbad.2.2.2
      rw [hk'] at hk''
      cases hk''
      exact hR
  · intro h0 h1 h2 hU
    have hU' : PTE_PERM_U pte ≠ 0 := (PTE_PERM_U_ne_zero pte).mpr ((and_PTE_U_ne_zero pte).mp hU)
    obtain ⟨k', hk', -⟩ := hres h0 hU' h1 h2
    exact ⟨k', hk'⟩

/-- Witness of C2: a write fault at `0x800abc` in `machine_cow`, whose page at
`0x800000` is copy-on-write in frame `0x1000`; the allocator hands out the
frame `0x100000`, which afterwards holds what frame `0x1000` held. -/
theorem pgfault_fault_resolution_witness :
    ∃ k', pgfault machine_cow ⟨0x800abc, 7⟩ = Result.returned () k' ∧
      Resolved machine_cow k' (ROUNDDOWN 0x800abc PGSIZE) 0x1805 ∧
      ∀ off, k'.phys 0x100000 off = machine_cow.phys 0x1000 off := by
  have h := pgfault_fault_resolution machine_cow ⟨0x800abc, 7⟩ 0x1805 (by decide) (by decide)
    (by decide) (by decide) (by decide)
  obtain ⟨k', hk'⟩ := h.2 (by decide) (by decide) (by decide) (by decide)
  exact ⟨k', hk', h.1 k' hk', (h.1 k' hk').2.2.2.2.1 (by decide)⟩

/-- Counterexample to C2 as stated, in two runs.  A write fault at `0x7ff004`
in `machine_cow`, whose page at `PFTEMP` is present and copy-on-write: the
three system calls are made and succeed and `pgfault` returns, but the
page-aligned faulting address, being `PFTEMP`, is left unmapped.  And a
write fault at `0x800000` in `machine_reuse`, where the frame the allocator
hands out is the very frame `0x1000` the page is mapped to: the three
system calls succeed and `pgfault` returns with the page on that frame,
zero-filled, the byte `0xAA` the old frame held being lost. -/
theorem pgfault_fault_resolution_counterexample :
    ((7 : Nat) &&& FEC_WR ≠ 0 ∧
      uvpt machine_cow (PGNUM (ROUNDDOWN 0x7ff004 PGSIZE)) = some 0x5805 ∧
      0x5805 &&& PTE_P ≠ 0 ∧ 0x5805 &&& PTE_COW ≠ 0 ∧
      ∃ k', pgfault machine_cow ⟨0x7ff004, 7⟩ = Result.returned () k' ∧
        k'.log = [Syscall.page_alloc 0 PFTEMP (PTE_U ||| PTE_P ||| PTE_W) 0,
          Syscall.page_map 0 PFTEMP 0 (ROUNDDOWN 0x7ff004 PGSIZE) (PTE_U ||| PTE_P ||| PTE_W) 0,
          Syscall.page_unmap 0 PFTEMP 0] ∧
        (k'.envs machine_cow.curenv).lookup (PGNUM (ROUNDDOWN 0x7ff004 PGSIZE)) = 0) ∧
    (uvpt machine_reuse (PGNUM (ROUNDDOWN 0x800000 PGSIZE)) = some 0x1805 ∧
      ROUNDDOWN 0x800000 PGSIZE ≠ PFTEMP ∧
      PTE_ADDR 0x1805 = page2pa machine_reuse.page_free ∧
      machine_reuse.phys (PTE_ADDR 0x1805) 0 = 0xAA ∧
      ∃ k', pgfault machine_reuse ⟨0x800000, 7⟩ = Result.returned () k' ∧
        k'.log = [Syscall.page_alloc 0 PFTEMP (PTE_U ||| PTE_P ||| PTE_W) 0,
          Syscall.page_map 0 PFTEMP 0 (ROUNDDOWN 0x800000 PGSIZE) (PTE_U ||| PTE_P ||| PTE_W) 0,
          Syscall.page_unmap 0 PFTEMP 0] ∧
        (k'.envs machine_reuse.curenv).lookup (PGNUM (ROUNDDOWN 0x800000 PGSIZE)) = 0x1007 ∧
        k'.phys 0x1000 0 = 0) := by
  refine ⟨⟨by decide, by decide, by decide, by decide,
    (pgfault machine_cow ⟨0x7ff004, 7⟩).state, by rfl, by decide, by decide⟩,
    by decide, by decide, by decide, by decide,
    (pgfault machine_reuse ⟨0x800000, 7⟩).state, by rfl, by decide, by decide, by decide⟩

theorem log_prefix_step {l0 l1 l2 t : List Syscall} {x : Syscall}
    (h1 : ∃ rest, l1 = l0 ++ x :: rest) (h2 : l2 = l1 ++ t) : ∃ rest, l2 = l0 ++ x :: rest := by
  obtain ⟨r, hr⟩ := h1
  exact ⟨r ++ t, by rw [h2, hr]; simp⟩

theorem exec_log (k : Machine) (x : Syscall) :
    (exec k x).2.log = k.log ++ [x.with_ret (k.rc k.log.length)] :=
  (exec_spec k x).1.log

/-- C3. Policy boundary of `pgfault`.  For every fault: if the error code lacks
`FEC_WR`, or the page table of the faulting page is absent, or the page's
entry has `PTE_P` clear or `PTE_COW` clear, then `pgfault` panics in the very
state it was entered in, so that no `sys_page_alloc`, `sys_page_map` or
`sys_page_unmap` call is made, no frame is allocated and no mapping
changes; conversely, when `FEC_WR`, `PTE_P` and `PTE_COW` are all set it
reaches the allocation step: the first call it makes is
`sys_page_alloc(0, PFTEMP, PTE_U | PTE_P | PTE_W)`. -/
theorem pgfault_policy_boundary (k : Machine) (utf : UTrapframe) :
    ((utf.utf_err &&& FEC_WR = 0 ∨
        uvpt k (PGNUM (ROUNDDOWN utf.utf_fault_va PGSIZE)) = none ∨
        ∃ pte, uvpt k (PGNUM (ROUNDDOWN utf.utf_fault_va PGSIZE)) = some pte ∧
          (pte &&& PTE_P = 0 ∨ pte &&& PTE_COW = 0)) →
      pgfault k utf = Result.panic k) ∧
    (utf.utf_err &&& FEC_WR ≠ 0 →
      ∀ pte, uvpt k (PGNUM (ROUNDDOWN utf.utf_fault_va PGSIZE)) = some pte →
        pte &&& PTE_P ≠ 0 → pte &&& PTE_COW ≠ 0 →
        ∃ rest, (pgfault k utf).state.log = k.log ++
          Syscall.page_alloc 0 PFTEMP (PTE_U ||| PTE_P ||| PTE_W) (k.rc k.log.length) :: rest) := by
  constructor
  · intro h
    unfold pgfault
    by_cases hW : utf.utf_err &&& FEC_WR = 0
    · simp only [hW, if_true]
    · simp only [hW, if_false]
      rcases h with h | h | ⟨pte, hpte, h⟩
      · exact absurd h hW
      · simp only [h]
      · simp only [hpte]
        rw [if_pos]
        intro hh
        rcases h with h | h
        · exact (PTE_PERM_P_ne_zero pte).mp hh.2 |> (and_PTE_P_ne_zero pte).mpr |> fun t => t h
        · exact (PTE_PERM_COW_ne_zero pte).mp hh.1 |> (and_PTE_COW_ne_zero pte).mpr |> fun t => t h
  · intro hW pte hpte hP hC
    have hP' : PTE_PERM_P pte ≠ 0 := (PTE_PERM_P_ne_zero pte).mpr ((and_PTE_P_ne_zero pte).mp hP)
    have hC' : PTE_PERM_COW pte ≠ 0 :=
      (PTE_PERM_COW_ne_zero pte).mpr ((and_PTE_COW_ne_zero pte).mp hC)
    have ha := exec_log k (Syscall.page_alloc 0 PFTEMP (PTE_U ||| PTE_P ||| PTE_W) 0)
    simp only [exec, Syscall.with_ret] at ha
    unfold pgfault
    simp only [hW, if_false, hpte]
    rw [if_neg (not_not.mpr ⟨hC', hP'⟩)]
    generalize ROUNDDOWN utf.utf_fault_va PGSIZE = addr
    generalize sys_page_alloc k 0 PFTEMP (PTE_U ||| PTE_P ||| PTE_W) = a at ha ⊢
    have ha' : ∃ rest, a.2.log = k.log ++
        Syscall.page_alloc 0 PFTEMP (PTE_U ||| PTE_P ||| PTE_W) (k.rc k.log.length) :: rest :=
      ⟨[], ha⟩
    have hmm : (memmove_page a.2 PFTEMP addr).log = a.2.log := rfl
    have hm := log_prefix_step ha' (hmm ▸ exec_log (memmove_page a.2 PFTEMP addr)
      (Syscall.page_map 0 PFTEMP 0 addr (PTE_U ||| PTE_P ||| PTE_W) 0))
    have hu := log_prefix_step hm (exec_log (sys_page_map (memmove_page a.2 PFTEMP addr) 0
      PFTEMP 0 addr (PTE_U ||| PTE_P ||| PTE_W)).2 (Syscall.page_unmap 0 PFTEMP 0))
    simp only [exec] at hm hu
    split_ifs
    · exact ha'
    · exact ha'
    · exact hm
    · exact hu
    · exact hu

/-- Witness of C3: a write fault at `0x800000` in `machine_share`, whose page
there is present and writable but not copy-on-write, panics in the state it
found; a write fault at `0x800000` in `machine_cow`, whose page there is
copy-on-write, makes `sys_page_alloc` its first call. -/
theorem pgfault_policy_boundary_witness :
    pgfault machine_share ⟨0x800000, 7⟩ = Result.panic machine_share ∧
    ∃ rest, (pgfault machine_cow ⟨0x800000, 7⟩).state.log = machine_cow.log ++
      Syscall.page_alloc 0 PFTEMP (PTE_U ||| PTE_P ||| PTE_W)
        (machine_cow.rc machine_cow.log.length) :: rest :=
  ⟨(pgfault_policy_boundary machine_share ⟨0x800000, 7⟩).1
      (Or.inr (Or.inr ⟨0x1007, by decide, Or.inr (by decide)⟩)),
    (pgfault_policy_boundary machine_cow ⟨0x800000, 7⟩).2 (by decide) 0x1805 (by decide)
      (by decide) (by decide)⟩

/-! ## The monitor -/

theorem pte_info_display_mapped (m : Monitor) (va i : Nat)
    (hw : pgdir_walk m va = some i) (hP : m.kern_pgtab i &&& PTE_P ≠ 0) :
    pte_info_display m va = (some i, cprintf (cprintf m (Line.va va))
      (Line.pte_info (PTE_ADDR (m.kern_pgtab i)) (PTE_PERM_P (m.kern_pgtab i))
        (PTE_PERM_W (m.kern_pgtab i)) (PTE_PERM_U (m.kern_pgtab i)))) := by
  unfold pte_info_display
  simp only [hw]
  rw [if_neg hP]

theorem pte_info_display_absent (m : Monitor) (va : Nat) (hw : pgdir_walk m va = none) :
    pte_info_display m va = (none, cprintf (cprintf m (Line.va va)) Line.not_exist) := by
  unfold pte_info_display
  simp only [hw]

theorem pte_info_display_not_present (m : Monitor) (va i : Nat)
    (hw : pgdir_walk m va = some i) (hP : m.kern_pgtab i &&& PTE_P = 0) :
    pte_info_display m va = (none, cprintf (cprintf m (Line.va va)) Line.not_exist) := by
  unfold pte_info_display
  simp only [hw]
  rw [if_pos hP]

/-- Function `pte_info_display` changes nothing but the console. -/
theorem pte_info_display_tables (m : Monitor) (va : Nat) :
    (pte_info_display m va).2.kern_pgdir = m.kern_pgdir ∧
      (pte_info_display m va).2.kern_pgtab = m.kern_pgtab ∧
      (pte_info_display m va).2.phys = m.phys := by
  unfold pte_info_display
  cases pgdir_walk m va with
  | none => exact ⟨rfl, rfl, rfl⟩
  | some i =>
    simp only
    split_ifs <;> exact ⟨rfl, rfl, rfl⟩

/-- With well-formed selectors `mon_setperm` comes down to its last lines. -/
theorem mon_setperm_eq (strtol : String → Int) (c a sw su : String) (m : Monitor)
    (hsw : sw = "r" ∨ sw = "w") (hsu : su = "u" ∨ su = "k") :
    mon_setperm strtol [c, a, sw, su] m =
      match (pte_info_display m (to_ptr (strtol a))).1 with
      | some i =>
        (pte_info_display (cprintf
          { (pte_info_display m (to_ptr (strtol a))).2 with
            kern_pgtab := Function.update (pte_info_display m (to_ptr (strtol a))).2.kern_pgtab i
              (((pte_info_display m (to_ptr (strtol a))).2.kern_pgtab i &&& 0xFFFFFFF9) |||
                (sel_U su ||| sel_W sw)) }
          Line.perm_set) (to_ptr (strtol a))).2
      | none => (pte_info_display m (to_ptr (strtol a))).2 := by
  have h1 : ("r".length = 1 ∧ "r".get 0 = 'r') := by decide
  have h2 : ("u".length = 1 ∧ "u".get 0 = 'u') := by decide
  have h3 : ("w".length = 1 ∧ "w".get 0 = 'w') := by decide
  have h4 : ("k".length = 1 ∧ "k".get 0 = 'k') := by decide
  have h5 : ¬ ("w".length = 1 ∧ "w".get 0 = 'r') := by decide
  have h6 : ¬ ("k".length = 1 ∧ "k".get 0 = 'u') := by decide
  have h7 : ¬ (0 + 1 + 1 + 1 + 1 ≠ 4) := by decide
  unfold mon_setperm
  simp only [List.length_cons, List.length_nil, List.getD_cons_succ, List.getD_cons_zero]
  rw [if_neg h7]
  rcases hsw with rfl | rfl <;> rcases hsu with rfl | rfl
  · simp only [h1, h2, if_true, sel_U, sel_W]
    cases (pte_info_display m (to_ptr (strtol a))).1 <;>
      simp [Function.update_idem]
  · simp only [h1, h4, h6, if_true, if_false, sel_U, sel_W]
    cases (pte_info_display m (to_ptr (strtol a))).1 <;>
      simp [Function.update_idem]
  · simp only [h3, h5, h2, if_true, if_false, sel_U, sel_W]
    cases (pte_info_display m (to_ptr (strtol a))).1 <;>
      simp [Function.update_idem]
  · simp only [h3, h5, h4, h6, if_true, if_false, sel_U, sel_W]
    cases (pte_info_display m (to_ptr (strtol a))).1 <;>
      simp [Function.update_idem]

theorem setperm_keep (old p mk : Nat) (hmk : (0xFFFFFFF9 : Nat) &&& mk = mk)
    (hp : p &&& mk = 0) : ((old &&& 0xFFFFFFF9) ||| p) &&& mk = old &&& mk := by
  rw [and_or_distrib_right, Nat.and_assoc, hmk, hp]; simp

theorem setperm_set (old p : Nat) (hp : p &&& 0x6 = p) :
    ((old &&& 0xFFFFFFF9) ||| p) &&& 0x6 = p := by
  have h : (0xFFFFFFF9 : Nat) &&& 0x6 = 0 := by decide
  rw [and_or_distrib_right, Nat.and_assoc, h, hp]; simp

theorem sel_cases (sw su : String) :
    (sel_W sw = 0 ∨ sel_W sw = PTE_W) ∧ (sel_U su = 0 ∨ sel_U su = PTE_U) := by
  unfold sel_W sel_U
  constructor
  · split_ifs
    · exact Or.inr rfl
    · exact Or.inl rfl
  · split_ifs
    · exact Or.inr rfl
    · exact Or.inl rfl

theorem sel_bits (w u : Nat) (hw : w = 0 ∨ w = PTE_W) (hu : u = 0 ∨ u = PTE_U) :
    (u ||| w) &&& 0x6 = u ||| w ∧ (u ||| w) &&& 0xFFFFFFF9 = 0 ∧ (u ||| w) &&& PTE_P = 0 ∧
      (u ||| w) &&& PTE_COW = 0 ∧ (u ||| w) &&& PTE_SHARE = 0 ∧
      (u ||| w) &&& 0xFFFFF000 = 0 ∧
      (u ||| w).testBit 1 = w.testBit 1 ∧ (u ||| w).testBit 2 = u.testBit 2 := by
  rcases hw with rfl | rfl <;> rcases hu with rfl | rfl <;> decide

/-- The entry `setperm` writes, read back through the macros. -/
theorem setperm_entry (old w u : Nat) (hw : w = 0 ∨ w = PTE_W) (hu : u = 0 ∨ u = PTE_U) :
    PTE_ADDR ((old &&& 0xFFFFFFF9) ||| (u ||| w)) = PTE_ADDR old ∧
      PTE_PERM_P ((old &&& 0xFFFFFFF9) ||| (u ||| w)) = PTE_PERM_P old ∧
      PTE_PERM_W ((old &&& 0xFFFFFFF9) ||| (u ||| w)) = PTE_PERM_W w ∧
      PTE_PERM_U ((old &&& 0xFFFFFFF9) ||| (u ||| w)) = PTE_PERM_U u := by
  obtain ⟨-, -, hP, -, -, hA, h1, h2⟩ := sel_bits w u hw hu
  refine ⟨?_, ?_, ?_, ?_⟩
  · exact setperm_keep old _ 0xFFFFF000 (by decide) hA
  · exact setperm_keep old _ 1 (by decide) hP
  · unfold PTE_PERM_W
    rw [shr_and_one, shr_and_one, Nat.testBit_or, Nat.testBit_and, h1]
    have : Nat.testBit 0xFFFFFFF9 1 = false := by decide
    rw [this]; simp
  · unfold PTE_PERM_U
    rw [shr_and_one, shr_and_one, Nat.testBit_or, Nat.testBit_and, h2]
    have : Nat.testBit 0xFFFFFFF9 2 = false := by decide
    rw [this]; simp

/-- What `mon_setperm` does on a mapped address with well-formed selectors. -/
theorem mon_setperm_mapped (strtol : String → Int) (c a sw su : String) (m : Monitor) (i : Nat)
    (hsw : sw = "r" ∨ sw = "w") (hsu : su = "u" ∨ su = "k")
    (hw : pgdir_walk m (to_ptr (strtol a)) = some i)
    (hP : m.kern_pgtab i &&& PTE_P ≠ 0) :
    (mon_setperm strtol [c, a, sw, su] m).kern_pgdir = m.kern_pgdir ∧
    (mon_setperm strtol [c, a, sw, su] m).kern_pgtab =
      Function.update m.kern_pgtab i
        ((m.kern_pgtab i &&& 0xFFFFFFF9) ||| (sel_U su ||| sel_W sw)) ∧
    (mon_setperm strtol [c, a, sw, su] m).phys = m.phys := by
  rw [mon_setperm_eq strtol c a sw su m hsw hsu, pte_info_display_mapped m _ i hw hP]
  simp only
  exact ⟨(pte_info_display_tables _ _).1, (pte_info_display_tables _ _).2.1,
    (pte_info_display_tables _ _).2.2⟩

theorem pgdir_walk_congr (m m' : Monitor) (va : Nat) (h : m'.kern_pgdir = m.kern_pgdir) :
    pgdir_walk m' va = pgdir_walk m va := by
  unfold pgdir_walk; rw [h]

theorem page_region_loop_lt (va end_ : Nat) (m : Monitor) (h : va < end_) :
    page_region_loop va end_ m =
      page_region_loop (va + PGSIZE) end_ (pte_info_display m va).2 := by
  rw [page_region_loop, if_pos h]

theorem page_region_loop_ge (va end_ : Nat) (m : Monitor) (h : ¬ va < end_) :
    page_region_loop va end_ m = m := by
  rw [page_region_loop, if_neg h]

/-- The range display changes nothing but the console. -/
theorem page_region_loop_tables (end_ : Nat) : ∀ n va m, end_ - va = n →
    (page_region_loop va end_ m).kern_pgdir = m.kern_pgdir ∧
      (page_region_loop va end_ m).kern_pgtab = m.kern_pgtab ∧
      (page_region_loop va end_ m).phys = m.phys := by
  intro n
  induction n using Nat.strong_induction_on with
  | _ n ih =>
    intro va m hn
    by_cases h : va < end_
    · rw [page_region_loop_lt va end_ m h]
      obtain ⟨h1, h2, h3⟩ := ih (end_ - (va + PGSIZE)) (by unfold PGSIZE; omega) (va + PGSIZE)
        (pte_info_display m va).2 rfl
      obtain ⟨g1, g2, g3⟩ := pte_info_display_tables m va
      exact ⟨h1.trans g1, h2.trans g2, h3.trans g3⟩
    · rw [page_region_loop_ge va end_ m h]
      exact ⟨rfl, rfl, rfl⟩

theorem mon_showmapping_one (strtol : String → Int) (c a : String) (m : Monitor) :
    mon_showmapping strtol [c, a] m =
      page_region_loop (ROUNDDOWN (to_ptr (strtol a)) PGSIZE)
        (ROUNDUP ((to_ptr (strtol a) + PGSIZE) % 2 ^ 32) PGSIZE) m := by
  unfold mon_showmapping page_region_display
  simp

theorem to_ptr_lt (x : Int) : to_ptr x < 2 ^ 32 := by
  unfold to_ptr
  have h1 : 0 ≤ x % 2 ^ 32 := Int.emod_nonneg _ (by norm_num)
  have h2 : x % 2 ^ 32 < 2 ^ 32 := Int.emod_lt_of_pos _ (by norm_num)
  omega

theorem pte_info_display_console (m : Monitor) (va : Nat) :
    (pte_info_display m va).2.console = m.console ++ translate_report m va := by
  unfold translate_report
  cases hw : pgdir_walk m va with
  | none => rw [pte_info_display_absent m va hw]; simp [cprintf]
  | some i =>
    by_cases hP : m.kern_pgtab i &&& PTE_P = 0
    · rw [pte_info_display_not_present m va i hw hP]; simp [cprintf, hP]
    · rw [pte_info_display_mapped m va i hw hP]; simp [cprintf, hP]

theorem translate_report_congr (m m' : Monitor) (va : Nat)
    (hd : m'.kern_pgdir = m.kern_pgdir) (ht : m'.kern_pgtab = m.kern_pgtab) :
    translate_report m' va = translate_report m va := by
  unfold translate_report
  rw [pgdir_walk_congr m m' va hd, ht]

theorem showmapping_wrap (x : Nat) (hx : x < 2 ^ 32)
    (h : 2 ^ 32 ≤ ROUNDDOWN x PGSIZE + PGSIZE ∨
      (x % PGSIZE ≠ 0 ∧ 2 ^ 32 ≤ ROUNDDOWN x PGSIZE + 2 * PGSIZE)) :
    ¬ ROUNDDOWN x PGSIZE < ROUNDUP ((x + PGSIZE) % 2 ^ 32) PGSIZE := by
  unfold ROUNDUP ROUNDDOWN PGSIZE at *
  omega

theorem showmapping_aligned (x : Nat) (h0 : x % PGSIZE = 0) (h : x + PGSIZE < 2 ^ 32) :
    ROUNDDOWN x PGSIZE = x ∧ ROUNDUP ((x + PGSIZE) % 2 ^ 32) PGSIZE = x + PGSIZE := by
  unfold ROUNDUP ROUNDDOWN PGSIZE at *
  omega

theorem showmapping_unaligned (x : Nat) (h0 : x % PGSIZE ≠ 0)
    (h : ROUNDDOWN x PGSIZE + 2 * PGSIZE < 2 ^ 32) :
    ROUNDUP ((x + PGSIZE) % 2 ^ 32) PGSIZE = ROUNDDOWN x PGSIZE + 2 * PGSIZE := by
  unfold ROUNDUP ROUNDDOWN PGSIZE at *
  omega

/-- What the one-argument `showmapping` prints and leaves behind, by the
position of its argument `x` in the address space. -/
theorem mon_showmapping_single (strtol : String → Int) (c a : String) (m : Monitor)
    (x pg : Nat) (hx : x = to_ptr (strtol a)) (hpg : pg = ROUNDDOWN x PGSIZE) :
    (mon_showmapping strtol [c, a] m).kern_pgdir = m.kern_pgdir ∧
    (mon_showmapping strtol [c, a] m).kern_pgtab = m.kern_pgtab ∧
    (mon_showmapping strtol [c, a] m).phys = m.phys ∧
    (x % PGSIZE = 0 → x + PGSIZE < 2 ^ 32 →
      (mon_showmapping strtol [c, a] m).console = m.console ++ translate_report m x) ∧
    (x % PGSIZE ≠ 0 → pg + 2 * PGSIZE < 2 ^ 32 →
      (mon_showmapping strtol [c, a] m).console =
        m.console ++ (translate_report m pg ++ translate_report m (pg + PGSIZE))) ∧
    (2 ^ 32 ≤ pg + PGSIZE ∨ (x % PGSIZE ≠ 0 ∧ 2 ^ 32 ≤ pg + 2 * PGSIZE) →
      (mon_showmapping strtol [c, a] m).console = m.console) := by
  have hlt : x < 2 ^ 32 := hx ▸ to_ptr_lt _
  rw [mon_showmapping_one, ← hx]
  refine ⟨(page_region_loop_tables _ _ _ _ rfl).1, (page_region_loop_tables _ _ _ _ rfl).2.1,
    (page_region_loop_tables _ _ _ _ rfl).2.2, ?_, ?_, ?_⟩
  · intro h0 h
    obtain ⟨h1, h2⟩ := showmapping_aligned x h0 h
    rw [h1, h2, page_region_loop_lt _ _ _ (by unfold PGSIZE; omega),
      page_region_loop_ge _ _ _ (by omega), pte_info_display_console]
  · intro h0 h
    rw [hpg] at h
    have h2 := showmapping_unaligned x h0 h
    rw [h2, ← hpg, page_region_loop_lt _ _ _ (by unfold PGSIZE; omega),
      page_region_loop_lt _ _ _ (by unfold PGSIZE; omega),
      page_region_loop_ge _ _ _ (by unfold PGSIZE; omega), pte_info_display_console,
      pte_info_display_console,
      translate_report_congr m _ _ (pte_info_display_tables m pg).1
        (pte_info_display_tables m pg).2.1, List.append_assoc]
  · intro h
    rw [hpg] at h
    rw [page_region_loop_ge _ _ _ (showmapping_wrap x hlt h)]

theorem strtol_demo_800001 : to_ptr (strtol_demo "0x800001") = 0x800001 := by
  simp [strtol_demo, to_ptr]

/-! ## Claims about `duppage` -/

/-- The result of `duppage` on a page under the copy-on-write policy when both
of its `sys_page_map` calls succeed. -/
theorem duppage_cow_result (k : Machine) (envid : Int) (pn pte : Nat)
    (hpte : uvpt k (PGNUM (pn * PGSIZE % 2 ^ 32)) = some pte)
    (hS : pte &&& PTE_SHARE = 0)
    (hWC : pte &&& PTE_W ≠ 0 ∨ pte &&& PTE_COW ≠ 0)
    (h1 : 0 ≤ k.rc k.log.length) (h2 : 0 ≤ k.rc (k.log.length + 1)) :
    ∃ k', duppage k envid pn = Result.returned 0 k' ∧
      (k'.envs (envid2env k envid)).lookup (PGNUM (pn * PGSIZE % 2 ^ 32)) =
        PTE_ADDR pte ||| (PTE_P ||| PTE_U ||| PTE_COW) ∧
      (k'.envs k.curenv).lookup (PGNUM (pn * PGSIZE % 2 ^ 32)) =
        PTE_ADDR pte ||| (PTE_P ||| PTE_U ||| PTE_COW) := by
  have hva := duppage_va_lt pn
  have hWC' : PTE_PERM_W pte ≠ 0 ∨ PTE_PERM_COW pte ≠ 0 := by
    rcases hWC with h | h
    · exact Or.inl ((PTE_PERM_W_ne_zero pte).mpr ((and_PTE_W_ne_zero pte).mp h))
    · exact Or.inr ((PTE_PERM_COW_ne_zero pte).mpr ((and_PTE_COW_ne_zero pte).mp h))
  have hperm : (PTE_P ||| PTE_U ||| PTE_COW) &&& 0xFFFFF000 = 0 := by decide
  unfold duppage
  generalize pn * PGSIZE % 2 ^ 32 = va at hpte hva ⊢
  obtain ⟨hpd, hpt⟩ := uvpt_eq_some k _ pte hpte
  obtain ⟨k1, e1, L1, henv1, -, -⟩ := sys_page_map_ok k 0 va envid va (PTE_P ||| PTE_U ||| PTE_COW) h1
  obtain ⟨k2, e2, L2, henv2, -, -⟩ := sys_page_map_ok k1 0 va 0 va (PTE_P ||| PTE_U ||| PTE_COW)
    (by rw [L1.rc_next]; exact h2)
  simp only [hpte, hS, ne_eq, not_true_eq_false, if_false]
  rw [if_pos hWC']
  simp only [e1, e2, lt_self_iff_false, if_false]
  rw [envid2env_congr k k1 0 L1.curenv, envid2env_zero] at henv2
  rw [envid2env_zero, hpt] at henv1
  refine ⟨k2, rfl, ?_, ?_⟩
  all_goals
    rw [henv2, henv1]
    generalize envid2env k envid = d
    by_cases hd : d = k.curenv
    · subst hd
      simp only [Function.update_same, pgtab_page_insert_same, lookup_page_insert _ _ _ _ _ hva,
        PTE_ADDR_or _ _ hperm, if_true]
    · simp only [Function.update_same, Function.update_noteq hd, Function.update_noteq (Ne.symm hd),
        lookup_page_insert _ _ _ _ _ hva, if_true, hpt]

theorem CowMapped_of_eq (k : Machine) (e : Int) (pn pte : Nat)
    (h : (k.envs e).lookup pn = PTE_ADDR pte ||| (PTE_P ||| PTE_U ||| PTE_COW)) :
    CowMapped k e pn pte := by
  unfold CowMapped
  rw [h]
  refine ⟨PTE_ADDR_or _ _ (by decide), PTE_low_or _ _ (by decide), ?_, ?_⟩
  · rw [and_PTE_COW_ne_zero, testBit_PTE_ADDR_or _ _ _ (by decide)]; decide
  · by_contra hcon
    rw [← ne_eq, and_PTE_W_ne_zero, testBit_PTE_ADDR_or _ _ _ (by decide)] at hcon
    revert hcon; decide

/-- C1. COW symmetry of `duppage`.  For every page number `pn` whose parent
entry `pte` is present, does not carry `PTE_SHARE` and carries `PTE_W` or
`PTE_COW`, a `duppage(envid, pn)` in which both `sys_page_map` calls succeed
returns and leaves both the child's and the parent's mapping of the address
`pn * PGSIZE` pointing at the parent's original frame with permissions
exactly `PTE_P | PTE_U | PTE_COW` (`PTE_COW` set, `PTE_W` clear), whether
the parent entry was writable or already copy-on-write. -/
theorem duppage_cow_symmetry (k : Machine) (envid : Int) (pn pte : Nat)
    (hpte : uvpt k (PGNUM (pn * PGSIZE % 2 ^ 32)) = some pte)
    (_hP : pte &&& PTE_P ≠ 0)
    (hS : pte &&& PTE_SHARE = 0)
    (hWC : pte &&& PTE_W ≠ 0 ∨ pte &&& PTE_COW ≠ 0)
    (h1 : 0 ≤ k.rc k.log.length) (h2 : 0 ≤ k.rc (k.log.length + 1)) :
    ∃ k', duppage k envid pn = Result.returned 0 k' ∧
      CowMapped k' (envid2env k envid) (PGNUM (pn * PGSIZE % 2 ^ 32)) pte ∧
      CowMapped k' k.curenv (PGNUM (pn * PGSIZE % 2 ^ 32)) pte := by
  obtain ⟨k', hk', hc, hp⟩ := duppage_cow_result k envid pn pte hpte hS hWC h1 h2
  exact ⟨k', hk', CowMapped_of_eq _ _ _ _ hc, CowMapped_of_eq _ _ _ _ hp⟩

/-- Witness of C1: the plain writable page at `0x800000` of `machine_share`,
duplicated into environment 2. -/
theorem duppage_cow_symmetry_witness :
    ∃ k', duppage machine_share 2 0x800 = Result.returned 0 k' ∧
      CowMapped k' (envid2env machine_share 2) (PGNUM (0x800 * PGSIZE % 2 ^ 32)) 0x1007 ∧
      CowMapped k' machine_share.curenv (PGNUM (0x800 * PGSIZE % 2 ^ 32)) 0x1007 :=
  duppage_cow_symmetry machine_share 2 0x800 0x1007 (by decide) (by decide) (by decide)
    (by decide) (by decide) (by decide)

/-- The result of `duppage` on a page under the shared policy when its
`sys_page_map` call succeeds. -/
theorem duppage_share_result (k : Machine) (envid : Int) (pn pte : Nat)
    (hpte : uvpt k (PGNUM (pn * PGSIZE % 2 ^ 32)) = some pte)
    (hS : pte &&& PTE_SHARE ≠ 0)
    (h1 : 0 ≤ k.rc k.log.length) :
    ∃ k', duppage k envid pn = Result.returned 0 k' ∧
      (k'.envs (envid2env k envid)).lookup (PGNUM (pn * PGSIZE % 2 ^ 32)) =
        PTE_ADDR pte ||| (pte &&& PTE_SYSCALL) ∧
      (envid2env k envid ≠ k.curenv → k'.envs k.curenv = k.envs k.curenv) ∧
      (∀ q, q ≠ PGNUM (pn * PGSIZE % 2 ^ 32) →
        (k'.envs k.curenv).lookup q = (k.envs k.curenv).lookup q) ∧
      (k.envs k.curenv).lookup (PGNUM (pn * PGSIZE % 2 ^ 32)) = pte ∧
      k'.log = k.log ++ [Syscall.page_map 0 (pn * PGSIZE % 2 ^ 32) envid (pn * PGSIZE % 2 ^ 32)
        (pte &&& PTE_SYSCALL) (k.rc k.log.length)] := by
  have hva := duppage_va_lt pn
  unfold duppage
  generalize pn * PGSIZE % 2 ^ 32 = va at hpte hva ⊢
  obtain ⟨hpd, hpt⟩ := uvpt_eq_some k _ pte hpte
  obtain ⟨k1, e1, L1, henv1, -, -⟩ := sys_page_map_ok k 0 va envid va (pte &&& PTE_SYSCALL) h1
  simp only [hpte]
  rw [if_pos hS]
  simp only [e1, lt_self_iff_false, if_false]
  rw [envid2env_zero, hpt] at henv1
  refine ⟨k1, rfl, ?_, ?_, ?_, ?_, L1.log⟩
  · rw [henv1, Function.update_same, lookup_page_insert _ _ _ _ _ hva, if_pos rfl]
  · intro hd; rw [henv1, Function.update_noteq (Ne.symm hd)]
  · intro q hq
    rw [henv1]
    by_cases hd : envid2env k envid = k.curenv
    · rw [hd, Function.update_same, lookup_page_insert _ _ _ _ _ hva, if_neg hq]
    · rw [Function.update_noteq (Ne.symm hd)]
  · rw [lookup_of_present _ _ hpd, hpt]

theorem share_cow_bit (pte : Nat) :
    (PTE_ADDR pte ||| (pte &&& PTE_SYSCALL)) &&& PTE_COW = pte &&& PTE_COW := by
  unfold PTE_ADDR
  have h1 : (0xFFFFF000 : Nat) &&& PTE_COW = 0 := by decide
  have h2 : PTE_SYSCALL &&& PTE_COW = PTE_COW := by decide
  rw [and_or_distrib_right, Nat.and_assoc, Nat.and_assoc, h1, h2]; simp

theorem share_low_bits (pte : Nat) :
    (PTE_ADDR pte ||| (pte &&& PTE_SYSCALL)) &&& 0xFFF = pte &&& PTE_SYSCALL := by
  apply PTE_low_or
  have h : PTE_SYSCALL &&& 0xFFF = PTE_SYSCALL := by decide
  rw [Nat.and_assoc, h]

theorem share_frame (pte : Nat) :
    PTE_ADDR (PTE_ADDR pte ||| (pte &&& PTE_SYSCALL)) = PTE_ADDR pte := by
  apply PTE_ADDR_or
  have h : PTE_SYSCALL &&& 0xFFFFF000 = 0 := by decide
  rw [Nat.and_assoc, h]; simp

theorem share_syscall_bits (pte : Nat) :
    (PTE_ADDR pte ||| (pte &&& PTE_SYSCALL)) &&& PTE_SYSCALL = pte &&& PTE_SYSCALL := by
  unfold PTE_ADDR
  have h1 : (0xFFFFF000 : Nat) &&& PTE_SYSCALL = 0 := by decide
  have h2 : PTE_SYSCALL &&& PTE_SYSCALL = PTE_SYSCALL := by decide
  rw [and_or_distrib_right, Nat.and_assoc, Nat.and_assoc, h1, h2]; simp

theorem share_perm_no_cow (pte : Nat) (h : pte &&& PTE_COW = 0) :
    pte &&& PTE_SYSCALL = pte &&& 0x607 := by
  have hb : pte.testBit 11 = false := by
    by_contra hcon
    exact ((and_PTE_COW_ne_zero pte).mpr (by simpa using hcon)) h
  have hS : PTE_SYSCALL = 0x607 ||| 2 ^ 11 := by decide
  apply Nat.eq_of_testBit_eq
  intro i
  rw [Nat.testBit_and, Nat.testBit_and, hS, Nat.testBit_or, Nat.testBit_two_pow]
  by_cases hi : 11 = i
  · subst hi; simp [hb]
  · simp [hi]

/-- C4.  Shared policy of `duppage`.  For every page number `pn` whose parent
entry `pte` is present and carries `PTE_SHARE`, and hence by the invariant
of section 3 of the specification not `PTE_COW`, a `duppage(envid, pn)` whose
`sys_page_map` call succeeds returns, having made that one call, with the
permission `pte & PTE_SYSCALL`, and no other; the target environment has
the address mapped to the parent's frame with the parent's permission bits
excluding `PTE_COW` (`PTE_P`, `PTE_W`, `PTE_U` and the available bits
`0x600` of `pte`), and so without `PTE_COW`; the parent's own mappings are
unchanged: its environment is
untouched when `envid` names another environment, and in every case each of
its pages keeps its frame and its permission bits. -/
theorem duppage_shared_policy (k : Machine) (envid : Int) (pn pte : Nat)
    (hpte : uvpt k (PGNUM (pn * PGSIZE % 2 ^ 32)) = some pte)
    (_hP : pte &&& PTE_P ≠ 0)
    (hS : pte &&& PTE_SHARE ≠ 0)
    (hI : pte &&& PTE_COW = 0)
    (h1 : 0 ≤ k.rc k.log.length) :
    ∃ k', duppage k envid pn = Result.returned 0 k' ∧
      PTE_ADDR ((k'.envs (envid2env k envid)).lookup (PGNUM (pn * PGSIZE % 2 ^ 32))) =
        PTE_ADDR pte ∧
      (k'.envs (envid2env k envid)).lookup (PGNUM (pn * PGSIZE % 2 ^ 32)) &&& 0xFFF =
        pte &&& PTE_SYSCALL ∧
      (k'.envs (envid2env k envid)).lookup (PGNUM (pn * PGSIZE % 2 ^ 32)) &&& 0xFFF =
        pte &&& 0x607 ∧
      (k'.envs (envid2env k envid)).lookup (PGNUM (pn * PGSIZE % 2 ^ 32)) &&& PTE_COW = 0 ∧
      (envid2env k envid ≠ k.curenv → k'.envs k.curenv = k.envs k.curenv) ∧
      (∀ q, PTE_ADDR ((k'.envs k.curenv).lookup q) = PTE_ADDR ((k.envs k.curenv).lookup q) ∧
        (k'.envs k.curenv).lookup q &&& PTE_SYSCALL =
          (k.envs k.curenv).lookup q &&& PTE_SYSCALL) ∧
      k'.log = k.log ++ [Syscall.page_map 0 (pn * PGSIZE % 2 ^ 32) envid (pn * PGSIZE % 2 ^ 32)
        (pte &&& PTE_SYSCALL) (k.rc k.log.length)] := by
  obtain ⟨k', hk', hc, hp, hq, hold, hlog⟩ := duppage_share_result k envid pn pte hpte hS h1
  refine ⟨k', hk', ?_, ?_, ?_, ?_, hp, ?_, hlog⟩
  · rw [hc, share_frame]
  · rw [hc, share_low_bits]
  · rw [hc, share_low_bits, share_perm_no_cow pte hI]
  · rw [hc, share_cow_bit, hI]
  · intro q
    by_cases hqe : q = PGNUM (pn * PGSIZE % 2 ^ 32)
    · by_cases hd : envid2env k envid = k.curenv
      · rw [hqe, ← hd, hc, hd, hold, share_frame, share_syscall_bits]
        exact ⟨rfl, rfl⟩
      · rw [hp hd]; exact ⟨rfl, rfl⟩
    · rw [hq q hqe]; exact ⟨rfl, rfl⟩

/-- Witness of C4: the shared page at `0x801000` of `machine_share`, whose
entry `0x3407` has `PTE_COW` clear, duplicated into environment 2: the child
has the page in frame `0x3000` with the bits `0x407`, writable and shared. -/
theorem duppage_shared_policy_witness :
    ∃ k', duppage machine_share 2 0x801 = Result.returned 0 k' ∧
      PTE_ADDR ((k'.envs 2).lookup 0x801) = 0x3000 ∧
      (k'.envs 2).lookup 0x801 &&& 0xFFF = 0x407 ∧
      (k'.envs 2).lookup 0x801 &&& PTE_COW = 0 ∧
      k'.envs 1 = machine_share.envs 1 := by
  obtain ⟨k', hk', h1, h2, -, h3, h4, -, -⟩ :=
    duppage_shared_policy machine_share 2 0x801 0x3407 (by decide) (by decide) (by decide)
      (by decide) (by decide)
  exact ⟨k', hk', h1, h2, h3, h4 (by decide)⟩

/-! ## Claims about `fork` -/

/-- C7. No half-constructed runnable child.  With `r` the code `sys_exofork`
gets: the calls of `fork` stop at the first refusal (every call but the last
succeeded, all succeeded if `fork` returned, the last was refused if it
panicked); a `sys_env_set_status` call is the last call, is for the child
and `ENV_RUNNABLE`, and is made only after `sys_exofork` gave a child, the
whole page loop came back with every call succeeding and the upcall was
installed; if any call is refused `fork` panics and no `sys_env_set_status`
succeeded, the child's status staying not runnable; when every call
succeeds `fork` returns the child's id, the child being runnable; and
when `sys_exofork` returns 0, `fork` returns 0. -/
theorem fork_no_half_constructed_child (k : Machine) (upcall : Nat) :
    (∃ new, (fork k upcall).state.log = k.log ++ new ∧ LogOk (fork k upcall) new ∧
      (∀ pre x post, new = pre ++ x :: post → x.is_set_status = true →
        post = [] ∧ (∀ y ∈ pre, 0 ≤ y.ret) ∧
        ∃ k1 k2 k3, 0 < k.rc k.log.length ∧
          sys_exofork (set_pgfault_handler k) = (k.rc k.log.length, k1) ∧
          forkLoop (k.rc k.log.length) UTEXT k1 = Result.returned () k2 ∧
          sys_env_set_pgfault_upcall k2 (k.rc k.log.length) upcall = (0, k3) ∧
          0 ≤ k2.rc k2.log.length ∧ k3.log = k.log ++ pre ∧
          x = Syscall.env_set_status (k.rc k.log.length) ENV_RUNNABLE (k3.rc k3.log.length)) ∧
      ((∃ x ∈ new, x.ret < 0) →
        (∃ k', fork k upcall = Result.panic k') ∧
        ∀ x ∈ new, x.is_set_status = true → x.ret < 0)) ∧
    (∀ k', fork k upcall = Result.panic k' → 0 < k.rc k.log.length →
      k.rc k.log.length ≠ k.curenv →
      (k'.envs (k.rc k.log.length)).env_status = ENV_NOT_RUNNABLE) ∧
    (0 < k.rc k.log.length → (∀ i, k.log.length ≤ i → 0 ≤ k.rc i) →
      ∃ k', fork k upcall = Result.returned (k.rc k.log.length) k' ∧
        (k'.envs (k.rc k.log.length)).env_status = ENV_RUNNABLE) ∧
    (k.rc k.log.length = 0 → ∃ k', fork k upcall = Result.returned 0 k') := by
  refine ⟨?_, fun k' hp hpos hne => fork_panic_status k upcall k' hp hpos hne, ?_,
    fork_child k upcall⟩
  · obtain ⟨new, hlog, hok, hst⟩ := fork_log k upcall
    refine ⟨new, hlog, hok, hst, ?_⟩
    rintro ⟨x, hx, hneg⟩
    have hpan : ∃ k', fork k upcall = Result.panic k' := by
      cases hres : fork k upcall with
      | panic k' => exact ⟨k', rfl⟩
      | returned v k' => exact absurd (hok.ret v k' hres x hx) (not_le.mpr hneg)
    refine ⟨hpan, ?_⟩
    intro y hy hys
    obtain ⟨k', hk'⟩ := hpan
    obtain ⟨pre, post, he⟩ := List.append_of_mem hy
    obtain ⟨hpost, -, -⟩ := hst pre y post he hys
    obtain ⟨z, hz, hzneg⟩ := hok.pan k' hk'
    rw [he, hpost] at hz
    simp only [List.getLast?_append, List.getLast?_singleton] at hz
    have hyz : y = z := by simpa [Option.or] using hz
    rw [hyz]; exact hzneg
  · intro hpos hall
    obtain ⟨k', hk'⟩ := fork_success k upcall hpos hall
    exact ⟨k', hk', fork_success_status k upcall _ k' hk' (ne_of_gt hpos)⟩

/-- Witness of C7 on a parent with one text page: no call is refused and
`sys_exofork` gives the child the id 2, so `fork` returns 2 with the child
runnable. -/
theorem fork_no_half_constructed_child_witness :
    ∃ k', fork machine_text 0 = Result.returned 2 k' ∧ (k'.envs 2).env_status = ENV_RUNNABLE :=
  (fork_no_half_constructed_child machine_text 0).2.2.1 (by decide)
    (fun i _ => by unfold machine_text machine_of rc_child2; simp only; split_ifs <;> decide)

/-- C6, amended.  Coverage of the fork page loop.  After a `fork` that returned
the child's id `c` to the parent, for every page-aligned address `a` of the
user region below `UTOP` other than the exception-stack page: if `a` lies
at or above `UTEXT` and the parent's page-directory entry and page-table
entry for it are present, the calls made at `a` are those of exactly one of
the three policies, once (one `sys_page_map` into the child with the
permission of the policy, followed under the copy-on-write policy by the
re-mapping of the parent's own entry), the child has `a` mapped to the
parent's frame with that permission, and the parent's entry is re-marked
copy-on-write under the copy-on-write policy and untouched under the other
two; if `a` lies below `UTEXT`, or the parent's page-directory entry or
page-table entry for it is not present, no call installing anything at `a`
was made, the child has nothing mapped there and the parent's entry is
untouched. -/
theorem fork_page_loop_coverage (k : Machine) (upcall : Nat) (c : Int) (k' : Machine)
    (hret : fork k upcall = Result.returned c k') (hc : c ≠ 0) (hne : c ≠ k.curenv) :
    ∃ new, k'.log = k.log ++ new ∧
      ∀ a, a % PGSIZE = 0 → a < UTOP → a ≠ UXSTACKTOP - PGSIZE →
        ((UTEXT ≤ a ∧ PTE_PERM_P (uvpd k (PDX a)) ≠ 0 ∧
            PTE_PERM_P ((k.envs k.curenv).env_pgtab (PGNUM a)) ≠ 0) →
          (new.filter (fun x => decide (x.dstva = some a))).map Syscall.forget =
            dup_calls c a ((k.envs k.curenv).env_pgtab (PGNUM a)) ∧
          (new.filter (Syscall.maps_into c a)).map Syscall.forget =
            [Syscall.page_map 0 a c a (policy_perm ((k.envs k.curenv).env_pgtab (PGNUM a))) 0] ∧
          (k'.envs c).lookup (PGNUM a) = PTE_ADDR ((k.envs k.curenv).env_pgtab (PGNUM a)) |||
            policy_perm ((k.envs k.curenv).env_pgtab (PGNUM a)) ∧
          PTE_ADDR ((k'.envs c).lookup (PGNUM a)) =
            PTE_ADDR ((k.envs k.curenv).env_pgtab (PGNUM a)) ∧
          (k'.envs k.curenv).env_pgtab (PGNUM a) =
            if (k.envs k.curenv).env_pgtab (PGNUM a) &&& PTE_SHARE = 0 ∧
                (PTE_PERM_W ((k.envs k.curenv).env_pgtab (PGNUM a)) ≠ 0 ∨
                  PTE_PERM_COW ((k.envs k.curenv).env_pgtab (PGNUM a)) ≠ 0) then
              PTE_ADDR ((k.envs k.curenv).env_pgtab (PGNUM a)) ||| (PTE_P ||| PTE_U ||| PTE_COW)
            else (k.envs k.curenv).env_pgtab (PGNUM a)) ∧
        ((a < UTEXT ∨ PTE_PERM_P (uvpd k (PDX a)) = 0 ∨
            PTE_PERM_P ((k.envs k.curenv).env_pgtab (PGNUM a)) = 0) →
          new.filter (fun x => decide (x.dstva = some a)) = [] ∧
          (k'.envs c).lookup (PGNUM a) = 0 ∧
          (k'.envs k.curenv).env_pgtab (PGNUM a) = (k.envs k.curenv).env_pgtab (PGNUM a)) := by
  obtain ⟨new, hlog, hfil, hchild, hout⟩ := fork_pages k upcall c k' hret hc hne
  obtain ⟨-, hpin, hpout⟩ := fork_parent k upcall c k' hret hc hne
  refine ⟨new, hlog, ?_⟩
  intro a hal h2 hx
  constructor
  · rintro ⟨h1, hpd, hpt⟩
    have hl := hchild a h1 h2 hal (fun e => absurd e hx)
    rw [if_neg (by simp [hpd, hpt])] at hl
    have hb : body_calls k c a = dup_calls c a ((k.envs k.curenv).env_pgtab (PGNUM a)) := by
      unfold body_calls
      rw [if_neg hpd, if_neg hx, if_neg hpt]
    refine ⟨?_, ?_, hl, ?_, ?_⟩
    · rw [hfil a, if_pos ⟨h1, h2, hal⟩, hb]
    · rw [filter_maps_into, hfil a, if_pos ⟨h1, h2, hal⟩, hb]
      exact filter_dup_calls c hc a _
    · rw [hl, PTE_ADDR_or _ _ (policy_perm_low _)]
    · rw [hpin a h1 h2 hal]
      unfold parent_entry
      by_cases hcow : (k.envs k.curenv).env_pgtab (PGNUM a) &&& PTE_SHARE = 0 ∧
          (PTE_PERM_W ((k.envs k.curenv).env_pgtab (PGNUM a)) ≠ 0 ∨
            PTE_PERM_COW ((k.envs k.curenv).env_pgtab (PGNUM a)) ≠ 0)
      · rw [if_pos hcow, if_pos ⟨hpd, hx, hpt, hcow.1, hcow.2⟩]
      · rw [if_neg hcow, if_neg (fun hh => hcow ⟨hh.2.2.2.1, hh.2.2.2.2⟩)]
  · intro hn
    by_cases h1 : UTEXT ≤ a
    · have hab : PTE_PERM_P (uvpd k (PDX a)) = 0 ∨
          PTE_PERM_P ((k.envs k.curenv).env_pgtab (PGNUM a)) = 0 := by
        rcases hn with hn | hn | hn
        · omega
        · exact Or.inl hn
        · exact Or.inr hn
      have hl := hchild a h1 h2 hal (fun e => absurd e hx)
      rw [if_pos hab] at hl
      have hf := hfil a
      rw [if_pos ⟨h1, h2, hal⟩] at hf
      have hb : body_calls k c a = [] := by
        unfold body_calls
        by_cases hpd : PTE_PERM_P (uvpd k (PDX a)) = 0
        · rw [if_pos hpd]
        · rw [if_neg hpd, if_neg hx, if_pos (hab.resolve_left hpd)]
      rw [hb] at hf
      refine ⟨List.map_eq_nil_iff.mp hf, hl, ?_⟩
      rw [hpin a h1 h2 hal]
      unfold parent_entry
      rw [if_neg]
      rintro ⟨hpd, -, hpt, -⟩
      rcases hab with h | h
      · exact hpd h
      · exact hpt h
    · have hlt : PGNUM a < PGNUM UTEXT :=
        PGNUM_lt_of_lt a UTEXT hal UTEXT_aligned (not_le.mp h1)
      have hq : ¬ (PGNUM UTEXT ≤ PGNUM a ∧ PGNUM a < PGNUM UTOP) := fun hh => by omega
      have hf := hfil a
      rw [if_neg (fun hh => h1 hh.1)] at hf
      refine ⟨List.map_eq_nil_iff.mp hf, ?_, hpout _ hq⟩
      rw [hout _ hq, lookup_env_fresh, if_pos (PGNUM_lt_UTOP a h2)]

/-- Witness of C6 on a parent with one read-only text page at `UTEXT`: `fork`
returns the child's id 2, and the child has `UTEXT` mapped to the parent's
frame `0x1000` read-only. -/
theorem fork_page_loop_coverage_witness :
    ∃ k', fork machine_text 0 = Result.returned 2 k' ∧
      (k'.envs 2).lookup (PGNUM UTEXT) = 0x1005 := by
  obtain ⟨k', hk'⟩ := fork_success machine_text 0 (by decide)
    (fun i _ => by unfold machine_text machine_of rc_child2; simp only; split_ifs <;> decide)
  refine ⟨k', hk', ?_⟩
  obtain ⟨new, -, h⟩ :=
    fork_page_loop_coverage machine_text 0 2 k' hk' (by decide) (by decide)
  have := ((h UTEXT (by decide) (by decide) (by decide)).1
    ⟨by decide, by decide, by decide⟩).2.2.1
  rw [this]
  decide

/-- Counterexample to C6 as stated: the parent has a present page at
`0x400000`, a page-aligned address of the user region below `UTOP` that is
not the exception stack; `fork` succeeds, yet no call installs anything at
that address and the child has nothing mapped there. -/
theorem fork_page_loop_coverage_counterexample :
    ∃ k', fork machine_utemp 0 = Result.returned 2 k' ∧
      0x400000 % PGSIZE = 0 ∧ 0x400000 < UTOP ∧ 0x400000 ≠ UXSTACKTOP - PGSIZE ∧
      PTE_PERM_P (uvpd machine_utemp (PDX 0x400000)) ≠ 0 ∧
      PTE_PERM_P ((machine_utemp.envs machine_utemp.curenv).env_pgtab (PGNUM 0x400000)) ≠ 0 ∧
      (k'.envs 2).lookup (PGNUM 0x400000) = 0 ∧
      ∀ x ∈ k'.log, x.dstva ≠ some 0x400000 := by
  obtain ⟨k', hk'⟩ := fork_success machine_utemp 0 (by decide)
    (fun i _ => by unfold machine_utemp machine_of rc_child2; simp only; split_ifs <;> decide)
  obtain ⟨new, hlog, hfil, -, hout⟩ := fork_pages machine_utemp 0 2 k' hk' (by decide) (by decide)
  refine ⟨k', hk', by decide, by decide, by decide, by decide, by decide, ?_, ?_⟩
  · rw [hout _ (by decide), lookup_env_fresh, if_pos (by decide)]
  · have hf := hfil 0x400000
    rw [if_neg (by decide)] at hf
    have hnil := List.map_eq_nil_iff.mp hf
    intro x hx
    have hxn : x ∈ new := by
      rw [hlog] at hx
      simpa [machine_utemp, machine_of] using hx
    intro hd
    have : x ∈ new.filter (fun x => decide (x.dstva = some 0x400000)) := by
      rw [List.mem_filter]; exact ⟨hxn, by simp [hd]⟩
    rw [hnil] at this
    cases this

/-- C5.  Private exception stack in `fork`.  For every parent whose page table
for the top 4 MB of the user region exists (there lie the parent's stack and
its own exception stack, which `set_pgfault_handler` maps before the loop
runs), after a `fork` that returned the child's id `c` to the parent: the
child's page at `UXSTACKTOP - PGSIZE` is mapped to a frame `f` that
`sys_page_alloc` took from the allocator during the `fork`, zero-filled,
with permissions exactly `PTE_P | PTE_U | PTE_W` and without `PTE_COW`; the
only call made at that address is that one `sys_page_alloc` for the child,
so `duppage`, whose calls are `sys_page_map`s at the page it is given, was
not called for it, whatever the parent's entry for the page holds; and when
the frame the allocator handed out was not mapped by the parent before the
`fork`, as the allocator's contract demands (section 3), it is not a frame
the parent maps after it. -/
theorem fork_private_exception_stack (k : Machine) (upcall : Nat) (c : Int) (k' : Machine)
    (hret : fork k upcall = Result.returned c k') (hc : c ≠ 0) (hne : c ≠ k.curenv)
    (hpd : PTE_PERM_P (uvpd k (PDX (UXSTACKTOP - PGSIZE))) ≠ 0) :
    ∃ new f, k'.log = k.log ++ new ∧ k.page_free ≤ f ∧ f < k'.page_free ∧
      (k'.envs c).lookup (PGNUM (UXSTACKTOP - PGSIZE)) =
        page2pa f ||| (PTE_U ||| PTE_P ||| PTE_W) ∧
      PTE_ADDR ((k'.envs c).lookup (PGNUM (UXSTACKTOP - PGSIZE))) = page2pa f ∧
      (k'.envs c).lookup (PGNUM (UXSTACKTOP - PGSIZE)) &&& 0xFFF = PTE_P ||| PTE_U ||| PTE_W ∧
      (k'.envs c).lookup (PGNUM (UXSTACKTOP - PGSIZE)) &&& PTE_COW = 0 ∧
      (∀ off, k'.phys (page2pa f) off = 0) ∧
      (new.filter (fun x => decide (x.dstva = some (UXSTACKTOP - PGSIZE)))).map Syscall.forget =
        [Syscall.page_alloc c (UXSTACKTOP - PGSIZE) (PTE_U ||| PTE_P ||| PTE_W) 0] ∧
      ((∀ q, (k.envs k.curenv).lookup q &&& PTE_P ≠ 0 →
          PTE_ADDR ((k.envs k.curenv).lookup q) ≠ page2pa f) →
        ∀ q, (k'.envs k.curenv).lookup q &&& PTE_P ≠ 0 →
          PTE_ADDR ((k'.envs k.curenv).lookup q) ≠ page2pa f) := by
  obtain ⟨new, hlog, hfil, -, -⟩ := fork_pages k upcall c k' hret hc hne
  obtain ⟨f, hf1, hf2, hl, hz⟩ := fork_xstack k upcall c k' hret hc hne hpd
  have hperm : (PTE_U ||| PTE_P ||| PTE_W) &&& 0xFFFFF000 = 0 := by decide
  refine ⟨new, f, hlog, hf1, hf2, hl, ?_, ?_, ?_, hz, ?_, ?_⟩
  · rw [hl, PTE_ADDR_page2pa_or _ _ hperm]
  · rw [hl]
    have := PTE_low_or (page2pa f) (PTE_U ||| PTE_P ||| PTE_W) (by decide)
    rw [page2pa_aligned] at this
    rw [this]; decide
  · rw [hl]
    by_contra hcon
    rw [← ne_eq, and_PTE_COW_ne_zero] at hcon
    have := testBit_PTE_ADDR_or (page2pa f) (PTE_U ||| PTE_P ||| PTE_W) 11 (by decide)
    rw [page2pa_aligned, hcon] at this
    revert this; decide
  · rw [hfil, if_pos ⟨by decide, by decide, by decide⟩]
    unfold body_calls
    rw [if_neg hpd, if_pos rfl]
  · intro hfree q hq
    obtain ⟨hq0, hfr⟩ := fork_parent_frames k upcall c k' hret hc hne q hq
    rw [hfr]
    exact hfree q hq0

/-- Witness of C5 on a parent with a text page, a stack page and its own
exception stack: `fork` returns the child's id 2, and the child's exception
stack is a frame at or above the allocator's `0x100`, writable and not
copy-on-write. -/
theorem fork_private_exception_stack_witness :
    PTE_PERM_P (uvpd machine_stack (PDX (UXSTACKTOP - PGSIZE))) ≠ 0 ∧
    ∃ k' f, fork machine_stack 0 = Result.returned 2 k' ∧ 0x100 ≤ f ∧
      (k'.envs 2).lookup (PGNUM (UXSTACKTOP - PGSIZE)) =
        page2pa f ||| (PTE_U ||| PTE_P ||| PTE_W) ∧
      (k'.envs 2).lookup (PGNUM (UXSTACKTOP - PGSIZE)) &&& PTE_COW = 0 := by
  refine ⟨by decide, ?_⟩
  obtain ⟨k', hk'⟩ := fork_success machine_stack 0 (by decide)
    (fun i _ => by unfold machine_stack machine_of rc_child2; simp only; split_ifs <;> decide)
  obtain ⟨new, f, -, hf1, -, hl, -, -, hcow, -⟩ :=
    fork_private_exception_stack machine_stack 0 2 k' hk' (by decide) (by decide) (by decide)
  exact ⟨k', f, hk', hf1, hl, hcow⟩

/-! ## Claims about the monitor -/

/-- C8. `setperm` round trip.  For every virtual address whose entry is found
by the walker and has `PTE_P` set, and for every selector pair (`r` or `w`,
`u` or `k`): after `mon_setperm` the entry equals `(old & ~0x6) | requested
bits`, so that `Translate` (`pte_info_display`) right afterwards reports
exactly the requested writable and user bits with the present bit and the
physical address unchanged, and every other bit of the entry (`PTE_COW` and
`PTE_SHARE` among them) is unchanged; the same `setperm` a second time
leaves the page tables identical.  When the address is not mapped (the
walker finds no entry, or `PTE_P` is clear) no entry is modified. -/
theorem setperm_round_trip (strtol : String → Int) (c a sw su : String) (m : Monitor)
    (hsw : sw = "r" ∨ sw = "w") (hsu : su = "u" ∨ su = "k") :
    (∀ i, pgdir_walk m (to_ptr (strtol a)) = some i → m.kern_pgtab i &&& PTE_P ≠ 0 →
      PermsSet m (mon_setperm strtol [c, a, sw, su] m) (to_ptr (strtol a)) i
        (sel_W sw) (sel_U su) ∧
      (mon_setperm strtol [c, a, sw, su] (mon_setperm strtol [c, a, sw, su] m)).kern_pgtab =
        (mon_setperm strtol [c, a, sw, su] m).kern_pgtab ∧
      (mon_setperm strtol [c, a, sw, su] (mon_setperm strtol [c, a, sw, su] m)).kern_pgdir =
        (mon_setperm strtol [c, a, sw, su] m).kern_pgdir) ∧
    ((pgdir_walk m (to_ptr (strtol a)) = none ∨
        ∃ i, pgdir_walk m (to_ptr (strtol a)) = some i ∧ m.kern_pgtab i &&& PTE_P = 0) →
      (mon_setperm strtol [c, a, sw, su] m).kern_pgtab = m.kern_pgtab ∧
      (mon_setperm strtol [c, a, sw, su] m).kern_pgdir = m.kern_pgdir) := by
  obtain ⟨hW, hU⟩ := sel_cases sw su
  obtain ⟨h6, h9, hbP, hbC, hbS, -, -, -⟩ := sel_bits _ _ hW hU
  constructor
  · intro i hw hP
    obtain ⟨hd, ht, -⟩ := mon_setperm_mapped strtol c a sw su m i hsw hsu hw hP
    have hnew : (mon_setperm strtol [c, a, sw, su] m).kern_pgtab i =
        (m.kern_pgtab i &&& 0xFFFFFFF9) ||| (sel_U su ||| sel_W sw) := by
      rw [ht, Function.update_same]
    have hkeepP : (mon_setperm strtol [c, a, sw, su] m).kern_pgtab i &&& PTE_P =
        m.kern_pgtab i &&& PTE_P := by
      rw [hnew]; exact setperm_keep _ _ _ (by decide) hbP
    have hw' : pgdir_walk (mon_setperm strtol [c, a, sw, su] m) (to_ptr (strtol a)) = some i := by
      rw [pgdir_walk_congr m _ _ hd]; exact hw
    have hP' : (mon_setperm strtol [c, a, sw, su] m).kern_pgtab i &&& PTE_P ≠ 0 := by
      rw [hkeepP]; exact hP
    obtain ⟨hA, hpP, hpW, hpU⟩ := setperm_entry (m.kern_pgtab i) _ _ hW hU
    have hP1 : PTE_PERM_P (m.kern_pgtab i) = 1 := by
      have := (PTE_PERM_P_ne_zero _).mpr ((and_PTE_P_ne_zero _).mp hP)
      unfold PTE_PERM_P at this ⊢
      rw [Nat.and_one_is_mod] at this ⊢
      omega
    refine ⟨⟨hd, ht, ?_, ?_, ?_, hkeepP, ?_, ?_⟩, ?_, ?_⟩
    · rw [pte_info_display_mapped _ _ i hw' hP', hnew, hA, hpP, hpW, hpU, hP1]
      simp [cprintf]
    · rw [hnew]; exact setperm_set _ _ h6
    · rw [hnew]; exact setperm_keep _ _ _ (by decide) h9
    · rw [hnew]; exact setperm_keep _ _ _ (by decide) hbC
    · rw [hnew]; exact setperm_keep _ _ _ (by decide) hbS
    · obtain ⟨-, ht2, -⟩ := mon_setperm_mapped strtol c a sw su _ i hsw hsu hw' hP'
      rw [ht2, hnew]
      have hk := setperm_keep (m.kern_pgtab i) (sel_U su ||| sel_W sw) 0xFFFFFFF9 (by decide) h9
      rw [hk, ← hnew]
      exact Function.update_eq_self _ _
    · exact (mon_setperm_mapped strtol c a sw su _ i hsw hsu hw' hP').1
  · intro h
    rw [mon_setperm_eq strtol c a sw su m hsw hsu]
    rcases h with h | ⟨i, h, hP⟩
    · rw [pte_info_display_absent m _ h]; exact ⟨rfl, rfl⟩
    · rw [pte_info_display_not_present m _ i h hP]; exact ⟨rfl, rfl⟩

/-- Witness of C8: `setperm 0x800000 r u` on `monitor_one`, whose page at
`0x800000` is present, and on the page at `0x801000`, which is not. -/
theorem setperm_round_trip_witness :
    PermsSet monitor_one (mon_setperm strtol_demo ["setperm", "0x800000", "r", "u"] monitor_one)
      (to_ptr (strtol_demo "0x800000")) 0x800 (sel_W "r") (sel_U "u") ∧
    (mon_setperm strtol_demo ["setperm", "0x801000", "r", "u"] monitor_one).kern_pgtab =
      monitor_one.kern_pgtab :=
  ⟨((setperm_round_trip strtol_demo "setperm" "0x800000" "r" "u" monitor_one
      (Or.inl rfl) (Or.inl rfl)).1 0x800 (by decide) (by decide)).1,
    ((setperm_round_trip strtol_demo "setperm" "0x801000" "r" "u" monitor_one
      (Or.inl rfl) (Or.inl rfl)).2 (Or.inr ⟨0x801, by decide, by decide⟩)).1⟩

/-- Claim C9 fails in the code: `dumpvm` tests only that the walker returned
an entry, not that the entry is present.  In `monitor_one` the page at
`0x801000` has a page table but its entry `0x2006` has `PTE_P` clear; the
command `memdump v 0x801000 1` does not print "pa: none, content: none" for
the word at `0x801000`: it dereferences the word, and the read page-faults
before anything is printed. -/
theorem dumpvm_reads_not_present_page (dumppm : Nat → Nat → Monitor → MonResult) :
    pgdir_walk monitor_one 0x801000 = some 0x801 ∧
    monitor_one.kern_pgtab 0x801 &&& PTE_P = 0 ∧
    mon_dumpmem strtol_demo dumppm ["memdump", "v", "0x801000", "1"] monitor_one =
      MonResult.fault monitor_one 0x801000 := by
  refine ⟨by decide, by decide, ?_⟩
  have hs : ROUNDDOWN (to_ptr (strtol_demo "0x801000")) 4 = 0x801000 := by
    simp [strtol_demo, to_ptr, ROUNDDOWN]
  have he : to_ptr (((0x801000 : Nat) : Int) + 4 * strtol_demo "1") = 0x801004 := by
    simp [strtol_demo, to_ptr]
  have hv : ("v".length = 1 ∧ "v".get 0 = 'v') := by decide
  unfold mon_dumpmem
  simp only [List.length_cons, List.length_nil, List.getD_cons_succ, List.getD_cons_zero]
  rw [hs, he, if_pos hv]
  simp only [Nat.reduceAdd, ne_eq, not_true_eq_false, if_false]
  rw [dumpvm]
  rfl

/-- Claim C10 fails in the code.  A `Translate` of one address is one report,
that of the page containing the address, which is what `pte_info_display`
gives to `mon_setperm` and `mon_clearperm`.  The one-argument `showmapping`
instead hands `page_region_display` the range from `a` to `a + PGSIZE`,
whose end is rounded up and whose sum is taken on 32 bits.  On `monitor_one`,
`showmapping 0x800001` prints two reports, one for the page `0x800000` that
contains the address and one for the next page `0x801000`, where
`pte_info_display` of the address prints the first alone; and
`showmapping 0xfffff000`, whose sum wraps around to 0, prints no report at
all. -/
theorem showmapping_one_address_reports :
    ROUNDDOWN (to_ptr (strtol_demo "0x800001")) PGSIZE = 0x800000 ∧
    (mon_showmapping strtol_demo ["showmapping", "0x800001"] monitor_one).console =
      [Line.va 0x800000, Line.pte_info 0x1000 1 1 0, Line.va 0x801000, Line.not_exist] ∧
    (pte_info_display monitor_one 0x800000).2.console =
      [Line.va 0x800000, Line.pte_info 0x1000 1 1 0] ∧
    (mon_showmapping (fun _ => 0xFFFFF000) ["showmapping", "0xfffff000"] monitor_one).console =
      [] := by
  have hpg : 0x800000 = ROUNDDOWN 0x800001 PGSIZE := by decide
  have h := (mon_showmapping_single strtol_demo "showmapping" "0x800001" monitor_one 0x800001
    0x800000 strtol_demo_800001.symm hpg).2.2.2.2.1 (by decide) (by decide)
  have h1 : translate_report monitor_one 0x800000 =
      [Line.va 0x800000, Line.pte_info 0x1000 1 1 0] := by decide
  have h2 : translate_report monitor_one (0x800000 + PGSIZE) =
      [Line.va 0x801000, Line.not_exist] := by decide
  rw [h1, h2] at h
  have htop : (0xFFFFF000 : Nat) = to_ptr ((fun _ => (0xFFFFF000 : Int)) "0xfffff000") := by
    simp [to_ptr]
  have hw := (mon_showmapping_single (fun _ => 0xFFFFF000) "showmapping" "0xfffff000"
    monitor_one 0xFFFFF000 0xFFFFF000 htop (by decide)).2.2.2.2.2 (Or.inl (by decide))
  rw [strtol_demo_800001]
  refine ⟨hpg.symm, h, ?_, hw⟩
  rw [pte_info_display_console, h1]
  rfl

end JOS
